import Mathlib

/-!
# filesync: a shallow embedding of `server.go`

Go strings are lists of characters, `time.Time` is an integer instant, `int`
and `int64` are integers, and a nil-able pointer is an `Option`. Log output is
not modelled. The filesystem is a finite table from full paths to nodes; paths
are taken literally (no symbolic links and no `.` or `..` elements).
-/

namespace FileSync

/-! ## Constants -/

/-- The final store root. -/
def FileSavePath : List Char := "/var/lib/filesync-save".toList

/-- The staging store root. -/
def FileSyncingPath : List Char := "/var/lib/filesync-sync".toList

/-- The sidecar store root. -/
def FileSyncingInfoPath : List Char := "/var/lib/filesync-info".toList

/-- The retry budget constant of `server.go`. -/
def MaxNumRetries : Nat := 3

/-! ## Data model -/

/-- Snapshot of a regular file as returned by `getFileInfo`. -/
structure FileInfo where
  fullPath : List Char
  size : Int
  modifyTime : Int
deriving DecidableEq, Repr

/-- The sidecar record (the source spells it `FileSnycingInfo`). -/
structure FileSnycingInfo where
  ContentLength : Int
  LastModified : Int
deriving DecidableEq, Repr

/-- The resolved state of one path; each field is a nil-able pointer. -/
structure TargetFileInfo where
  saveFileInfo : Option FileInfo
  syncingFileInfo : Option FileInfo
  fileSyncingInfo : Option FileSnycingInfo
deriving DecidableEq, Repr

/-- The fields of `MyRequestToRemote` other than the `server` pointer and the
`shouldHandle` channel, which are modelled by the coordinator state. -/
structure MyRequestToRemote where
  remoteSerever : List Char
  filePath : List Char
  fileSize : Int
  downloaded : Int
  newDownloaded : Int
  targetFileInfo : Option TargetFileInfo
deriving DecidableEq, Repr

/-! ## The coordinator (`Server.run`) -/

/-- The registry `activeMyRequests`: a Go map from path to request pointer.
A lookup that yields nil (no key) is `none`. -/
structure Server where
  activeMyRequests : List Char → Option MyRequestToRemote

/-- One message received by the `select` of `Server.run`. -/
inductive Message where
  | newMyRequest (my_request : MyRequestToRemote)
  | doneMyRequest (my_request : MyRequestToRemote)
  | downloadPercentageQuery (filePath : List Char)
deriving DecidableEq, Repr

/-- What the coordinator sends back: a value on `shouldHandle` or on `result`. -/
inductive Reply where
  | shouldHandle (accepted : Bool)
  | result (text : List Char)
deriving DecidableEq, Repr

/-- Progress string of a request, from `getDownloadProgressString`. -/
def MyRequestToRemote.getDownloadProgressString (myRequest : MyRequestToRemote) : List Char :=
  if myRequest.fileSize ≤ 0 then "0% downloaded".toList else "downloading".toList

/-- Go map assignment `m[key] = value`. -/
def mapSet (m : List Char → Option MyRequestToRemote) (key : List Char)
    (value : MyRequestToRemote) : List Char → Option MyRequestToRemote :=
  fun k => if k = key then some value else m k

/-- Go `delete(m, key)`. -/
def mapDelete (m : List Char → Option MyRequestToRemote) (key : List Char) :
    List Char → Option MyRequestToRemote :=
  fun k => if k = key then none else m k

/-- One iteration of the `for { select { ... } }` loop of `Server.run`: the
case chosen by the received message, with the reply it sends (if any). -/
def Server.runCase (server : Server) : Message → Server × Option Reply
  | .newMyRequest my_request =>
    match server.activeMyRequests my_request.filePath with
    | none =>
      ({ activeMyRequests := mapSet server.activeMyRequests my_request.filePath my_request },
        some (.shouldHandle true))
    | some _ => (server, some (.shouldHandle false))
  | .doneMyRequest my_request =>
    ({ activeMyRequests := mapDelete server.activeMyRequests my_request.filePath }, none)
  | .downloadPercentageQuery filePath =>
    match server.activeMyRequests filePath with
    | none => (server, some (.result []))
    | some my_request => (server, some (.result my_request.getDownloadProgressString))

/-- The loop of `Server.run` over a finite sequence of received messages:
the registry afterwards and the replies sent, in order. -/
def Server.run (server : Server) : List Message → Server × List (Option Reply)
  | [] => (server, [])
  | m :: ms =>
    let r := server.runCase m
    let rest := Server.run r.1 ms
    (rest.1, r.2 :: rest.2)

/-- A message is a Done message. -/
def Message.isDone : Message → Bool
  | .doneMyRequest _ => true
  | _ => false

/-! ## The filesystem

A finite table from full paths to nodes. Only the operations the program
calls are modelled, each with the result the program can observe. -/

/-- A filesystem object: a regular file with its bytes and modification time,
or a directory. -/
inductive Node where
  | file (data : List Nat) (modTime : Int)
  | dir
deriving DecidableEq, Repr

/-- The filesystem: the first entry for a path is the object at that path. -/
abbrev FS := List (List Char × Node)

/-- A Go `error` value, as far as the program tells errors apart:
`os.IsNotExist` holds exactly of `notExist`. -/
inductive GoError where
  | notExist
  | other
deriving DecidableEq, Repr

/-- The object at a path, if any. -/
def fsLookup : FS → List Char → Option Node
  | [], _ => none
  | (q, n) :: rest, p => if q = p then some n else fsLookup rest p

/-- The table without any entry for a path. -/
def fsErase : FS → List Char → FS
  | [], _ => []
  | (q, n) :: rest, p => if q = p then fsErase rest p else (q, n) :: fsErase rest p

/-- The table with a path bound to a node. -/
def fsSet (fs : FS) (p : List Char) (n : Node) : FS := (p, n) :: fsErase fs p

/-- Some entry lies strictly below the directory path `d`. -/
def fsHasChild (fs : FS) (d : List Char) : Bool :=
  fs.any (fun e => (d ++ ['/']).isPrefixOf e.1)

/-- `os.Stat`: the node at the path, or the not-exist error (the one stat
error the program tells apart). -/
def os_Stat (fs : FS) (name : List Char) : Except GoError Node :=
  match fsLookup fs name with
  | none => .error .notExist
  | some n => .ok n

/-- `os.Remove`: removes a file or an empty directory. -/
def os_Remove (fs : FS) (name : List Char) : FS × Option GoError :=
  match fsLookup fs name with
  | none => (fs, some .notExist)
  | some (.file _ _) => (fsErase fs name, none)
  | some .dir => if fsHasChild fs name then (fs, some .other) else (fsErase fs name, none)

/-- `ioutil.ReadFile`: the bytes of a regular file. -/
def ioutil_ReadFile (fs : FS) (name : List Char) : Except GoError (List Nat) :=
  match fsLookup fs name with
  | none => .error .notExist
  | some (.file data _) => .ok data
  | some .dir => .error .other

/-- The directory chain of a clean path, longest first: the path itself and
every proper prefix that ends right before a separator. -/
def dirChain (d : List Char) : List (List Char) :=
  (d.inits.filter (fun q => q ≠ [] ∧ (q = d ∨ (d.drop q.length).head? = some '/'))).reverse

/-- The recursion of `os.MkdirAll` along a directory chain (longest first):
an existing directory ends it with success, a file with an error, and a
missing element is created after its parents. -/
def mkdirChain (fs : FS) : List (List Char) → FS × Option GoError
  | [] => (fs, none)
  | p :: parents =>
    match fsLookup fs p with
    | some .dir => (fs, none)
    | some (.file _ _) => (fs, some .other)
    | none =>
      match mkdirChain fs parents with
      | (fs1, some e) => (fs1, some e)
      | (fs1, none) => (fsSet fs1 p .dir, none)

/-- `os.MkdirAll`. -/
def os_MkdirAll (fs : FS) (path : List Char) : FS × Option GoError :=
  mkdirChain fs (dirChain path)

/-- The index of the last `/` of a path, if any. -/
def lastSlash : List Char → Option Nat
  | [] => none
  | c :: rest =>
    match lastSlash rest with
    | some i => some (i + 1)
    | none => if c = '/' then some 0 else none

/-- `filepath.Dir` on a clean path: everything before the last separator. -/
def filepath_Dir (path : List Char) : List Char :=
  match lastSlash path with
  | none => ['.']
  | some 0 => ['/']
  | some i => path.take i

/-- `os.OpenFile(name, flag|O_WRONLY|O_CREATE, 0644)` followed by `io.Copy` of
`body` and `Close`, at time `now`: `appendMode` selects `O_APPEND` over
`O_TRUNC`. The result is the number of bytes copied and the open error. The
program opens a file only after `os.MkdirAll` has made its directory. -/
def os_OpenWrite (fs : FS) (name : List Char) (appendMode : Bool) (body : List Nat)
    (now : Int) : FS × Int × Option GoError :=
  match fsLookup fs name with
  | some .dir => (fs, 0, some .other)
  | some (.file data _) =>
    (fsSet fs name (.file ((if appendMode then data else []) ++ body) now), body.length, none)
  | none => (fsSet fs name (.file body now), body.length, none)

/-- The entry `e` moved along with a renamed directory `oldpath`. -/
def renameEntry (oldpath newpath : List Char) (e : List Char × Node) : List Char × Node :=
  if e.1 = oldpath ∨ (oldpath ++ ['/']).isPrefixOf e.1 then
    (newpath ++ e.1.drop oldpath.length, e.2)
  else e

/-- `os.Rename`: a regular file replaces a file at the new path and fails on
a directory there; a directory moves with everything below it onto a missing
path or an empty directory; a missing source fails. -/
def os_Rename (fs : FS) (oldpath newpath : List Char) : FS × Option GoError :=
  match fsLookup fs oldpath with
  | none => (fs, some .notExist)
  | some (.file data modTime) =>
    match fsLookup fs newpath with
    | some .dir => (fs, some .other)
    | _ =>
      if oldpath = newpath then (fs, none)
      else (fsSet (fsErase fs oldpath) newpath (.file data modTime), none)
  | some .dir =>
    if oldpath = newpath then (fs, none)
    else if (oldpath ++ ['/']).isPrefixOf newpath then (fs, some .other)
    else
      match fsLookup fs newpath with
      | some (.file _ _) => (fs, some .other)
      | some .dir =>
        if fsHasChild fs newpath then (fs, some .other)
        else ((fsErase fs newpath).map (renameEntry oldpath newpath), none)
      | none => (fs.map (renameEntry oldpath newpath), none)

/-- `os.Chtimes`: sets the modification time of an existing file (a
directory carries no time here). -/
def os_Chtimes (fs : FS) (name : List Char) (mtime : Int) : FS × Option GoError :=
  match fsLookup fs name with
  | none => (fs, some .notExist)
  | some (.file data _) => (fsSet fs name (.file data mtime), none)
  | some .dir => (fs, none)

/-! ## Library functions outside the repository -/

/-- The codec and parser the program takes from the Go standard library:
`json.Unmarshal` and `json.Marshal` on the sidecar record, and
`time.Parse(http.TimeFormat, ·)`. -/
structure Lib where
  jsonUnmarshal : List Nat → Option FileSnycingInfo
  jsonMarshal : FileSnycingInfo → List Nat
  timeParse : List Char → Option Int

/-- Value of a decimal digit. -/
def digitVal (c : Char) : Option Nat :=
  if '0' ≤ c ∧ c ≤ '9' then some (c.toNat - '0'.toNat) else none

/-- Value of a string of decimal digits, continuing from `acc`. -/
def parseDigits : List Char → Nat → Option Nat
  | [], acc => some acc
  | c :: rest, acc =>
    match digitVal c with
    | none => none
    | some d => parseDigits rest (acc * 10 + d)

/-- `strconv.Atoi` on a 64-bit platform: an optional sign, then one or more
decimal digits, with a value in the range of `int`; `none` is a non-nil
error. -/
def strconv_Atoi (s : List Char) : Option Int :=
  match s with
  | [] => none
  | '-' :: rest =>
    if rest = [] then none else
    match parseDigits rest 0 with
    | none => none
    | some n => if n ≤ 2 ^ 63 then some (-(n : Int)) else none
  | '+' :: rest =>
    if rest = [] then none else
    match parseDigits rest 0 with
    | none => none
    | some n => if n < 2 ^ 63 then some (n : Int) else none
  | _ =>
    match parseDigits s 0 with
    | none => none
    | some n => if n < 2 ^ 63 then some (n : Int) else none

/-- `strings.IndexByte`: index of the first occurrence, or -1. -/
def strings_IndexByte : List Char → Char → Int
  | [], _ => -1
  | x :: rest, c =>
    if x = c then 0 else
    let i := strings_IndexByte rest c
    if i < 0 then -1 else i + 1

/-- `strings.TrimPrefix`. -/
def strings_TrimPrefix (s pre : List Char) : List Char :=
  if pre.isPrefixOf s then s.drop pre.length else s

/-! ## File helpers of `server.go` -/

/-- `filepath.Separator` on the platform the constants are written for. -/
def filepath_Separator : Char := '/'

/-- Prefixes a path with `/` unless it has one (`validateFilePath`). -/
def validateFilePath (filePath : List Char) : List Char :=
  if ['/'].isPrefixOf filePath then filePath else '/' :: filePath

/-- Store root followed by the request path (`getFilleFullPath`);
`filepath.FromSlash` is the identity for separator `/`. -/
def getFilleFullPath (path file : List Char) : List Char := path ++ file

/-- Stat of a regular file (`getFileInfo`): a directory is an error that
is not a not-exist error. -/
def getFileInfo (fs : FS) (fullFilePath : List Char) : Except GoError FileInfo :=
  match os_Stat fs fullFilePath with
  | .error err => .error err
  | .ok .dir => .error .other
  | .ok (.file data modTime) =>
    .ok { fullPath := fullFilePath, size := data.length, modifyTime := modTime }

/-- Best-effort read of the sidecar (`readFileSyncingInfo`): nil on any read
or decode failure. -/
def readFileSyncingInfo (L : Lib) (fs : FS) (fullFilePath : List Char) : Option FileSnycingInfo :=
  match ioutil_ReadFile fs fullFilePath with
  | .error _ => none
  | .ok file => L.jsonUnmarshal file

/-- `makeSureParentFolderCreated`. -/
def makeSureParentFolderCreated (fs : FS) (fullFilePath : List Char) : FS × Option GoError :=
  os_MkdirAll fs (filepath_Dir fullFilePath)

/-- Sidecar write (`writeFileSyncingInfo`) at time `now`. -/
def writeFileSyncingInfo (L : Lib) (fs : FS) (fullFilePath : List Char) (info : FileSnycingInfo)
    (now : Int) : FS × Option GoError :=
  match makeSureParentFolderCreated fs fullFilePath with
  | (fs1, some err) => (fs1, some err)
  | (fs1, none) =>
    let w := os_OpenWrite fs1 fullFilePath false (L.jsonMarshal info) now
    (w.1, w.2.2)

/-- Body copy (`writeFileFromReader`) at time `now`: `reader` is the bytes the
reader yields; the result carries the number of bytes copied. -/
def writeFileFromReader (fs : FS) (reader : List Nat) (fullFilePath : List Char)
    (isAppend : Bool) (now : Int) : FS × Int × Option GoError :=
  match makeSureParentFolderCreated fs fullFilePath with
  | (fs1, some err) => (fs1, 0, some err)
  | (fs1, none) => os_OpenWrite fs1 fullFilePath isAppend reader now

/-- `changeFileModifyTime`. -/
def changeFileModifyTime (fs : FS) (fullFilePath : List Char) (utcTime : Int) :
    FS × Option GoError :=
  os_Chtimes fs fullFilePath utcTime

/-- `MyRequestToRemote.removeFile`, for a request with path `filePath`. The
slices `filePath[1:]` and `fullFilePath[:index]` are in range at every call
of the program: `filePath` starts with `/` and `fullFilePath` ends with it. -/
def removeFile (filePath : List Char) (fs : FS) (fullFilePath : List Char) :
    FS × Option GoError :=
  let index := strings_IndexByte (filePath.drop 1) '/'
  if index < 0 then os_Remove fs fullFilePath
  else
    let index := index + 1
    let index := (fullFilePath.length : Int) - (filePath.length : Int) + index
    let fs1 := (os_Remove fs fullFilePath).1
    os_Remove fs1 (fullFilePath.take index.toNat)

/-- `MyRequestToRemote.moveFile`, for a request with path `filePath`. -/
def moveFile (filePath : List Char) (fs : FS) (fromFilePath toFilePath : List Char) :
    FS × Option GoError :=
  let fs0 := if filepath_Separator = '\\' then (removeFile filePath fs toFilePath).1 else fs
  match makeSureParentFolderCreated fs0 toFilePath with
  | (fs1, some err) => (fs1, some err)
  | (fs1, none) =>
    match os_Rename fs1 fromFilePath toFilePath with
    | (fs2, some err) => (fs2, some err)
    | (fs2, none) => removeFile filePath fs2 fromFilePath

/-! ## The resolver (`getTargetFileInfo`) -/

/-- How a call of `getTargetFileInfo` ends: with a record, with an error, or
in a nil-pointer dereference. -/
inductive Resolved where
  | ok (info : TargetFileInfo)
  | error (err : GoError)
  | nilDereference
deriving DecidableEq, Repr

/-- The pointer a `(value, err)` result of `getFileInfo` leaves in the
variable: nil when there is an error. -/
def fileInfoPtr : Except GoError FileInfo → Option FileInfo
  | .ok info => some info
  | .error _ => none

/-- An error of `getFileInfo` that is not a not-exist error. -/
def hardError : Except GoError FileInfo → Option GoError
  | .error .other => some .other
  | _ => none

/-- `MyRequestToRemote.getTargetFileInfo`, for a request with path
`requestPath`, on argument `filePath`. -/
def getTargetFileInfo (L : Lib) (requestPath : List Char) (fs : FS) (filePath : List Char) :
    FS × Resolved :=
  let r_save := getFileInfo fs (getFilleFullPath FileSavePath filePath)
  match hardError r_save with
  | some err => (fs, .error err)
  | none =>
  let save_file_info := fileInfoPtr r_save
  let r_syncing := getFileInfo fs (getFilleFullPath FileSyncingPath filePath)
  match hardError r_syncing with
  | some err => (fs, .error err)
  | none =>
  let syncing_file_info := fileInfoPtr r_syncing
  let syncing_info_file_path := getFilleFullPath FileSyncingInfoPath filePath
  let syncing_info := readFileSyncingInfo L fs syncing_info_file_path
  -- first reconciliation: exactly one of the pair is present
  let step1 : FS × Option FileInfo × Option FileSnycingInfo :=
    match syncing_info, syncing_file_info with
    | none, some sfi => ((removeFile requestPath fs sfi.fullPath).1, none, none)
    | some _, none => ((removeFile requestPath fs syncing_info_file_path).1, none, none)
    | si, sfi => (fs, sfi, si)
  let fs1 := step1.1
  let syncing_file_info := step1.2.1
  let syncing_info := step1.2.2
  -- staleness
  match syncing_info, save_file_info with
  | some si, some sv =>
    if si.LastModified < sv.modifyTime then
      match syncing_file_info with
      | none => (fs1, .nilDereference)
      | some sfi =>
        let fs2 := (removeFile requestPath fs1 sfi.fullPath).1
        let fs3 := (removeFile requestPath fs2 syncing_info_file_path).1
        (fs3, .ok { saveFileInfo := save_file_info, syncingFileInfo := none,
                    fileSyncingInfo := none })
    else
      (fs1, .ok { saveFileInfo := save_file_info, syncingFileInfo := syncing_file_info,
                  fileSyncingInfo := syncing_info })
  | _, _ =>
    (fs1, .ok { saveFileInfo := save_file_info, syncingFileInfo := syncing_file_info,
                fileSyncingInfo := syncing_info })

/-! ## Content-Range -/

/-- The parsed `Content-Range` header. -/
structure ContentRange where
  start : Int
  length : Int
  expectedLength : Int
deriving DecidableEq, Repr

/-- `perseContentRange`: nil unless the header is `bytes ` followed by
`<int>-<int>/<anything>`. -/
def perseContentRange (contentRange : List Char) : Option ContentRange :=
  let range_str := strings_TrimPrefix contentRange "bytes ".toList
  if range_str ≠ contentRange then
    let p1 := strings_IndexByte range_str '-'
    if p1 > 0 then
      let p2 := strings_IndexByte (range_str.drop p1.toNat) '/'
      if p2 > 0 then
        let p2 := p2 + p1
        let r1 := strconv_Atoi (range_str.take p1.toNat)
        let r2 := strconv_Atoi ((range_str.take p2.toNat).drop (p1.toNat + 1))
        let r3 := strconv_Atoi (range_str.drop (p2.toNat + 1))
        let expected_length : Int := match r3 with
          | some v => v
          | none => 0
        match r1, r2 with
        | some start, some length =>
          some { start := start, length := length, expectedLength := expected_length }
        | _, _ => none
      else none
    else none
  else none

/-! ## The executor (`MyRequestToRemote.run`, `doDownload`) -/

/-- The headers `doDownload` sets on the outbound request: `Range` is the
offset of `bytes=<offset>-`; the two validators are the instants whose
`http.TimeFormat` rendering is sent. -/
structure Request where
  url : List Char
  Range : Option Int
  IfRange : Option Int
  IfModifiedSince : Option Int
deriving DecidableEq, Repr

/-- What `doDownload` reads of a response: the status, the three headers
(empty when absent) and the bytes the body yields to `io.Copy`. -/
structure Response where
  StatusCode : Int
  ContentRange : List Char
  ContentLength : List Char
  LastModified : List Char
  Body : List Nat
deriving DecidableEq, Repr

/-- What the network does in one attempt: `http.NewRequest` fails,
`client.Do` fails, or a response arrives; `now` is the time of the writes of
that attempt. -/
inductive NetOutcome where
  | newRequestError
  | doError
  | response (r : Response) (now : Int)
deriving DecidableEq, Repr

/-- The state an executor acts on: its own fields, the filesystem, the
requests sent on `server.doneMyRequests` (by path), and the outbound requests
dispatched so far. -/
structure State where
  myRequest : MyRequestToRemote
  fs : FS
  doneMyRequests : List (List Char)
  dispatched : List Request
deriving DecidableEq, Repr

/-- `MyRequestToRemote.close`: one send on `doneMyRequests`. -/
def State.close (s : State) : State :=
  { s with doneMyRequests := s.doneMyRequests ++ [s.myRequest.filePath] }

/-- `MyRequestToRemote.removeTempFiles`. -/
def State.removeTempFiles (s : State) : State :=
  let fs1 := (removeFile s.myRequest.filePath s.fs
    (getFilleFullPath FileSyncingPath s.myRequest.filePath)).1
  let fs2 := (removeFile s.myRequest.filePath fs1
    (getFilleFullPath FileSyncingInfoPath s.myRequest.filePath)).1
  { s with fs := fs2 }

/-- `MyRequestToRemote.error` (the message is only logged). -/
def State.error (s : State) (fatal : Bool) : State :=
  (if fatal then s.removeTempFiles else s).close

/-- `MyRequestToRemote.ok`. -/
def State.ok (s : State) (justFinished : Bool) (utcTime : Int) : State :=
  if justFinished then
    let p := s.myRequest.filePath
    let s1 := { s with fs := (moveFile p s.fs (getFilleFullPath FileSyncingPath p)
      (getFilleFullPath FileSavePath p)).1 }
    let s2 := s1.removeTempFiles
    let s3 := { s2 with fs := (changeFileModifyTime s2.fs (getFilleFullPath FileSavePath p)
      utcTime).1 }
    s3.close
  else s.close

/-- The header block of `doDownload` (lines 352-357); `none` is the
nil-pointer dereference of `fileSyncingInfo`. -/
def buildRequest (myRequest : MyRequestToRemote) (target_file_info : TargetFileInfo) :
    Option Request :=
  let remote_url := "http://".toList ++ myRequest.remoteSerever ++
    validateFilePath myRequest.filePath
  match target_file_info.syncingFileInfo with
  | some sfi =>
    match target_file_info.fileSyncingInfo with
    | none => none
    | some fsi =>
      some { url := remote_url, Range := some sfi.size, IfRange := some fsi.LastModified,
             IfModifiedSince := none }
  | none =>
    match target_file_info.saveFileInfo with
    | some sv =>
      some { url := remote_url, Range := none, IfRange := none,
             IfModifiedSince := some sv.modifyTime }
    | none => some { url := remote_url, Range := none, IfRange := none, IfModifiedSince := none }

/-- Adds to both byte counters after a body copy. -/
def State.addDownloaded (s : State) (num_bytes : Int) : State :=
  { s with myRequest := { s.myRequest with
      downloaded := s.myRequest.downloaded + num_bytes
      newDownloaded := s.myRequest.newDownloaded + num_bytes } }

/-- The 206 branch of `doDownload`. -/
def doDownload206 (target_file_info : TargetFileInfo) (r : Response) (now : Int) (s : State) :
    State × Bool :=
  match target_file_info.syncingFileInfo, target_file_info.fileSyncingInfo with
  | some sfi, some fsi =>
    let s := { s with myRequest := { s.myRequest with
      fileSize := fsi.ContentLength, downloaded := sfi.size } }
    match perseContentRange r.ContentRange with
    | none => (s.error false, false)
    | some content_range =>
      if content_range.start ≠ sfi.size then (s.error false, false)
      else
        match strconv_Atoi r.ContentLength with
        | none => (s.error false, false)
        | some content_length =>
          let w := writeFileFromReader s.fs r.Body
            (getFilleFullPath FileSyncingPath s.myRequest.filePath) true now
          let num_bytes := w.2.1
          let s := ({ s with fs := w.1 }).addDownloaded num_bytes
          if num_bytes > content_length then (s.error true, false)
          else
            let new_size := num_bytes + sfi.size
            if new_size > fsi.ContentLength then (s.error true, false)
            else if num_bytes = content_length ∧ new_size = fsi.ContentLength then
              (s.ok true fsi.LastModified, false)
            else (s, true)
  | _, _ => (s.error false, false)

/-- The 200/416 branch of `doDownload`. -/
def doDownload200 (L : Lib) (r : Response) (now : Int) (s : State) : State × Bool :=
  let s := s.removeTempFiles
  match strconv_Atoi r.ContentLength with
  | none => (s.error false, false)
  | some content_length =>
    let s := { s with myRequest := { s.myRequest with
      fileSize := content_length, downloaded := 0 } }
    match L.timeParse r.LastModified with
    | none => (s.error false, false)
    | some last_modified =>
      let syncing_info : FileSnycingInfo :=
        { ContentLength := content_length, LastModified := last_modified }
      let s := { s with fs := (writeFileSyncingInfo L s.fs
        (getFilleFullPath FileSyncingInfoPath s.myRequest.filePath) syncing_info now).1 }
      let w := writeFileFromReader s.fs r.Body
        (getFilleFullPath FileSyncingPath s.myRequest.filePath) false now
      let num_bytes := w.2.1
      let s := ({ s with fs := w.1 }).addDownloaded num_bytes
      if num_bytes > content_length then (s.error true, false)
      else if num_bytes = content_length then (s.ok true last_modified, false)
      else (s, true)

/-- `MyRequestToRemote.doDownload` for one network outcome: the state
afterwards and the returned flag (true signals retry); `none` is a
nil-pointer dereference. -/
def doDownload (L : Lib) (net : NetOutcome) (s : State) : Option (State × Bool) :=
  match net with
  | .newRequestError => some (s.error false, false)
  | .doError =>
    match s.myRequest.targetFileInfo with
    | none => none
    | some target_file_info =>
      match buildRequest s.myRequest target_file_info with
      | none => none
      | some request =>
        some (({ s with dispatched := s.dispatched ++ [request] }).error false, false)
  | .response r now =>
    match s.myRequest.targetFileInfo with
    | none => none
    | some target_file_info =>
      match buildRequest s.myRequest target_file_info with
      | none => none
      | some request =>
        let s := { s with dispatched := s.dispatched ++ [request] }
        if r.StatusCode = 304 then
          some ((s.removeTempFiles).ok false 0, false)
        else if r.StatusCode = 206 then
          some (doDownload206 target_file_info r now s)
        else if r.StatusCode = 200 ∨ r.StatusCode = 416 then
          some (doDownload200 L r now s)
        else some (s.error false, false)

/-- How `run` ends: it returns, or a nil pointer is dereferenced; `fuel` is
the loop bound of the model running out. Each carries the number of
executions of `doDownload`. -/
inductive RunResult where
  | returned (s : State) (executions : Nat)
  | nilDereference (executions : Nat)
  | fuel
deriving DecidableEq, Repr

/-- The loop of `MyRequestToRemote.run` from the head of an iteration, with
`num_retries` as in the source and `world k` the network outcome of the
attempt made while `num_retries = k`. The misspelt `reurn` of line 334 is
read as `return`. -/
def runLoop (L : Lib) (world : Nat → NetOutcome) :
    Nat → Nat → State → RunResult
  | 0, _, _ => .fuel
  | fuel + 1, num_retries, s =>
    match doDownload L (world num_retries) s with
    | none => .nilDereference (num_retries + 1)
    | some (s1, retry) =>
      if retry ∧ num_retries ≤ MaxNumRetries then
        let num_retries := num_retries + 1
        let r := getTargetFileInfo L s1.myRequest.filePath s1.fs s1.myRequest.filePath
        match r.2 with
        | .nilDereference => .nilDereference num_retries
        | .error _ =>
          let s2 := { s1 with fs := r.1, myRequest := { s1.myRequest with targetFileInfo := none } }
          .returned (s2.error false) num_retries
        | .ok info =>
          let s2 := { s1 with fs := r.1,
                              myRequest := { s1.myRequest with targetFileInfo := some info } }
          runLoop L world fuel num_retries s2
      else .returned s1 (num_retries + 1)

/-- `MyRequestToRemote.run`. -/
def run (L : Lib) (world : Nat → NetOutcome) (s : State) : RunResult :=
  runLoop L world (MaxNumRetries + 2) 0 s

/-- A regular file exists at a path. -/
def fileAt (fs : FS) (p : List Char) : Bool :=
  match fsLookup fs p with
  | some (.file _ _) => true
  | _ => false

/-- The empty registry. -/
def emptyServer : Server := { activeMyRequests := fun _ => none }

/-- A fresh request for a path from a peer. -/
def newRequest (remote filePath : List Char) (info : TargetFileInfo) : MyRequestToRemote :=
  { remoteSerever := remote, filePath := filePath, fileSize := 0, downloaded := 0,
    newDownloaded := 0, targetFileInfo := some info }

/-- What an attempt reports: nothing when it signals retry, one message
otherwise. -/
def reportOf (s : State) (retry : Bool) : List (List Char) :=
  if retry then [] else [s.myRequest.filePath]


/-- A small codec standing in for the library on sample inputs: a sidecar
record is stored as two bytes, and a time header is a decimal instant. -/
def sampleLib : Lib where
  jsonUnmarshal := fun b =>
    match b with
    | [a, b] => some { ContentLength := a, LastModified := b }
    | _ => none
  jsonMarshal := fun i => [i.ContentLength.toNat, i.LastModified.toNat]
  timeParse := strconv_Atoi

/-- The requests sent on `doneMyRequests` by a run that returned. -/
def RunResult.doneMyRequests : RunResult → Option (List (List Char))
  | .returned s _ => some s.doneMyRequests
  | _ => none

/-- The number of executions of `doDownload` in a run. -/
def RunResult.executions : RunResult → Option Nat
  | .returned _ n => some n
  | .nilDereference n => some n
  | .fuel => none

/-- The filesystem a run that returned leaves behind. -/
def RunResult.fs : RunResult → Option FS
  | .returned s _ => some s.fs
  | _ => none

/-- A 200 response that declares ten bytes and delivers four. -/
def shortResponse : Response :=
  { StatusCode := 200, ContentRange := [], ContentLength := "10".toList,
    LastModified := "77".toList, Body := [1, 2, 3, 4] }

/-- An admitted request for `/a.bin` from peer `h:80`, with nothing on disk. -/
def freshState : State :=
  { myRequest := newRequest "h:80".toList "/a.bin".toList ⟨none, none, none⟩,
    fs := [], doneMyRequests := [], dispatched := [] }

/-- The request path of the sample inputs. -/
def samplePath : List Char := "/a.bin".toList

/-- A filesystem holding only a sidecar file for `/a.bin`, empty and so not
decodable. -/
def undecodableSidecarFS : FS :=
  [(getFilleFullPath FileSyncingInfoPath samplePath, .file [] 5)]

/-- A filesystem in which `/a.bin` has a final file of time 9, four staged
bytes, and a sidecar declaring ten bytes of a version of time 7. -/
def staleFS : FS :=
  [(getFilleFullPath FileSavePath samplePath, .file [0, 0] 9),
   (getFilleFullPath FileSyncingPath samplePath, .file [1, 2, 3, 4] 5),
   (getFilleFullPath FileSyncingInfoPath samplePath, .file [10, 7] 5)]

/-- A filesystem in which `/a.bin` has four staged bytes and a sidecar
declaring ten bytes of a version of time 7, and no final file. -/
def resumeFS : FS :=
  [(getFilleFullPath FileSyncingPath samplePath, .file [1, 2, 3, 4] 5),
   (getFilleFullPath FileSyncingInfoPath samplePath, .file [10, 7] 5)]

/-- A request for `/a.bin` that was resolved on `resumeFS`: four staged
bytes of ten, sidecar time 7. -/
def resumeState : State :=
  { myRequest := newRequest "h:80".toList samplePath
      ⟨none, some ⟨getFilleFullPath FileSyncingPath samplePath, 4, 5⟩, some ⟨10, 7⟩⟩,
    fs := resumeFS, doneMyRequests := [], dispatched := [] }

/-- A 206 response for bytes 4-9 of 10 that declares six bytes and delivers
seven. -/
def overlongResponse : Response :=
  { StatusCode := 206, ContentRange := "bytes 4-9/10".toList, ContentLength := "6".toList,
    LastModified := [], Body := [5, 6, 7, 8, 9, 10, 11] }

/-- A 206 response for bytes 4-9 of 10 with a six-byte body. -/
def resumeResponse : Response :=
  { StatusCode := 206, ContentRange := "bytes 4-9/10".toList, ContentLength := "6".toList,
    LastModified := [], Body := [5, 6, 7, 8, 9, 10] }

/-- A 206 response whose range starts at byte 5 although four are staged. -/
def misalignedResponse : Response :=
  { StatusCode := 206, ContentRange := "bytes 5-9/10".toList, ContentLength := "5".toList,
    LastModified := [], Body := [6, 7, 8, 9, 10] }

/-- A 200 response whose `Content-Length` header is not a number. -/
def garbledResponse : Response :=
  { StatusCode := 200, ContentRange := [], ContentLength := "ten".toList,
    LastModified := "77".toList, Body := [1, 2, 3, 4, 5, 6, 7, 8, 9, 10] }

/-- A request path with two directory levels. -/
def deepPath : List Char := "/a/b/c.bin".toList

/-- A staging tree holding `/a/b/c.bin` as the only file, in directories `/a`
and `/a/b`. -/
def deepFS : FS :=
  [(FileSyncingPath ++ "/a".toList, .dir), (FileSyncingPath ++ "/a/b".toList, .dir),
   (FileSyncingPath ++ deepPath, .file [1] 5)]

/-- A request path with one directory level. -/
def nestedPath : List Char := "/a/c.bin".toList

/-- A staging tree holding `/a/c.bin` as the only file of directory `/a`. -/
def nestedFS : FS :=
  [(FileSyncingPath ++ "/a".toList, .dir), (FileSyncingPath ++ nestedPath, .file [1] 5)]

/-- A 200 response that declares ten bytes, dated 77, and delivers them. -/
def fullResponse : Response :=
  { StatusCode := 200, ContentRange := [], ContentLength := "10".toList,
    LastModified := "77".toList, Body := [1, 2, 3, 4, 5, 6, 7, 8, 9, 10] }

/-- A request for `/a.bin` resolved while only its final file, of time 9,
is on disk. -/
def syncedState : State :=
  { myRequest := newRequest "h:80".toList samplePath
      ⟨some ⟨getFilleFullPath FileSavePath samplePath, 2, 9⟩, none, none⟩,
    fs := [(getFilleFullPath FileSavePath samplePath, .file [0, 0] 9)],
    doneMyRequests := [], dispatched := [] }

/-- A 304 response. -/
def notModifiedResponse : Response :=
  { StatusCode := 304, ContentRange := [], ContentLength := [], LastModified := [],
    Body := [] }

/-- A registry whose only entry is a request for `/a.bin`. -/
def busyServer : Server :=
  { activeMyRequests := mapSet (fun _ => none) samplePath
      (newRequest "h:80".toList samplePath ⟨none, none, none⟩) }

/-- The character of a decimal digit. -/
def digitChar (d : Nat) : Char := Char.ofNat ('0'.toNat + d)

/-- Decimal digits of `n` put in front of `acc`, most significant first. -/
def decimalAux : Nat → Nat → List Char → List Char
  | 0, _, acc => acc
  | fuel + 1, n, acc =>
    if n < 10 then digitChar n :: acc
    else decimalAux fuel (n / 10) (digitChar (n % 10) :: acc)

/-- The decimal numeral of a natural number, as `%d` prints it. -/
def decimal (n : Nat) : List Char := decimalAux (n + 1) n []

/-! ## Intermediate filesystems

The filesystems a helper leaves after each of its filesystem calls, in
order; a body copy leaves one after each byte. -/

/-- The filesystems `removeTempFiles` passes through: after the staging file
is removed, then after the sidecar is removed. -/
def State.removeTempFilesStates (s : State) : List FS :=
  let fs1 := (removeFile s.myRequest.filePath s.fs
    (getFilleFullPath FileSyncingPath s.myRequest.filePath)).1
  let fs2 := (removeFile s.myRequest.filePath fs1
    (getFilleFullPath FileSyncingInfoPath s.myRequest.filePath)).1
  [fs1, fs2]

/-- The filesystems `writeFileSyncingInfo` passes through: after the
directories are made, after the file is opened and truncated, after the
record is written. -/
def writeFileSyncingInfoStates (L : Lib) (fs : FS) (fullFilePath : List Char)
    (info : FileSnycingInfo) (now : Int) : List FS :=
  match makeSureParentFolderCreated fs fullFilePath with
  | (fs1, some _) => [fs1]
  | (fs1, none) =>
    [fs1, (os_OpenWrite fs1 fullFilePath false [] now).1,
      (os_OpenWrite fs1 fullFilePath false (L.jsonMarshal info) now).1]

/-- The filesystems `writeFileFromReader` passes through: after the
directories are made, after the file is opened, and after each further byte
of the reader is copied. -/
def writeFileFromReaderStates (fs : FS) (reader : List Nat) (fullFilePath : List Char)
    (isAppend : Bool) (now : Int) : List FS :=
  match makeSureParentFolderCreated fs fullFilePath with
  | (fs1, some _) => [fs1]
  | (fs1, none) =>
    fs1 :: (List.range (reader.length + 1)).map
      (fun k => (os_OpenWrite fs1 fullFilePath isAppend (reader.take k) now).1)

/-- The filesystems `moveFile` passes through (separator `/`): after the
directories are made, after the rename, after the source is removed. -/
def moveFileStates (filePath : List Char) (fs : FS) (fromFilePath toFilePath : List Char) :
    List FS :=
  match makeSureParentFolderCreated fs toFilePath with
  | (fs1, some _) => [fs1]
  | (fs1, none) =>
    match os_Rename fs1 fromFilePath toFilePath with
    | (fs2, some _) => [fs1, fs2]
    | (fs2, none) => [fs1, fs2, (removeFile filePath fs2 fromFilePath).1]

/-- The filesystems `ok(true, utcTime)` passes through. -/
def State.okStates (s : State) (utcTime : Int) : List FS :=
  let p := s.myRequest.filePath
  let s1 : State := { s with fs := (moveFile p s.fs (getFilleFullPath FileSyncingPath p)
    (getFilleFullPath FileSavePath p)).1 }
  moveFileStates p s.fs (getFilleFullPath FileSyncingPath p) (getFilleFullPath FileSavePath p)
    ++ s1.removeTempFilesStates
    ++ [(changeFileModifyTime s1.removeTempFiles.fs (getFilleFullPath FileSavePath p)
      utcTime).1]

/-- The filesystems the 200/416 branch of `doDownload` passes through, from
its first filesystem call to its last. -/
def doDownload200States (L : Lib) (r : Response) (now : Int) (s : State) : List FS :=
  s.removeTempFilesStates ++
  (let s := s.removeTempFiles
  match strconv_Atoi r.ContentLength with
  | none => []
  | some content_length =>
    match L.timeParse r.LastModified with
    | none => []
    | some last_modified =>
      let syncing_info : FileSnycingInfo :=
        { ContentLength := content_length, LastModified := last_modified }
      let infoPath := getFilleFullPath FileSyncingInfoPath s.myRequest.filePath
      let stagingPath := getFilleFullPath FileSyncingPath s.myRequest.filePath
      let fs2 := (writeFileSyncingInfo L s.fs infoPath syncing_info now).1
      let w := writeFileFromReader fs2 r.Body stagingPath false now
      let num_bytes := w.2.1
      let s3 : State := { s with fs := w.1 }
      writeFileSyncingInfoStates L s.fs infoPath syncing_info now ++
      writeFileFromReaderStates fs2 r.Body stagingPath false now ++
      (if num_bytes > content_length then s3.removeTempFilesStates
       else if num_bytes = content_length then s3.okStates last_modified
       else []))

/-- On filesystem `fs`, for the response with body `body` being staged for
path `p`: if a staging file exists, it holds the first bytes of `body` and
reading the sidecar gives `side` (a record, or nil when it cannot be read). -/
def sidecarReads (L : Lib) (p : List Char) (body : List Nat) (side : Option FileSnycingInfo)
    (fs : FS) : Prop :=
  fileAt fs (getFilleFullPath FileSyncingPath p) = true →
    readFileSyncingInfo L fs (getFilleFullPath FileSyncingInfoPath p) = side ∧
    ∃ k t, fsLookup fs (getFilleFullPath FileSyncingPath p) = some (.file (body.take k) t)

/-- A filesystem on which an earlier request for `/a/b` left its sidecar file
behind, empty: a regular file where the sidecar of `/a/b/c.bin` needs a
directory. -/
def blockedFS : FS :=
  [(FileSyncingInfoPath ++ "/a".toList, .dir),
   (FileSyncingInfoPath ++ "/a/b".toList, .file [] 5)]

/-- An admitted request for `/a/b/c.bin` from peer `h:80`, resolved on
`blockedFS`. -/
def blockedState : State :=
  { myRequest := newRequest "h:80".toList deepPath ⟨none, none, none⟩,
    fs := blockedFS, doneMyRequests := [], dispatched := [] }

/-! ## Theorems -/

/-! ### Table lemmas -/

theorem fsLookup_erase_self (fs : FS) (p : List Char) : fsLookup (fsErase fs p) p = none := by
  induction fs with
  | nil => rfl
  | cons e rest ih =>
    obtain ⟨q, n⟩ := e
    by_cases h : q = p <;> simp [fsErase, fsLookup, h, ih]

theorem fsLookup_erase_ne (fs : FS) (p q : List Char) (h : q ≠ p) :
    fsLookup (fsErase fs p) q = fsLookup fs q := by
  induction fs with
  | nil => rfl
  | cons e rest ih =>
    obtain ⟨k, n⟩ := e
    by_cases h1 : k = p
    · subst h1
      have h2 : k ≠ q := fun hk => h hk.symm
      simp [fsErase, fsLookup, h2, ih]
    · by_cases h2 : k = q
      · subst h2
        simp [fsErase, fsLookup, h1]
      · simp [fsErase, fsLookup, h1, h2, ih]

theorem fsLookup_set_self (fs : FS) (p : List Char) (n : Node) :
    fsLookup (fsSet fs p n) p = some n := by
  simp [fsSet, fsLookup]

theorem fsLookup_set_ne (fs : FS) (p q : List Char) (n : Node) (h : q ≠ p) :
    fsLookup (fsSet fs p n) q = fsLookup fs q := by
  have h1 : p ≠ q := fun e => h e.symm
  simp [fsSet, fsLookup, h1, fsLookup_erase_ne fs p q h]

theorem fsLookup_erase_cases (fs : FS) (p q : List Char) :
    fsLookup (fsErase fs p) q = fsLookup fs q ∨ fsLookup (fsErase fs p) q = none := by
  by_cases h : q = p
  · right; rw [h]; exact fsLookup_erase_self fs p
  · left; exact fsLookup_erase_ne fs p q h

/-! ### `os.Remove` -/

theorem os_Remove_ne (fs : FS) (name q : List Char) (h : q ≠ name) :
    fsLookup (os_Remove fs name).1 q = fsLookup fs q := by
  unfold os_Remove
  split
  · rfl
  · exact fsLookup_erase_ne fs name q h
  · split
    · rfl
    · exact fsLookup_erase_ne fs name q h

theorem os_Remove_cases (fs : FS) (name q : List Char) :
    fsLookup (os_Remove fs name).1 q = fsLookup fs q ∨
      fsLookup (os_Remove fs name).1 q = none := by
  unfold os_Remove
  split
  · left; rfl
  · exact fsLookup_erase_cases fs name q
  · split
    · left; rfl
    · exact fsLookup_erase_cases fs name q

theorem os_Remove_file (fs : FS) (name : List Char) (data : List Nat) (t : Int)
    (h : fsLookup fs name = some (.file data t)) :
    fsLookup (os_Remove fs name).1 name = none := by
  unfold os_Remove
  rw [h]
  exact fsLookup_erase_self fs name

theorem os_Remove_absent (fs : FS) (name : List Char) (h : fsLookup fs name = none) :
    (os_Remove fs name).1 = fs := by
  unfold os_Remove
  rw [h]

theorem os_Remove_not_file (fs : FS) (name : List Char) :
    fileAt (os_Remove fs name).1 name = false := by
  unfold fileAt
  cases h : fsLookup fs name with
  | none => rw [os_Remove_absent fs name h, h]
  | some n =>
    cases n with
    | file data t => rw [os_Remove_file fs name data t h]
    | dir =>
      rcases os_Remove_cases fs name name with h1 | h1
      · rw [h1, h]
      · rw [h1]

theorem fileAt_false_of_cases {fs fs1 : FS} {q : List Char}
    (h : fsLookup fs1 q = fsLookup fs q ∨ fsLookup fs1 q = none)
    (hq : fileAt fs q = false) : fileAt fs1 q = false := by
  unfold fileAt at *
  rcases h with h | h
  · rw [h]; exact hq
  · rw [h]

/-! ### `removeFile` -/

theorem removeFile_cases (filePath : List Char) (fs : FS) (full q : List Char) :
    fsLookup (removeFile filePath fs full).1 q = fsLookup fs q ∨
      fsLookup (removeFile filePath fs full).1 q = none := by
  unfold removeFile
  simp only
  split
  · exact os_Remove_cases fs full q
  · rcases os_Remove_cases (os_Remove fs full).1 _ q with h | h
    · rw [h]; exact os_Remove_cases fs full q
    · right; exact h

theorem removeFile_frame (filePath : List Char) (fs : FS) (full q : List Char)
    (h : ¬ q <+: full) :
    fsLookup (removeFile filePath fs full).1 q = fsLookup fs q := by
  have h1 : q ≠ full := fun e => h (e ▸ List.prefix_refl _)
  unfold removeFile
  simp only
  split
  · exact os_Remove_ne fs full q h1
  · rw [os_Remove_ne _ _ q, os_Remove_ne fs full q h1]
    intro e
    exact h (e ▸ List.take_prefix _ _)

theorem removeFile_file (filePath : List Char) (fs : FS) (full : List Char) (data : List Nat)
    (t : Int) (h : fsLookup fs full = some (.file data t)) :
    fsLookup (removeFile filePath fs full).1 full = none := by
  unfold removeFile
  simp only
  split
  · exact os_Remove_file fs full data t h
  · rcases os_Remove_cases (os_Remove fs full).1
      (List.take (↑full.length - ↑filePath.length + (strings_IndexByte (List.drop 1 filePath) '/' + 1) : Int).toNat full) full with h1 | h1
    · rw [h1]; exact os_Remove_file fs full data t h
    · exact h1

theorem removeFile_not_file (filePath : List Char) (fs : FS) (full : List Char) :
    fileAt (removeFile filePath fs full).1 full = false := by
  unfold removeFile
  simp only
  split
  · exact os_Remove_not_file fs full
  · exact fileAt_false_of_cases (os_Remove_cases _ _ full) (os_Remove_not_file fs full)

theorem removeFile_absent (filePath : List Char) (fs : FS) (full : List Char) (q : List Char)
    (h : fileAt fs q = false) : fileAt (removeFile filePath fs full).1 q = false :=
  fileAt_false_of_cases (removeFile_cases filePath fs full q) h

theorem run_append (server : Server) (ms : List Message) (m : Message) :
    (server.run (ms ++ [m])).2 = (server.run ms).2 ++ [((server.run ms).1.runCase m).2] := by
  induction ms generalizing server with
  | nil => simp [Server.run]
  | cons a rest ih => simp [Server.run, ih]

theorem runCase_keeps_entry (server : Server) (m : Message) (p : List Char)
    (hm : m.isDone = false) (hp : server.activeMyRequests p ≠ none) :
    (server.runCase m).1.activeMyRequests p ≠ none := by
  cases m with
  | newMyRequest r =>
    simp only [Server.runCase]
    cases h : server.activeMyRequests r.filePath with
    | none =>
      simp only [mapSet]
      by_cases hk : p = r.filePath
      · simp [hk]
      · simpa [hk] using hp
    | some v => simpa using hp
  | doneMyRequest r => simp [Message.isDone] at hm
  | downloadPercentageQuery q =>
    simp only [Server.runCase]
    cases h : server.activeMyRequests q <;> simpa using hp

theorem run_keeps_entry (server : Server) (ms : List Message) (p : List Char)
    (hm : ∀ m ∈ ms, m.isDone = false) (hp : server.activeMyRequests p ≠ none) :
    (server.run ms).1.activeMyRequests p ≠ none := by
  induction ms generalizing server with
  | nil => simpa [Server.run] using hp
  | cons a rest ih =>
    simp only [Server.run]
    apply ih
    · intro m hmem; exact hm m (List.mem_cons_of_mem _ hmem)
    · exact runCase_keeps_entry server a p (hm a (List.mem_cons_self _ _)) hp

theorem runCase_new_reject (sv : Server) (r : MyRequestToRemote)
    (h : sv.activeMyRequests r.filePath ≠ none) :
    (sv.runCase (.newMyRequest r)).2 = some (.shouldHandle false) := by
  simp only [Server.runCase]
  cases h1 : sv.activeMyRequests r.filePath with
  | none => exact absurd h1 h
  | some v => rfl

/-- Claim C1 (admission in `Server.run`). For every registry and admission
request, the reply is accepted exactly when the registry has no entry for the
path (and rejected exactly when it has one); on acceptance the registry
afterwards maps the path to that request and every other path as before, on
rejection the registry is unchanged. Hence, from a registry without the path,
of two admission requests for the same path with no Done message processed in
between (any other messages may be), the first is accepted and the second is
rejected, whichever of the two requests comes first. -/
theorem admission_exactly_one (server : Server) (r1 r2 : MyRequestToRemote)
    (between : List Message)
    (hpath : r2.filePath = r1.filePath)
    (hfree : server.activeMyRequests r1.filePath = none)
    (hnodone : ∀ m ∈ between, m.isDone = false) :
    (∀ (sv : Server) (r : MyRequestToRemote),
      ((sv.runCase (.newMyRequest r)).2 = some (.shouldHandle true) ↔
        sv.activeMyRequests r.filePath = none) ∧
      ((sv.runCase (.newMyRequest r)).2 = some (.shouldHandle false) ↔
        sv.activeMyRequests r.filePath ≠ none) ∧
      (sv.activeMyRequests r.filePath = none →
        ∀ k, (sv.runCase (.newMyRequest r)).1.activeMyRequests k =
          if k = r.filePath then some r else sv.activeMyRequests k) ∧
      (sv.activeMyRequests r.filePath ≠ none → (sv.runCase (.newMyRequest r)).1 = sv)) ∧
    (server.run (.newMyRequest r1 :: (between ++ [.newMyRequest r2]))).2.head? =
      some (some (.shouldHandle true)) ∧
    (server.run (.newMyRequest r1 :: (between ++ [.newMyRequest r2]))).2.getLast? =
      some (some (.shouldHandle false)) := by
  refine ⟨?_, ?_, ?_⟩
  · intro sv r
    simp only [Server.runCase]
    cases h : sv.activeMyRequests r.filePath with
    | none => simp [mapSet]
    | some v => simp
  · simp [Server.run, Server.runCase, hfree]
  · have h1 : (server.runCase (.newMyRequest r1)).1.activeMyRequests r1.filePath ≠ none := by
      simp [Server.runCase, hfree, mapSet]
    have h2 := run_keeps_entry _ between r1.filePath hnodone h1
    simp only [Server.run]
    rw [run_append]
    have h3 : (((server.runCase (.newMyRequest r1)).1.run between).1.runCase
        (.newMyRequest r2)).2 = some (.shouldHandle false) := by
      apply runCase_new_reject
      rw [hpath]; exact h2
    rw [h3]
    rw [← List.cons_append, List.getLast?_concat]

theorem admission_exactly_one_witness :
    (newRequest "h:80".toList "/a.bin".toList ⟨none, none, none⟩).filePath =
      (newRequest "g:80".toList "/a.bin".toList ⟨none, none, none⟩).filePath ∧
    emptyServer.activeMyRequests "/a.bin".toList = none ∧
    (emptyServer.run [.newMyRequest (newRequest "g:80".toList "/a.bin".toList ⟨none, none, none⟩),
      .downloadPercentageQuery "/a.bin".toList,
      .newMyRequest (newRequest "h:80".toList "/a.bin".toList ⟨none, none, none⟩)]).2.head? =
      some (some (.shouldHandle true)) ∧
    (emptyServer.run [.newMyRequest (newRequest "g:80".toList "/a.bin".toList ⟨none, none, none⟩),
      .downloadPercentageQuery "/a.bin".toList,
      .newMyRequest (newRequest "h:80".toList "/a.bin".toList ⟨none, none, none⟩)]).2.getLast? =
      some (some (.shouldHandle false)) :=
  ⟨rfl, rfl, (admission_exactly_one emptyServer
      (newRequest "g:80".toList "/a.bin".toList ⟨none, none, none⟩)
      (newRequest "h:80".toList "/a.bin".toList ⟨none, none, none⟩)
      [.downloadPercentageQuery "/a.bin".toList] rfl rfl (by decide)).2⟩

/-! ### Terminal reports -/

@[simp] theorem close_done (s : State) :
    s.close.doneMyRequests = s.doneMyRequests ++ [s.myRequest.filePath] := rfl

@[simp] theorem close_path (s : State) : s.close.myRequest.filePath = s.myRequest.filePath := rfl

@[simp] theorem removeTempFiles_done (s : State) :
    s.removeTempFiles.doneMyRequests = s.doneMyRequests := rfl

@[simp] theorem removeTempFiles_path (s : State) :
    s.removeTempFiles.myRequest.filePath = s.myRequest.filePath := rfl

@[simp] theorem error_done (s : State) (fatal : Bool) :
    (s.error fatal).doneMyRequests = s.doneMyRequests ++ [s.myRequest.filePath] := by
  cases fatal <;> rfl

@[simp] theorem error_path (s : State) (fatal : Bool) :
    (s.error fatal).myRequest.filePath = s.myRequest.filePath := by
  cases fatal <;> rfl

@[simp] theorem ok_done (s : State) (justFinished : Bool) (utcTime : Int) :
    (s.ok justFinished utcTime).doneMyRequests = s.doneMyRequests ++ [s.myRequest.filePath] := by
  cases justFinished <;> rfl

@[simp] theorem ok_path (s : State) (justFinished : Bool) (utcTime : Int) :
    (s.ok justFinished utcTime).myRequest.filePath = s.myRequest.filePath := by
  cases justFinished <;> rfl

@[simp] theorem addDownloaded_done (s : State) (n : Int) :
    (s.addDownloaded n).doneMyRequests = s.doneMyRequests := rfl

@[simp] theorem addDownloaded_path (s : State) (n : Int) :
    (s.addDownloaded n).myRequest.filePath = s.myRequest.filePath := rfl

theorem doDownload206_report (t : TargetFileInfo) (r : Response) (now : Int) (s : State) :
    (doDownload206 t r now s).1.myRequest.filePath = s.myRequest.filePath ∧
    (doDownload206 t r now s).1.doneMyRequests =
      s.doneMyRequests ++ reportOf s (doDownload206 t r now s).2 := by
  unfold doDownload206
  repeat' split
  all_goals simp only []
  all_goals repeat' split
  all_goals simp [reportOf]

theorem doDownload200_report (L : Lib) (r : Response) (now : Int) (s : State) :
    (doDownload200 L r now s).1.myRequest.filePath = s.myRequest.filePath ∧
    (doDownload200 L r now s).1.doneMyRequests =
      s.doneMyRequests ++ reportOf s (doDownload200 L r now s).2 := by
  unfold doDownload200
  simp only []
  repeat' split
  all_goals simp [reportOf]

theorem doDownload_report (L : Lib) (net : NetOutcome) (s s1 : State) (retry : Bool)
    (h : doDownload L net s = some (s1, retry)) :
    s1.myRequest.filePath = s.myRequest.filePath ∧
    s1.doneMyRequests = s.doneMyRequests ++ reportOf s retry := by
  cases net with
  | newRequestError =>
    simp only [doDownload, Option.some.injEq, Prod.mk.injEq] at h
    obtain ⟨h1, h2⟩ := h
    subst h1 h2
    simp [reportOf]
  | doError =>
    cases ht : s.myRequest.targetFileInfo with
    | none => simp [doDownload, ht] at h
    | some tfi =>
      cases hb : buildRequest s.myRequest tfi with
      | none => simp [doDownload, ht, hb] at h
      | some req =>
        simp only [doDownload, ht, hb, Option.some.injEq, Prod.mk.injEq] at h
        obtain ⟨h1, h2⟩ := h
        subst h1 h2
        simp [reportOf]
  | response r now =>
    cases ht : s.myRequest.targetFileInfo with
    | none => simp [doDownload, ht] at h
    | some tfi =>
      cases hb : buildRequest s.myRequest tfi with
      | none => simp [doDownload, ht, hb] at h
      | some req =>
        simp only [doDownload, ht, hb] at h
        split at h
        · simp only [Option.some.injEq, Prod.mk.injEq] at h
          obtain ⟨h1, h2⟩ := h
          subst h1 h2
          simp [reportOf]
        · split at h
          · simp only [Option.some.injEq] at h
            have h3 := doDownload206_report tfi r now
              { s with dispatched := s.dispatched ++ [req] }
            rw [h] at h3
            simpa [reportOf] using h3
          · split at h
            · simp only [Option.some.injEq] at h
              have h3 := doDownload200_report L r now
                { s with dispatched := s.dispatched ++ [req] }
              rw [h] at h3
              simpa [reportOf] using h3
            · simp only [Option.some.injEq, Prod.mk.injEq] at h
              obtain ⟨h1, h2⟩ := h
              subst h1 h2
              simp [reportOf]

/-- The loop of `run` always returns or panics within its bound, executes
`doDownload` at most `MaxNumRetries + 2` times, and reports once, except that
it reports nothing when it gives up after `MaxNumRetries + 2` executions. -/
theorem runLoop_report (L : Lib) (world : Nat → NetOutcome) :
    ∀ (fuel k : Nat) (s : State), k + fuel = MaxNumRetries + 2 → 1 ≤ fuel →
      match runLoop L world fuel k s with
      | .fuel => False
      | .nilDereference n => n ≤ MaxNumRetries + 2
      | .returned s1 n =>
        n ≤ MaxNumRetries + 2 ∧ s1.myRequest.filePath = s.myRequest.filePath ∧
        (s1.doneMyRequests = s.doneMyRequests ++ [s.myRequest.filePath] ∨
          (s1.doneMyRequests = s.doneMyRequests ∧ n = MaxNumRetries + 2)) := by
  intro fuel
  induction fuel with
  | zero => intro k s _ h; omega
  | succ fuel ih =>
    intro k s hk _
    simp only [runLoop]
    cases hd : doDownload L (world k) s with
    | none => simp only; omega
    | some res =>
      obtain ⟨s1, retry⟩ := res
      obtain ⟨hp, hdone⟩ := doDownload_report L (world k) s s1 retry hd
      simp only
      by_cases hr : retry = true ∧ k ≤ MaxNumRetries
      · rw [if_pos hr]
        obtain ⟨hr1, hr2⟩ := hr
        subst hr1
        simp only [reportOf, if_true, List.append_nil] at hdone
        cases hres : (getTargetFileInfo L s1.myRequest.filePath s1.fs s1.myRequest.filePath).2 with
        | nilDereference => simp only; omega
        | error e =>
          simp only
          refine ⟨by omega, ?_, ?_⟩
          · simp [hp]
          · left; simp [hp, hdone]
        | ok info =>
          simp only
          have hf : 1 ≤ fuel := by simp only [MaxNumRetries] at hk hr2; omega
          have h1 := ih (k + 1) { s1 with
            fs := (getTargetFileInfo L s1.myRequest.filePath s1.fs s1.myRequest.filePath).1,
            myRequest := { s1.myRequest with targetFileInfo := some info } } (by omega) hf
          revert h1
          cases runLoop L world fuel (k + 1) { s1 with
            fs := (getTargetFileInfo L s1.myRequest.filePath s1.fs s1.myRequest.filePath).1,
            myRequest := { s1.myRequest with targetFileInfo := some info } } with
          | fuel => exact id
          | nilDereference n => exact id
          | returned s2 n =>
            simp only [hp, hdone]
            exact id
      · rw [if_neg hr]
        simp only
        refine ⟨by simp only [MaxNumRetries] at hk ⊢; omega, hp, ?_⟩
        cases retry with
        | false => left; simpa [reportOf] using hdone
        | true =>
          right
          refine ⟨by simpa [reportOf] using hdone, ?_⟩
          simp only [true_and, not_le] at hr
          simp only [MaxNumRetries] at hk hr ⊢
          omega

/-! ### The three store paths of a request -/

theorem not_prefix_of_roots (a b p : List Char) (hlen : a.length = b.length) (hne : a ≠ b) :
    ¬ (a ++ p) <+: (b ++ p) := by
  intro h
  have h1 : a ++ p = b ++ p := h.eq_of_length (by simp [hlen])
  exact hne (List.append_cancel_right h1)

theorem sync_not_prefix_save (p : List Char) :
    ¬ getFilleFullPath FileSyncingPath p <+: getFilleFullPath FileSavePath p :=
  not_prefix_of_roots _ _ p (by decide) (by decide)

theorem info_not_prefix_save (p : List Char) :
    ¬ getFilleFullPath FileSyncingInfoPath p <+: getFilleFullPath FileSavePath p :=
  not_prefix_of_roots _ _ p (by decide) (by decide)

theorem save_not_prefix_sync (p : List Char) :
    ¬ getFilleFullPath FileSavePath p <+: getFilleFullPath FileSyncingPath p :=
  not_prefix_of_roots _ _ p (by decide) (by decide)

theorem info_not_prefix_sync (p : List Char) :
    ¬ getFilleFullPath FileSyncingInfoPath p <+: getFilleFullPath FileSyncingPath p :=
  not_prefix_of_roots _ _ p (by decide) (by decide)

theorem save_not_prefix_info (p : List Char) :
    ¬ getFilleFullPath FileSavePath p <+: getFilleFullPath FileSyncingInfoPath p :=
  not_prefix_of_roots _ _ p (by decide) (by decide)

theorem sync_not_prefix_info (p : List Char) :
    ¬ getFilleFullPath FileSyncingPath p <+: getFilleFullPath FileSyncingInfoPath p :=
  not_prefix_of_roots _ _ p (by decide) (by decide)

/-! ### The resolver -/

theorem readFileSyncingInfo_congr (L : Lib) (fs fs1 : FS) (q : List Char)
    (h : fsLookup fs1 q = fsLookup fs q) :
    readFileSyncingInfo L fs1 q = readFileSyncingInfo L fs q := by
  simp only [readFileSyncingInfo, ioutil_ReadFile, h]

theorem getFileInfo_congr (fs fs1 : FS) (q : List Char)
    (h : fsLookup fs1 q = fsLookup fs q) : getFileInfo fs1 q = getFileInfo fs q := by
  simp only [getFileInfo, os_Stat, h]

theorem readFileSyncingInfo_none_of_absent (L : Lib) (fs : FS) (q : List Char)
    (h : fsLookup fs q = none) : readFileSyncingInfo L fs q = none := by
  simp [readFileSyncingInfo, ioutil_ReadFile, h]

theorem readFileSyncingInfo_some_file (L : Lib) (fs : FS) (q : List Char) (i : FileSnycingInfo)
    (h : readFileSyncingInfo L fs q = some i) :
    ∃ data t, fsLookup fs q = some (.file data t) ∧ L.jsonUnmarshal data = some i := by
  unfold readFileSyncingInfo ioutil_ReadFile at h
  cases hl : fsLookup fs q with
  | none => simp [hl] at h
  | some n =>
    cases n with
    | dir => simp [hl] at h
    | file data t => exact ⟨data, t, rfl, by simpa [hl] using h⟩

theorem fileInfoPtr_some (fs : FS) (q : List Char) (i : FileInfo)
    (h : fileInfoPtr (getFileInfo fs q) = some i) :
    ∃ data t, fsLookup fs q = some (.file data t) ∧
      i = { fullPath := q, size := data.length, modifyTime := t } := by
  unfold getFileInfo os_Stat at h
  cases hl : fsLookup fs q with
  | none => simp [hl, fileInfoPtr] at h
  | some n =>
    cases n with
    | dir => simp [hl, fileInfoPtr] at h
    | file data t =>
      refine ⟨data, t, rfl, ?_⟩
      simp only [hl, fileInfoPtr, Option.some.injEq] at h
      exact h.symm

theorem fileInfoPtr_none (fs : FS) (q : List Char)
    (h : fileInfoPtr (getFileInfo fs q) = none) (he : hardError (getFileInfo fs q) = none) :
    fsLookup fs q = none := by
  unfold getFileInfo os_Stat at h he
  cases hl : fsLookup fs q with
  | none => rfl
  | some n =>
    cases n with
    | dir => simp [hl, hardError] at he
    | file data t => simp [hl, fileInfoPtr] at h

/-- The resolver, case by case on what it observes: the final record `sv`,
the staging record `sy` and the decoded sidecar `si`. -/
theorem getTargetFileInfo_eq (L : Lib) (rp : List Char) (fs : FS) (p : List Char)
    (h1 : hardError (getFileInfo fs (getFilleFullPath FileSavePath p)) = none)
    (h2 : hardError (getFileInfo fs (getFilleFullPath FileSyncingPath p)) = none) :
    getTargetFileInfo L rp fs p =
      match readFileSyncingInfo L fs (getFilleFullPath FileSyncingInfoPath p),
        fileInfoPtr (getFileInfo fs (getFilleFullPath FileSyncingPath p)) with
      | none, none =>
        (fs, .ok ⟨fileInfoPtr (getFileInfo fs (getFilleFullPath FileSavePath p)), none, none⟩)
      | none, some sfi =>
        ((removeFile rp fs sfi.fullPath).1,
          .ok ⟨fileInfoPtr (getFileInfo fs (getFilleFullPath FileSavePath p)), none, none⟩)
      | some _, none =>
        ((removeFile rp fs (getFilleFullPath FileSyncingInfoPath p)).1,
          .ok ⟨fileInfoPtr (getFileInfo fs (getFilleFullPath FileSavePath p)), none, none⟩)
      | some si, some sfi =>
        match fileInfoPtr (getFileInfo fs (getFilleFullPath FileSavePath p)) with
        | none => (fs, .ok ⟨none, some sfi, some si⟩)
        | some sv =>
          if si.LastModified < sv.modifyTime then
            ((removeFile rp (removeFile rp fs sfi.fullPath).1
                (getFilleFullPath FileSyncingInfoPath p)).1, .ok ⟨some sv, none, none⟩)
          else (fs, .ok ⟨some sv, some sfi, some si⟩) := by
  unfold getTargetFileInfo
  simp only [h1, h2]
  cases readFileSyncingInfo L fs (getFilleFullPath FileSyncingInfoPath p) <;>
    cases fileInfoPtr (getFileInfo fs (getFilleFullPath FileSyncingPath p)) <;>
    cases fileInfoPtr (getFileInfo fs (getFilleFullPath FileSavePath p)) <;> simp only []

theorem getTargetFileInfo_error (L : Lib) (rp : List Char) (fs : FS) (p : List Char)
    (h : hardError (getFileInfo fs (getFilleFullPath FileSavePath p)) ≠ none ∨
      hardError (getFileInfo fs (getFilleFullPath FileSyncingPath p)) ≠ none) :
    getTargetFileInfo L rp fs p = (fs, .error .other) := by
  unfold getTargetFileInfo
  simp only
  cases h1 : hardError (getFileInfo fs (getFilleFullPath FileSavePath p)) with
  | some e =>
    cases e with
    | other => rfl
    | notExist =>
      unfold hardError at h1
      split at h1 <;> simp at h1
  | none =>
    simp only
    rcases h with h | h
    · exact absurd h1 h
    · cases h2 : hardError (getFileInfo fs (getFilleFullPath FileSyncingPath p)) with
      | none => exact absurd h2 h
      | some e =>
        cases e with
        | other => rfl
        | notExist =>
          unfold hardError at h2
          split at h2 <;> simp at h2

theorem getFileInfo_absent (fs : FS) (q : List Char) (h : fsLookup fs q = none) :
    getFileInfo fs q = .error .notExist := by
  simp [getFileInfo, os_Stat, h]

theorem hardError_notExist :
    hardError (.error .notExist : Except GoError FileInfo) = none := rfl

theorem fileInfoPtr_error (e : GoError) :
    fileInfoPtr (.error e : Except GoError FileInfo) = none := rfl

/-- What a successful resolution leaves behind: the returned record repeats
what the three paths hold afterwards, the staging record and the sidecar
record are both present or both absent, and the pair is not stale. -/
theorem getTargetFileInfo_post (L : Lib) (rp : List Char) (fs fs1 : FS) (p : List Char)
    (info : TargetFileInfo) (h : getTargetFileInfo L rp fs p = (fs1, .ok info)) :
    (hardError (getFileInfo fs1 (getFilleFullPath FileSavePath p)) = none ∧
      info.saveFileInfo = fileInfoPtr (getFileInfo fs1 (getFilleFullPath FileSavePath p))) ∧
    (hardError (getFileInfo fs1 (getFilleFullPath FileSyncingPath p)) = none ∧
      info.syncingFileInfo =
        fileInfoPtr (getFileInfo fs1 (getFilleFullPath FileSyncingPath p))) ∧
    info.fileSyncingInfo =
      readFileSyncingInfo L fs1 (getFilleFullPath FileSyncingInfoPath p) ∧
    (info.syncingFileInfo = none ↔ info.fileSyncingInfo = none) ∧
    (∀ si sv, info.fileSyncingInfo = some si → info.saveFileInfo = some sv →
      ¬ si.LastModified < sv.modifyTime) := by
  by_cases h1 : hardError (getFileInfo fs (getFilleFullPath FileSavePath p)) = none
  swap
  · rw [getTargetFileInfo_error L rp fs p (Or.inl h1)] at h
    simp at h
  by_cases h2 : hardError (getFileInfo fs (getFilleFullPath FileSyncingPath p)) = none
  swap
  · rw [getTargetFileInfo_error L rp fs p (Or.inr h2)] at h
    simp at h
  rw [getTargetFileInfo_eq L rp fs p h1 h2] at h
  cases hsi : readFileSyncingInfo L fs (getFilleFullPath FileSyncingInfoPath p) with
  | none =>
    cases hsy : fileInfoPtr (getFileInfo fs (getFilleFullPath FileSyncingPath p)) with
    | none =>
      simp only [hsi, hsy, Prod.mk.injEq, Resolved.ok.injEq] at h
      obtain ⟨hfs, hinfo⟩ := h
      subst hfs hinfo
      simp [h1, h2, hsi, hsy]
    | some sfi =>
      simp only [hsi, hsy, Prod.mk.injEq, Resolved.ok.injEq] at h
      obtain ⟨hfs, hinfo⟩ := h
      subst hfs hinfo
      obtain ⟨data, t, hl, hsfi⟩ := fileInfoPtr_some fs _ sfi hsy
      have hp : sfi.fullPath = getFilleFullPath FileSyncingPath p := by rw [hsfi]
      rw [hp]
      have e1 := getFileInfo_congr _ _ _ (removeFile_frame rp fs
        (getFilleFullPath FileSyncingPath p) _ (save_not_prefix_sync p))
      have e2 := getFileInfo_absent _ _ (removeFile_file rp fs
        (getFilleFullPath FileSyncingPath p) data t hl)
      have e3 := readFileSyncingInfo_congr L _ _ _ (removeFile_frame rp fs
        (getFilleFullPath FileSyncingPath p) _ (info_not_prefix_sync p))
      simp [e1, e2, e3, h1, hsi, hardError_notExist, fileInfoPtr_error]
  | some si =>
    cases hsy : fileInfoPtr (getFileInfo fs (getFilleFullPath FileSyncingPath p)) with
    | none =>
      simp only [hsi, hsy, Prod.mk.injEq, Resolved.ok.injEq] at h
      obtain ⟨hfs, hinfo⟩ := h
      subst hfs hinfo
      obtain ⟨data, t, hl, _⟩ := readFileSyncingInfo_some_file L fs _ si hsi
      have e1 := getFileInfo_congr _ _ _ (removeFile_frame rp fs
        (getFilleFullPath FileSyncingInfoPath p) _ (save_not_prefix_info p))
      have e2 := getFileInfo_congr _ _ _ (removeFile_frame rp fs
        (getFilleFullPath FileSyncingInfoPath p) _ (sync_not_prefix_info p))
      have e3 := readFileSyncingInfo_none_of_absent L _ _ (removeFile_file rp fs
        (getFilleFullPath FileSyncingInfoPath p) data t hl)
      simp [e1, e2, e3, h1, h2, hsy]
    | some sfi =>
      cases hsv : fileInfoPtr (getFileInfo fs (getFilleFullPath FileSavePath p)) with
      | none =>
        simp only [hsi, hsy, hsv, Prod.mk.injEq, Resolved.ok.injEq] at h
        obtain ⟨hfs, hinfo⟩ := h
        subst hfs hinfo
        simp [h1, h2, hsi, hsy, hsv]
      | some sv =>
        simp only [hsi, hsy, hsv] at h
        by_cases hstale : si.LastModified < sv.modifyTime
        · rw [if_pos hstale] at h
          simp only [Prod.mk.injEq, Resolved.ok.injEq] at h
          obtain ⟨hfs, hinfo⟩ := h
          subst hfs hinfo
          obtain ⟨data, t, hl, hsfi⟩ := fileInfoPtr_some fs _ sfi hsy
          have hp : sfi.fullPath = getFilleFullPath FileSyncingPath p := by rw [hsfi]
          rw [hp]
          obtain ⟨data2, t2, hl2, _⟩ := readFileSyncingInfo_some_file L fs _ si hsi
          have f1 : fsLookup (removeFile rp fs (getFilleFullPath FileSyncingPath p)).1
              (getFilleFullPath FileSyncingInfoPath p) = some (.file data2 t2) := by
            rw [removeFile_frame rp fs _ _ (info_not_prefix_sync p)]; exact hl2
          have e1 : getFileInfo (removeFile rp (removeFile rp fs
              (getFilleFullPath FileSyncingPath p)).1
              (getFilleFullPath FileSyncingInfoPath p)).1 (getFilleFullPath FileSavePath p) =
              getFileInfo fs (getFilleFullPath FileSavePath p) := by
            apply getFileInfo_congr
            rw [removeFile_frame rp _ _ _ (save_not_prefix_info p),
              removeFile_frame rp _ _ _ (save_not_prefix_sync p)]
          have e2 := getFileInfo_absent (removeFile rp (removeFile rp fs
              (getFilleFullPath FileSyncingPath p)).1
              (getFilleFullPath FileSyncingInfoPath p)).1 (getFilleFullPath FileSyncingPath p)
              (by rw [removeFile_frame rp _ _ _ (sync_not_prefix_info p)]
                  exact removeFile_file rp fs _ data t hl)
          have e3 := readFileSyncingInfo_none_of_absent L _ _ (removeFile_file rp
            (removeFile rp fs (getFilleFullPath FileSyncingPath p)).1
            (getFilleFullPath FileSyncingInfoPath p) data2 t2 f1)
          simp [e1, e2, e3, h1, hsv, hardError_notExist, fileInfoPtr_error]
        · rw [if_neg hstale] at h
          simp only [Prod.mk.injEq, Resolved.ok.injEq] at h
          obtain ⟨hfs, hinfo⟩ := h
          subst hfs hinfo
          simp only [h1, h2, hsi, hsy, hsv, true_and, reduceCtorEq, false_iff, not_false_eq_true,
            Option.some.injEq, and_true]
          intro a b ha hb
          subst ha hb
          exact hstale

theorem fileAt_eq_fileInfoPtr (fs : FS) (q : List Char) :
    fileAt fs q = (fileInfoPtr (getFileInfo fs q)).isSome := by
  unfold fileAt getFileInfo os_Stat
  cases fsLookup fs q with
  | none => rfl
  | some n => cases n <;> rfl

/-- Claim C4, as stated, fails: with only an undecodable sidecar file on disk
the resolver succeeds, and afterwards the sidecar file exists while the
staging file does not. -/
theorem resolver_keeps_undecodable_sidecar :
    (getTargetFileInfo sampleLib samplePath undecodableSidecarFS samplePath).2 =
      .ok ⟨none, none, none⟩ ∧
    ¬ (fileAt (getTargetFileInfo sampleLib samplePath undecodableSidecarFS samplePath).1
          (getFilleFullPath FileSyncingPath samplePath) = true ↔
       fileAt (getTargetFileInfo sampleLib samplePath undecodableSidecarFS samplePath).1
          (getFilleFullPath FileSyncingInfoPath samplePath) = true) := by
  decide

/-- Claim C4, amended. Whenever `getTargetFileInfo` returns without error,
afterwards the staging file exists if and only if the sidecar can be read and
decoded (a sidecar file that does not decode counts as absent and may stay on
disk); the returned staging record and sidecar record are nil together or
non-nil together; and the returned records are exactly what the staging path
and the sidecar hold afterwards: the staging record is the stat of the staging
path (path, size and modify time of the file there, nil when there is no
file), so it is non-nil exactly when the staging file exists, and the sidecar
record is what the sidecar decodes to. -/
theorem resolver_pair_consistent (L : Lib) (requestPath : List Char) (fs fs1 : FS)
    (filePath : List Char) (info : TargetFileInfo)
    (h : getTargetFileInfo L requestPath fs filePath = (fs1, .ok info)) :
    (fileAt fs1 (getFilleFullPath FileSyncingPath filePath) = true ↔
      (readFileSyncingInfo L fs1 (getFilleFullPath FileSyncingInfoPath filePath)).isSome
        = true) ∧
    (info.syncingFileInfo = none ↔ info.fileSyncingInfo = none) ∧
    info.syncingFileInfo.isSome = fileAt fs1 (getFilleFullPath FileSyncingPath filePath) ∧
    info.fileSyncingInfo =
      readFileSyncingInfo L fs1 (getFilleFullPath FileSyncingInfoPath filePath) ∧
    info.syncingFileInfo =
      fileInfoPtr (getFileInfo fs1 (getFilleFullPath FileSyncingPath filePath)) ∧
    (∀ sfi, info.syncingFileInfo = some sfi ↔
      ∃ data t, fsLookup fs1 (getFilleFullPath FileSyncingPath filePath) =
          some (.file data t) ∧
        sfi = ⟨getFilleFullPath FileSyncingPath filePath, data.length, t⟩) := by
  obtain ⟨_, ⟨_, hsy⟩, hsi, hpair, _⟩ := getTargetFileInfo_post L requestPath fs fs1 filePath info h
  have hrec : ∀ sfi, info.syncingFileInfo = some sfi ↔
      ∃ data t, fsLookup fs1 (getFilleFullPath FileSyncingPath filePath) =
          some (.file data t) ∧
        sfi = ⟨getFilleFullPath FileSyncingPath filePath, data.length, t⟩ := by
    intro sfi
    rw [hsy]
    unfold fileInfoPtr getFileInfo os_Stat
    cases fsLookup fs1 (getFilleFullPath FileSyncingPath filePath) with
    | none => simp
    | some n =>
      cases n with
      | dir => simp
      | file data t =>
        simp only [Option.some.injEq, Node.file.injEq, exists_and_left]
        constructor
        · intro e
          exact ⟨data, t, ⟨rfl, rfl⟩, e.symm⟩
        · rintro ⟨d, t1, ⟨rfl, rfl⟩, e⟩
          exact e.symm
  refine ⟨?_, hpair, ?_, hsi, hsy, hrec⟩
  · rw [fileAt_eq_fileInfoPtr, ← hsy, ← hsi]
    cases h1 : info.syncingFileInfo <;> cases h2 : info.fileSyncingInfo <;>
      simp [h1, h2] at hpair ⊢
  · rw [fileAt_eq_fileInfoPtr, ← hsy]

theorem resolver_pair_consistent_witness :
    getTargetFileInfo sampleLib samplePath resumeFS samplePath =
      (resumeFS, .ok ⟨none, some ⟨getFilleFullPath FileSyncingPath samplePath, 4, 5⟩,
        some ⟨10, 7⟩⟩) ∧
    ((fileAt resumeFS (getFilleFullPath FileSyncingPath samplePath) = true ↔
      (readFileSyncingInfo sampleLib resumeFS
        (getFilleFullPath FileSyncingInfoPath samplePath)).isSome = true) ∧
     ((some ⟨getFilleFullPath FileSyncingPath samplePath, 4, 5⟩ : Option FileInfo) = none ↔
       (some ⟨10, 7⟩ : Option FileSnycingInfo) = none) ∧
     (some ⟨getFilleFullPath FileSyncingPath samplePath, 4, 5⟩ : Option FileInfo).isSome =
       fileAt resumeFS (getFilleFullPath FileSyncingPath samplePath) ∧
     (some ⟨10, 7⟩ : Option FileSnycingInfo) =
       readFileSyncingInfo sampleLib resumeFS
         (getFilleFullPath FileSyncingInfoPath samplePath) ∧
     (some ⟨getFilleFullPath FileSyncingPath samplePath, 4, 5⟩ : Option FileInfo) =
       fileInfoPtr (getFileInfo resumeFS (getFilleFullPath FileSyncingPath samplePath)) ∧
     (∀ sfi, (some ⟨getFilleFullPath FileSyncingPath samplePath, 4, 5⟩ : Option FileInfo) =
         some sfi ↔
       ∃ data t, fsLookup resumeFS (getFilleFullPath FileSyncingPath samplePath) =
           some (.file data t) ∧
         sfi = ⟨getFilleFullPath FileSyncingPath samplePath, data.length, t⟩)) :=
  ⟨by decide,
   resolver_pair_consistent sampleLib samplePath resumeFS resumeFS samplePath
     ⟨none, some ⟨getFilleFullPath FileSyncingPath samplePath, 4, 5⟩, some ⟨10, 7⟩⟩
     (by decide)⟩

/-- Claim C5 (staleness purge). When the final file has modify time `T2` and
the staging file and a sidecar decoding to `LastModified = T1` both exist:
if `T1 < T2`, `getTargetFileInfo` removes the staging file and the sidecar,
leaves the final file, and returns only the final record; if `T1 >= T2`, it
leaves the filesystem as it is and returns all three records. -/
theorem resolver_staleness (L : Lib) (requestPath : List Char) (fs : FS) (filePath : List Char)
    (finalData stagingData sidecarData : List Nat) (T2 stagingTime sidecarTime : Int)
    (len T1 : Int)
    (hsave : fsLookup fs (getFilleFullPath FileSavePath filePath) =
      some (.file finalData T2))
    (hsync : fsLookup fs (getFilleFullPath FileSyncingPath filePath) =
      some (.file stagingData stagingTime))
    (hinfo : fsLookup fs (getFilleFullPath FileSyncingInfoPath filePath) =
      some (.file sidecarData sidecarTime))
    (hdec : L.jsonUnmarshal sidecarData = some ⟨len, T1⟩) :
    (T1 < T2 →
      fsLookup (getTargetFileInfo L requestPath fs filePath).1
        (getFilleFullPath FileSyncingPath filePath) = none ∧
      fsLookup (getTargetFileInfo L requestPath fs filePath).1
        (getFilleFullPath FileSyncingInfoPath filePath) = none ∧
      fsLookup (getTargetFileInfo L requestPath fs filePath).1
        (getFilleFullPath FileSavePath filePath) = some (.file finalData T2) ∧
      (getTargetFileInfo L requestPath fs filePath).2 =
        .ok ⟨some ⟨getFilleFullPath FileSavePath filePath, finalData.length, T2⟩,
          none, none⟩) ∧
    (T2 ≤ T1 →
      getTargetFileInfo L requestPath fs filePath =
        (fs, .ok ⟨some ⟨getFilleFullPath FileSavePath filePath, finalData.length, T2⟩,
          some ⟨getFilleFullPath FileSyncingPath filePath, stagingData.length, stagingTime⟩,
          some ⟨len, T1⟩⟩)) := by
  have gsave : getFileInfo fs (getFilleFullPath FileSavePath filePath) =
      .ok ⟨getFilleFullPath FileSavePath filePath, finalData.length, T2⟩ := by
    simp [getFileInfo, os_Stat, hsave]
  have gsync : getFileInfo fs (getFilleFullPath FileSyncingPath filePath) =
      .ok ⟨getFilleFullPath FileSyncingPath filePath, stagingData.length, stagingTime⟩ := by
    simp [getFileInfo, os_Stat, hsync]
  have gread : readFileSyncingInfo L fs (getFilleFullPath FileSyncingInfoPath filePath) =
      some ⟨len, T1⟩ := by
    simp [readFileSyncingInfo, ioutil_ReadFile, hinfo, hdec]
  have heq := getTargetFileInfo_eq L requestPath fs filePath (by rw [gsave]; rfl)
    (by rw [gsync]; rfl)
  simp only [gsave, gsync, gread, fileInfoPtr] at heq
  constructor
  · intro hlt
    rw [heq, if_pos hlt]
    refine ⟨?_, ?_, ?_, rfl⟩
    · rw [removeFile_frame requestPath _ _ _ (sync_not_prefix_info filePath)]
      exact removeFile_file requestPath fs _ stagingData stagingTime hsync
    · apply removeFile_file requestPath _ _ sidecarData sidecarTime
      rw [removeFile_frame requestPath _ _ _ (info_not_prefix_sync filePath)]
      exact hinfo
    · rw [removeFile_frame requestPath _ _ _ (save_not_prefix_info filePath),
        removeFile_frame requestPath _ _ _ (save_not_prefix_sync filePath)]
      exact hsave
  · intro hge
    rw [heq, if_neg (not_lt.mpr hge)]

theorem resolver_staleness_witness :
    fsLookup staleFS (getFilleFullPath FileSavePath samplePath) = some (.file [0, 0] 9) ∧
    sampleLib.jsonUnmarshal [10, 7] = some ⟨10, 7⟩ ∧
    (7 : Int) < 9 ∧
    (getTargetFileInfo sampleLib samplePath staleFS samplePath).2 =
      .ok ⟨some ⟨getFilleFullPath FileSavePath samplePath, 2, 9⟩, none, none⟩ ∧
    fsLookup (getTargetFileInfo sampleLib samplePath staleFS samplePath).1
      (getFilleFullPath FileSyncingPath samplePath) = none :=
  ⟨by decide, by decide, by decide,
   ((resolver_staleness sampleLib samplePath staleFS samplePath [0, 0] [1, 2, 3, 4] [10, 7]
      9 5 5 10 7 (by decide) (by decide) (by decide) (by decide)).1 (by decide)).2.2.2,
   ((resolver_staleness sampleLib samplePath staleFS samplePath [0, 0] [1, 2, 3, 4] [10, 7]
      9 5 5 10 7 (by decide) (by decide) (by decide) (by decide)).1 (by decide)).1⟩

/-- Claim C10 (resolver idempotence). If `getTargetFileInfo` succeeds, a
second call on the filesystem the first call left returns the same
`TargetFileInfo` and leaves that filesystem unchanged. -/
theorem resolver_idempotent (L : Lib) (requestPath : List Char) (fs fs1 : FS)
    (filePath : List Char) (info : TargetFileInfo)
    (h : getTargetFileInfo L requestPath fs filePath = (fs1, .ok info)) :
    getTargetFileInfo L requestPath fs1 filePath = (fs1, .ok info) := by
  obtain ⟨⟨h1, hsv⟩, ⟨h2, hsy⟩, hsi, hpair, hfresh⟩ :=
    getTargetFileInfo_post L requestPath fs fs1 filePath info h
  rw [getTargetFileInfo_eq L requestPath fs1 filePath h1 h2, ← hsv, ← hsy, ← hsi]
  obtain ⟨sv, sy, si⟩ := info
  cases sy with
  | none =>
    have : si = none := hpair.mp rfl
    subst this
    rfl
  | some sfi =>
    cases si with
    | none => simp at hpair
    | some i =>
      cases sv with
      | none => rfl
      | some v =>
        simp only
        rw [if_neg (hfresh i v rfl rfl)]

theorem resolver_idempotent_witness :
    getTargetFileInfo sampleLib samplePath staleFS samplePath =
      ([(getFilleFullPath FileSavePath samplePath, .file [0, 0] 9)],
        .ok ⟨some ⟨getFilleFullPath FileSavePath samplePath, 2, 9⟩, none, none⟩) ∧
    getTargetFileInfo sampleLib samplePath
      [(getFilleFullPath FileSavePath samplePath, .file [0, 0] 9)] samplePath =
      ([(getFilleFullPath FileSavePath samplePath, .file [0, 0] 9)],
        .ok ⟨some ⟨getFilleFullPath FileSavePath samplePath, 2, 9⟩, none, none⟩) :=
  ⟨by decide, resolver_idempotent sampleLib samplePath staleFS _ samplePath _ (by decide)⟩

/-- Every run ends within the loop bound of the model, executes `doDownload`
at most `MaxNumRetries + 2` times, never sends twice on `doneMyRequests`, and
sends nothing only when it gives up after `MaxNumRetries + 2` executions. -/
theorem run_report (L : Lib) (world : Nat → NetOutcome) (s : State) :
    match run L world s with
    | .fuel => False
    | .nilDereference n => n ≤ MaxNumRetries + 2
    | .returned s1 n =>
      n ≤ MaxNumRetries + 2 ∧ s1.myRequest.filePath = s.myRequest.filePath ∧
      (s1.doneMyRequests = s.doneMyRequests ++ [s.myRequest.filePath] ∨
        (s1.doneMyRequests = s.doneMyRequests ∧ n = MaxNumRetries + 2)) :=
  runLoop_report L world (MaxNumRetries + 2) 0 s (by omega) (by omega)

set_option maxRecDepth 100000 in
/-- Claim C2 (exactly-once terminal report) fails on the code: for a fresh
request whose every attempt receives a 200 response that declares ten bytes
and delivers four, `run` returns having sent nothing on `doneMyRequests`. -/
theorem run_exhausted_sends_nothing :
    (run sampleLib (fun _ => .response shortResponse 100) freshState).doneMyRequests =
      some [] := by
  decide

set_option maxRecDepth 100000 in
/-- Claim C3 (retry budget) fails on the code: with `MaxNumRetries = 3`, for a
fresh request whose every attempt signals retry, `doDownload` is executed
five times, and `run` then returns without any report; the staging file and
the sidecar of the last attempt are left on disk. -/
theorem run_exhausted_five_executions :
    MaxNumRetries = 3 ∧
    (run sampleLib (fun _ => .response shortResponse 100) freshState).executions = some 5 ∧
    (run sampleLib (fun _ => .response shortResponse 100) freshState).doneMyRequests =
      some [] ∧
    (run sampleLib (fun _ => .response shortResponse 100) freshState).fs.map
      (fun fs => (fsLookup fs (getFilleFullPath FileSyncingPath samplePath),
                  fsLookup fs (getFilleFullPath FileSyncingInfoPath samplePath))) =
      some (some (.file [1, 2, 3, 4] 100), some (.file [10, 77] 100)) := by
  decide

/-! ### Directories of a path -/

theorem prefix_of_mem_dirChain (d q : List Char) (h : q ∈ dirChain d) : q <+: d := by
  unfold dirChain at h
  rw [List.mem_reverse, List.mem_filter] at h
  exact (List.mem_inits q d).mp h.1

theorem lastSlash_lt (path : List Char) (i : Nat) (h : lastSlash path = some i) :
    i < path.length := by
  induction path generalizing i with
  | nil => simp [lastSlash] at h
  | cons c rest ih =>
    simp only [lastSlash] at h
    cases hr : lastSlash rest with
    | none =>
      simp only [hr] at h
      split at h
      · simp only [Option.some.injEq] at h
        subst h
        simp
      · simp at h
    | some j =>
      simp only [hr, Option.some.injEq] at h
      subst h
      have := ih j hr
      simp only [List.length_cons]
      omega

theorem lastSlash_append (a b : List Char) (k : Nat) (h : lastSlash a = some k) :
    ∃ j, lastSlash (a ++ b) = some j ∧ k ≤ j := by
  induction a generalizing k with
  | nil => simp [lastSlash] at h
  | cons c rest ih =>
    simp only [lastSlash, List.cons_append] at h ⊢
    cases hr : lastSlash rest with
    | some j0 =>
      simp only [hr, Option.some.injEq] at h
      obtain ⟨j, hj, hle⟩ := ih j0 hr
      exact ⟨j + 1, by simp [hj], by omega⟩
    | none =>
      simp only [hr] at h
      split at h
      · rename_i hc
        simp only [Option.some.injEq] at h
        subst h
        cases hrb : lastSlash (rest ++ b) with
        | none => exact ⟨0, by simp [hc], le_refl _⟩
        | some j => exact ⟨j + 1, by simp, by omega⟩
      · simp at h

/-- The directory of a full path under a store root is a proper prefix of it. -/
theorem filepath_Dir_proper (root p : List Char) (k : Nat) (hroot : lastSlash root = some k)
    (hk : 0 < k) :
    filepath_Dir (root ++ p) <+: root ++ p ∧
      (filepath_Dir (root ++ p)).length < (root ++ p).length := by
  obtain ⟨j, hj, hle⟩ := lastSlash_append root p k hroot
  have hlt := lastSlash_lt _ _ hj
  unfold filepath_Dir
  rw [hj]
  cases j with
  | zero => omega
  | succ n =>
    simp only
    refine ⟨List.take_prefix _ _, ?_⟩
    rw [List.length_take]
    omega

theorem not_mem_dirChain_outside (root p q : List Char) (k : Nat)
    (hroot : lastSlash root = some k) (hk : 0 < k) (hq : ¬ q <+: root ++ p) :
    q ∉ dirChain (filepath_Dir (root ++ p)) := by
  intro hmem
  exact hq ((prefix_of_mem_dirChain _ _ hmem).trans (filepath_Dir_proper root p k hroot hk).1)

theorem self_not_mem_dirChain (root p : List Char) (k : Nat)
    (hroot : lastSlash root = some k) (hk : 0 < k) :
    root ++ p ∉ dirChain (filepath_Dir (root ++ p)) := by
  intro hmem
  have h1 := (prefix_of_mem_dirChain _ _ hmem).length_le
  have h2 := (filepath_Dir_proper root p k hroot hk).2
  omega

/-! ### `os.MkdirAll` -/

theorem mkdirChain_cases (fs : FS) (chain : List (List Char)) (q : List Char) :
    fsLookup (mkdirChain fs chain).1 q = fsLookup fs q ∨
      (q ∈ chain ∧ fsLookup fs q = none ∧ fsLookup (mkdirChain fs chain).1 q = some .dir) := by
  induction chain with
  | nil => left; rfl
  | cons p parents ih =>
    simp only [mkdirChain]
    cases hp : fsLookup fs p with
    | some n =>
      cases n with
      | dir => left; rfl
      | file d t => left; rfl
    | none =>
      simp only
      cases hrec : mkdirChain fs parents with
      | mk fs1 e =>
        rw [hrec] at ih
        cases e with
        | some err =>
          simp only
          rcases ih with h | ⟨h1, h2, h3⟩
          · left; exact h
          · right; exact ⟨List.mem_cons_of_mem _ h1, h2, h3⟩
        | none =>
          simp only
          by_cases hq : q = p
          · subst hq
            right
            exact ⟨List.mem_cons_self _ _, hp, fsLookup_set_self _ _ _⟩
          · rw [fsLookup_set_ne _ _ _ _ hq]
            rcases ih with h | ⟨h1, h2, h3⟩
            · left; exact h
            · right; exact ⟨List.mem_cons_of_mem _ h1, h2, h3⟩

theorem mkdirChain_frame (fs : FS) (chain : List (List Char)) (q : List Char)
    (hq : q ∉ chain) : fsLookup (mkdirChain fs chain).1 q = fsLookup fs q := by
  rcases mkdirChain_cases fs chain q with h | ⟨h1, _, _⟩
  · exact h
  · exact absurd h1 hq

theorem mkdirChain_fileAt (fs : FS) (chain : List (List Char)) (q : List Char) :
    fileAt (mkdirChain fs chain).1 q = fileAt fs q := by
  unfold fileAt
  rcases mkdirChain_cases fs chain q with h | ⟨_, h2, h3⟩
  · rw [h]
  · rw [h2, h3]

theorem mkdirChain_ok (fs : FS) (chain : List (List Char))
    (h : ∀ q ∈ chain, fileAt fs q = false) : (mkdirChain fs chain).2 = none := by
  induction chain with
  | nil => rfl
  | cons p parents ih =>
    simp only [mkdirChain]
    have hp := h p (List.mem_cons_self _ _)
    cases hl : fsLookup fs p with
    | some n =>
      cases n with
      | dir => rfl
      | file d t => simp [fileAt, hl] at hp
    | none =>
      simp only
      have := ih (fun q hq => h q (List.mem_cons_of_mem _ hq))
      cases hrec : mkdirChain fs parents with
      | mk fs1 e =>
        rw [hrec] at this
        simp only at this
        subst this
        rfl

/-! ### Writes, renames and time stamps -/

theorem os_OpenWrite_ne (fs : FS) (name q : List Char) (a : Bool) (body : List Nat) (now : Int)
    (h : q ≠ name) : fsLookup (os_OpenWrite fs name a body now).1 q = fsLookup fs q := by
  unfold os_OpenWrite
  split
  · rfl
  · exact fsLookup_set_ne _ _ _ _ h
  · exact fsLookup_set_ne _ _ _ _ h

theorem os_OpenWrite_file (fs : FS) (name : List Char) (a : Bool) (body data : List Nat)
    (t now : Int) (h : fsLookup fs name = some (.file data t)) :
    os_OpenWrite fs name a body now =
      (fsSet fs name (.file ((if a then data else []) ++ body) now), (body.length : Int), none) := by
  unfold os_OpenWrite
  rw [h]

theorem os_OpenWrite_absent (fs : FS) (name : List Char) (a : Bool) (body : List Nat)
    (now : Int) (h : fsLookup fs name = none) :
    os_OpenWrite fs name a body now =
      (fsSet fs name (.file body now), (body.length : Int), none) := by
  unfold os_OpenWrite
  rw [h]

theorem os_Chtimes_ne (fs : FS) (name q : List Char) (t : Int) (h : q ≠ name) :
    fsLookup (os_Chtimes fs name t).1 q = fsLookup fs q := by
  unfold os_Chtimes
  split
  · rfl
  · exact fsLookup_set_ne _ _ _ _ h
  · rfl

theorem os_Chtimes_file (fs : FS) (name : List Char) (data : List Nat) (t0 t : Int)
    (h : fsLookup fs name = some (.file data t0)) :
    fsLookup (os_Chtimes fs name t).1 name = some (.file data t) := by
  unfold os_Chtimes
  rw [h]
  exact fsLookup_set_self _ _ _

theorem os_Rename_file (fs : FS) (oldpath newpath : List Char) (data : List Nat) (t : Int)
    (hold : fsLookup fs oldpath = some (.file data t))
    (hnew : fsLookup fs newpath ≠ some .dir) (hne : oldpath ≠ newpath) :
    os_Rename fs oldpath newpath =
      (fsSet (fsErase fs oldpath) newpath (.file data t), none) := by
  unfold os_Rename
  rw [hold]
  cases hn : fsLookup fs newpath with
  | none => simp only [if_neg hne]
  | some n =>
    cases n with
    | dir => exact absurd hn hnew
    | file d2 t2 => simp only [if_neg hne]

/-! ### Store roots -/

theorem lastSlash_save : lastSlash FileSavePath = some 8 := by decide
theorem lastSlash_sync : lastSlash FileSyncingPath = some 8 := by decide
theorem lastSlash_info : lastSlash FileSyncingInfoPath = some 8 := by decide

/-! ### Helpers that create files -/

theorem makeSureParentFolderCreated_frame (fs : FS) (root p q : List Char) (k : Nat)
    (hroot : lastSlash root = some k) (hk : 0 < k) (hq : ¬ q <+: root ++ p) :
    fsLookup (makeSureParentFolderCreated fs (root ++ p)).1 q = fsLookup fs q :=
  mkdirChain_frame fs _ q (not_mem_dirChain_outside root p q k hroot hk hq)

theorem makeSureParentFolderCreated_self (fs : FS) (root p : List Char) (k : Nat)
    (hroot : lastSlash root = some k) (hk : 0 < k) :
    fsLookup (makeSureParentFolderCreated fs (root ++ p)).1 (root ++ p) =
      fsLookup fs (root ++ p) :=
  mkdirChain_frame fs _ _ (self_not_mem_dirChain root p k hroot hk)

theorem makeSureParentFolderCreated_fileAt (fs : FS) (full q : List Char) :
    fileAt (makeSureParentFolderCreated fs full).1 q = fileAt fs q :=
  mkdirChain_fileAt fs _ q

theorem makeSureParentFolderCreated_ok (fs : FS) (full : List Char)
    (h : ∀ q ∈ dirChain (filepath_Dir full), fileAt fs q = false) :
    (makeSureParentFolderCreated fs full).2 = none :=
  mkdirChain_ok fs _ h

theorem writeFileFromReader_frame (fs : FS) (reader : List Nat) (root p q : List Char)
    (a : Bool) (now : Int) (k : Nat) (hroot : lastSlash root = some k) (hk : 0 < k)
    (hq : ¬ q <+: root ++ p) :
    fsLookup (writeFileFromReader fs reader (root ++ p) a now).1 q = fsLookup fs q := by
  have hne : q ≠ root ++ p := fun e => hq (e ▸ List.prefix_refl _)
  have hf := makeSureParentFolderCreated_frame fs root p q k hroot hk hq
  unfold writeFileFromReader
  cases hm : makeSureParentFolderCreated fs (root ++ p) with
  | mk fs1 e =>
    rw [hm] at hf
    cases e with
    | some err => exact hf
    | none =>
      simp only
      rw [os_OpenWrite_ne _ _ _ _ _ _ hne]
      exact hf

theorem writeFileSyncingInfo_frame (L : Lib) (fs : FS) (root p q : List Char)
    (info : FileSnycingInfo) (now : Int) (k : Nat) (hroot : lastSlash root = some k)
    (hk : 0 < k) (hq : ¬ q <+: root ++ p) :
    fsLookup (writeFileSyncingInfo L fs (root ++ p) info now).1 q = fsLookup fs q := by
  have hne : q ≠ root ++ p := fun e => hq (e ▸ List.prefix_refl _)
  have hf := makeSureParentFolderCreated_frame fs root p q k hroot hk hq
  unfold writeFileSyncingInfo
  cases hm : makeSureParentFolderCreated fs (root ++ p) with
  | mk fs1 e =>
    rw [hm] at hf
    cases e with
    | some err => exact hf
    | none =>
      simp only
      rw [os_OpenWrite_ne _ _ _ _ _ _ hne]
      exact hf

/-- Appending a body to an existing file whose directory chain holds no
regular file. -/
theorem writeFileFromReader_append (fs : FS) (reader : List Nat) (root p : List Char)
    (now : Int) (k : Nat) (hroot : lastSlash root = some k) (hk : 0 < k)
    (data : List Nat) (t : Int) (hfile : fsLookup fs (root ++ p) = some (.file data t))
    (hchain : ∀ q ∈ dirChain (filepath_Dir (root ++ p)), fileAt fs q = false) :
    (writeFileFromReader fs reader (root ++ p) true now).2.1 = reader.length ∧
    fsLookup (writeFileFromReader fs reader (root ++ p) true now).1 (root ++ p) =
      some (.file (data ++ reader) now) := by
  have hok := makeSureParentFolderCreated_ok fs (root ++ p) hchain
  have hself := makeSureParentFolderCreated_self fs root p k hroot hk
  unfold writeFileFromReader
  cases hm : makeSureParentFolderCreated fs (root ++ p) with
  | mk fs1 e =>
    rw [hm] at hok hself
    simp only at hok
    subst hok
    simp only
    rw [os_OpenWrite_file fs1 (root ++ p) true reader data t now (hself.trans hfile)]
    exact ⟨rfl, by simp [fsLookup_set_self]⟩

/-! ### `removeTempFiles`, `error` -/

theorem removeTempFiles_frame (s : State) (q : List Char)
    (h1 : ¬ q <+: getFilleFullPath FileSyncingPath s.myRequest.filePath)
    (h2 : ¬ q <+: getFilleFullPath FileSyncingInfoPath s.myRequest.filePath) :
    fsLookup s.removeTempFiles.fs q = fsLookup s.fs q := by
  unfold State.removeTempFiles
  simp only
  rw [removeFile_frame _ _ _ _ h2, removeFile_frame _ _ _ _ h1]

theorem removeTempFiles_cases (s : State) (q : List Char) :
    fsLookup s.removeTempFiles.fs q = fsLookup s.fs q ∨
      fsLookup s.removeTempFiles.fs q = none := by
  unfold State.removeTempFiles
  simp only
  rcases removeFile_cases s.myRequest.filePath
    (removeFile s.myRequest.filePath s.fs
      (getFilleFullPath FileSyncingPath s.myRequest.filePath)).1
    (getFilleFullPath FileSyncingInfoPath s.myRequest.filePath) q with h | h
  · rw [h]; exact removeFile_cases _ _ _ _
  · right; exact h

theorem removeTempFiles_staging (s : State) :
    fileAt s.removeTempFiles.fs (getFilleFullPath FileSyncingPath s.myRequest.filePath) =
      false := by
  unfold State.removeTempFiles
  simp only
  exact removeFile_absent _ _ _ _ (removeFile_not_file _ _ _)

theorem removeTempFiles_info (s : State) :
    fileAt s.removeTempFiles.fs (getFilleFullPath FileSyncingInfoPath s.myRequest.filePath) =
      false := by
  unfold State.removeTempFiles
  simp only
  exact removeFile_not_file _ _ _

theorem removeTempFiles_save (s : State) :
    fsLookup s.removeTempFiles.fs (getFilleFullPath FileSavePath s.myRequest.filePath) =
      fsLookup s.fs (getFilleFullPath FileSavePath s.myRequest.filePath) :=
  removeTempFiles_frame s _ (save_not_prefix_sync _) (save_not_prefix_info _)

@[simp] theorem error_false_fs (s : State) : (s.error false).fs = s.fs := rfl

@[simp] theorem error_true_fs (s : State) : (s.error true).fs = s.removeTempFiles.fs := rfl

@[simp] theorem addDownloaded_fs (s : State) (n : Int) : (s.addDownloaded n).fs = s.fs := rfl

/-- A fatal error leaves no staging file and no sidecar, keeps the final
path as it is, and reports once. -/
theorem error_true_effect (s : State) :
    fileAt (s.error true).fs (getFilleFullPath FileSyncingPath s.myRequest.filePath) = false ∧
    fileAt (s.error true).fs (getFilleFullPath FileSyncingInfoPath s.myRequest.filePath) =
      false ∧
    fsLookup (s.error true).fs (getFilleFullPath FileSavePath s.myRequest.filePath) =
      fsLookup s.fs (getFilleFullPath FileSavePath s.myRequest.filePath) ∧
    (s.error true).doneMyRequests = s.doneMyRequests ++ [s.myRequest.filePath] :=
  ⟨removeTempFiles_staging s, removeTempFiles_info s, removeTempFiles_save s, rfl⟩

theorem buildRequest_some (m : MyRequestToRemote) (t : TargetFileInfo)
    (h : t.syncingFileInfo = none ↔ t.fileSyncingInfo = none) :
    ∃ req, buildRequest m t = some req := by
  unfold buildRequest
  cases h1 : t.syncingFileInfo with
  | none => cases h2 : t.saveFileInfo <;> simp
  | some sfi =>
    cases h2 : t.fileSyncingInfo with
    | none => rw [h1, h2] at h; simp at h
    | some fsi => simp

/-! ### One attempt -/

theorem doDownload_response (L : Lib) (s : State) (r : Response) (now : Int)
    (tfi : TargetFileInfo) (req : Request) (ht : s.myRequest.targetFileInfo = some tfi)
    (hb : buildRequest s.myRequest tfi = some req) :
    doDownload L (.response r now) s =
      some (if r.StatusCode = 304 then
          ((({ s with dispatched := s.dispatched ++ [req] } : State).removeTempFiles).ok false 0,
            false)
        else if r.StatusCode = 206 then
          doDownload206 tfi r now { s with dispatched := s.dispatched ++ [req] }
        else if r.StatusCode = 200 ∨ r.StatusCode = 416 then
          doDownload200 L r now { s with dispatched := s.dispatched ++ [req] }
        else (({ s with dispatched := s.dispatched ++ [req] } : State).error false, false)) := by
  simp only [doDownload, ht, hb]
  split_ifs <;> rfl

/-- A fatal error raised from a state `s2` reached from `s0` without touching
the final path or the reports. -/
theorem fatal_effect (s0 s2 : State) (hp : s2.myRequest.filePath = s0.myRequest.filePath)
    (hsave : fsLookup s2.fs (getFilleFullPath FileSavePath s0.myRequest.filePath) =
      fsLookup s0.fs (getFilleFullPath FileSavePath s0.myRequest.filePath))
    (hdone : s2.doneMyRequests = s0.doneMyRequests) :
    fileAt (s2.error true).fs (getFilleFullPath FileSyncingPath s0.myRequest.filePath) =
      false ∧
    fileAt (s2.error true).fs (getFilleFullPath FileSyncingInfoPath s0.myRequest.filePath) =
      false ∧
    fsLookup (s2.error true).fs (getFilleFullPath FileSavePath s0.myRequest.filePath) =
      fsLookup s0.fs (getFilleFullPath FileSavePath s0.myRequest.filePath) ∧
    (s2.error true).doneMyRequests = s0.doneMyRequests ++ [s0.myRequest.filePath] := by
  obtain ⟨h1, h2, h3, h4⟩ := error_true_effect s2
  rw [hp] at h1 h2 h3 h4
  rw [hdone] at h4
  exact ⟨h1, h2, h3.trans hsave, h4⟩

/-- Claim C7 (over-length guard). Let the request hold a resolved state with
staging and sidecar records nil together. For a 206 response that reaches
the body copy (both records present, `Content-Range` parsed with a start
equal to the recorded staging size, `Content-Length` parsed) in which the
number of bytes copied exceeds the declared `Content-Length` or the resulting
staging size exceeds the sidecar's `ContentLength`, and for a 200 or 416
response that reaches the body copy (`Content-Length` and `Last-Modified`
parsed) in which the number of bytes copied exceeds the declared
`Content-Length`: `doDownload` returns false (no retry), has sent one report,
leaves no staging file and no sidecar file, and leaves the final path as it
was. -/
theorem overlength_is_fatal (L : Lib) (s : State) (r : Response) (now : Int)
    (tfi : TargetFileInfo) (ht : s.myRequest.targetFileInfo = some tfi)
    (hpair : tfi.syncingFileInfo = none ↔ tfi.fileSyncingInfo = none) :
    (∀ (sfi : FileInfo) (fsi : FileSnycingInfo) (cr : ContentRange) (content_length : Int),
      r.StatusCode = 206 → tfi.syncingFileInfo = some sfi → tfi.fileSyncingInfo = some fsi →
      perseContentRange r.ContentRange = some cr → cr.start = sfi.size →
      strconv_Atoi r.ContentLength = some content_length →
      ((writeFileFromReader s.fs r.Body
          (getFilleFullPath FileSyncingPath s.myRequest.filePath) true now).2.1 > content_length ∨
        (writeFileFromReader s.fs r.Body
          (getFilleFullPath FileSyncingPath s.myRequest.filePath) true now).2.1 + sfi.size >
          fsi.ContentLength) →
      ∃ s1, doDownload L (.response r now) s = some (s1, false) ∧
        fileAt s1.fs (getFilleFullPath FileSyncingPath s.myRequest.filePath) = false ∧
        fileAt s1.fs (getFilleFullPath FileSyncingInfoPath s.myRequest.filePath) = false ∧
        fsLookup s1.fs (getFilleFullPath FileSavePath s.myRequest.filePath) =
          fsLookup s.fs (getFilleFullPath FileSavePath s.myRequest.filePath) ∧
        s1.doneMyRequests = s.doneMyRequests ++ [s.myRequest.filePath]) ∧
    (∀ (content_length last_modified : Int),
      (r.StatusCode = 200 ∨ r.StatusCode = 416) →
      strconv_Atoi r.ContentLength = some content_length →
      L.timeParse r.LastModified = some last_modified →
      (writeFileFromReader
        (writeFileSyncingInfo L s.removeTempFiles.fs
          (getFilleFullPath FileSyncingInfoPath s.myRequest.filePath)
          ⟨content_length, last_modified⟩ now).1
        r.Body (getFilleFullPath FileSyncingPath s.myRequest.filePath) false now).2.1 >
        content_length →
      ∃ s1, doDownload L (.response r now) s = some (s1, false) ∧
        fileAt s1.fs (getFilleFullPath FileSyncingPath s.myRequest.filePath) = false ∧
        fileAt s1.fs (getFilleFullPath FileSyncingInfoPath s.myRequest.filePath) = false ∧
        fsLookup s1.fs (getFilleFullPath FileSavePath s.myRequest.filePath) =
          fsLookup s.fs (getFilleFullPath FileSavePath s.myRequest.filePath) ∧
        s1.doneMyRequests = s.doneMyRequests ++ [s.myRequest.filePath]) := by
  obtain ⟨req, hb⟩ := buildRequest_some s.myRequest tfi hpair
  have hd := doDownload_response L s r now tfi req ht hb
  constructor
  · intro sfi fsi cr content_length hst hsfi hfsi hcr hstart hcl hover
    have h304 : ¬ r.StatusCode = 304 := by rw [hst]; decide
    rw [hd, if_neg h304, if_pos hst]
    have hsave := writeFileFromReader_frame s.fs r.Body FileSyncingPath s.myRequest.filePath
      (getFilleFullPath FileSavePath s.myRequest.filePath) true now 8 lastSlash_sync
      (by decide) (save_not_prefix_sync _)
    simp only [doDownload206, hsfi, hfsi, hcr, hstart, hcl, ne_eq, not_true_eq_false,
      if_false]
    by_cases h1 : (writeFileFromReader s.fs r.Body
        (getFilleFullPath FileSyncingPath s.myRequest.filePath) true now).2.1 > content_length
    · rw [if_pos h1]
      exact ⟨_, rfl, fatal_effect s _ rfl hsave rfl⟩
    · rw [if_neg h1]
      have h2 := hover.resolve_left h1
      rw [if_pos h2]
      exact ⟨_, rfl, fatal_effect s _ rfl hsave rfl⟩
  · intro content_length last_modified hst hcl hlm hover
    have h304 : ¬ r.StatusCode = 304 := by rcases hst with h | h <;> (rw [h]; decide)
    have h206 : ¬ r.StatusCode = 206 := by rcases hst with h | h <;> (rw [h]; decide)
    rw [hd, if_neg h304, if_neg h206, if_pos hst]
    simp only [doDownload200, hcl, hlm]
    rw [if_pos (by exact hover)]
    have e1 := removeTempFiles_save s
    have e2 := writeFileSyncingInfo_frame L s.removeTempFiles.fs FileSyncingInfoPath
      s.myRequest.filePath (getFilleFullPath FileSavePath s.myRequest.filePath)
      ⟨content_length, last_modified⟩ now 8 lastSlash_info (by decide) (save_not_prefix_info _)
    have e3 := writeFileFromReader_frame
      (writeFileSyncingInfo L s.removeTempFiles.fs
        (getFilleFullPath FileSyncingInfoPath s.myRequest.filePath)
        ⟨content_length, last_modified⟩ now).1 r.Body FileSyncingPath s.myRequest.filePath
      (getFilleFullPath FileSavePath s.myRequest.filePath) false now 8 lastSlash_sync
      (by decide) (save_not_prefix_sync _)
    exact ⟨_, rfl, fatal_effect s _ rfl (e3.trans (e2.trans e1)) rfl⟩

/-! ### Commit -/

theorem fileAt_congr {fs fs1 : FS} {q : List Char} (h : fsLookup fs1 q = fsLookup fs q) :
    fileAt fs1 q = fileAt fs q := by
  unfold fileAt
  rw [h]

theorem writeFileFromReader_fileAt (fs : FS) (reader : List Nat) (full q : List Char)
    (a : Bool) (now : Int) (hq : q ≠ full) :
    fileAt (writeFileFromReader fs reader full a now).1 q = fileAt fs q := by
  have hf := makeSureParentFolderCreated_fileAt fs full q
  unfold writeFileFromReader
  cases hm : makeSureParentFolderCreated fs full with
  | mk fs1 e =>
    rw [hm] at hf
    cases e with
    | some err => exact hf
    | none =>
      simp only
      rw [fileAt_congr (os_OpenWrite_ne _ _ _ _ _ _ hq)]
      exact hf

theorem save_ne_sync (p : List Char) :
    getFilleFullPath FileSavePath p ≠ getFilleFullPath FileSyncingPath p :=
  fun e => save_not_prefix_sync p (e ▸ List.prefix_refl _)

theorem info_ne_save (p : List Char) :
    getFilleFullPath FileSyncingInfoPath p ≠ getFilleFullPath FileSavePath p :=
  fun e => info_not_prefix_save p (e ▸ List.prefix_refl _)

theorem mem_dirChain_save_ne_sync (p q : List Char)
    (hq : q ∈ dirChain (filepath_Dir (getFilleFullPath FileSavePath p))) :
    q ≠ getFilleFullPath FileSyncingPath p := by
  intro e
  have h1 := (prefix_of_mem_dirChain _ _ hq).length_le
  have h2 := (filepath_Dir_proper FileSavePath p 8 lastSlash_save (by decide)).2
  have h3 : (getFilleFullPath FileSyncingPath p).length =
      (FileSavePath ++ p).length := by
    simp [getFilleFullPath, FileSyncingPath, FileSavePath]
  rw [e] at h1
  unfold getFilleFullPath at h1 h3
  omega

/-- The commit of `moveFile`: a staging file moves onto the final path when
the directories of the final path can be made and no directory sits on it. -/
theorem moveFile_commit (p : List Char) (fs : FS) (data : List Nat) (t : Int)
    (hstaging : fsLookup fs (getFilleFullPath FileSyncingPath p) = some (.file data t))
    (hchain : ∀ q ∈ dirChain (filepath_Dir (getFilleFullPath FileSavePath p)),
      fileAt fs q = false)
    (hnotdir : fsLookup fs (getFilleFullPath FileSavePath p) ≠ some .dir) :
    fsLookup (moveFile p fs (getFilleFullPath FileSyncingPath p)
        (getFilleFullPath FileSavePath p)).1 (getFilleFullPath FileSavePath p) =
      some (.file data t) ∧
    fsLookup (moveFile p fs (getFilleFullPath FileSyncingPath p)
        (getFilleFullPath FileSavePath p)).1 (getFilleFullPath FileSyncingPath p) = none := by
  have hok := makeSureParentFolderCreated_ok fs _ hchain
  have hself := makeSureParentFolderCreated_self fs FileSavePath p 8 lastSlash_save (by decide)
  have hsy := makeSureParentFolderCreated_frame fs FileSavePath p
    (getFilleFullPath FileSyncingPath p) 8 lastSlash_save (by decide) (sync_not_prefix_save p)
  have hsep : ¬ filepath_Separator = '\\' := by decide
  unfold moveFile
  simp only [if_neg hsep]
  cases hm : makeSureParentFolderCreated fs (getFilleFullPath FileSavePath p) with
  | mk fs1 e =>
    have hm2 : makeSureParentFolderCreated fs (FileSavePath ++ p) = (fs1, e) := hm
    rw [hm] at hok
    rw [hm2] at hself hsy
    simp only at hok hself hsy
    subst hok
    simp only
    have hren := os_Rename_file fs1 (getFilleFullPath FileSyncingPath p)
      (getFilleFullPath FileSavePath p) data t (hsy.trans hstaging)
      (by rw [show fsLookup fs1 (getFilleFullPath FileSavePath p) =
            fsLookup fs (getFilleFullPath FileSavePath p) from hself]; exact hnotdir)
      (fun e => save_ne_sync p e.symm)
    rw [hren]
    simp only
    constructor
    · rw [removeFile_frame p _ _ _ (save_not_prefix_sync p)]
      exact fsLookup_set_self _ _ _
    · have hnone : fsLookup (fsSet (fsErase fs1 (getFilleFullPath FileSyncingPath p))
          (getFilleFullPath FileSavePath p) (.file data t))
          (getFilleFullPath FileSyncingPath p) = none := by
        rw [fsLookup_set_ne _ _ _ _ (fun e => save_ne_sync p e.symm)]
        exact fsLookup_erase_self _ _
      rcases removeFile_cases p (fsSet (fsErase fs1 (getFilleFullPath FileSyncingPath p))
          (getFilleFullPath FileSavePath p) (.file data t))
          (getFilleFullPath FileSyncingPath p) (getFilleFullPath FileSyncingPath p) with h | h
      · rw [h]; exact hnone
      · exact h

/-- The effect of `ok(true, utcTime)` on a staging file that can be moved. -/
theorem ok_commit (s : State) (data : List Nat) (t utcTime : Int)
    (hstaging : fsLookup s.fs (getFilleFullPath FileSyncingPath s.myRequest.filePath) =
      some (.file data t))
    (hchain : ∀ q ∈ dirChain (filepath_Dir (getFilleFullPath FileSavePath
      s.myRequest.filePath)), fileAt s.fs q = false)
    (hnotdir : fsLookup s.fs (getFilleFullPath FileSavePath s.myRequest.filePath) ≠
      some .dir) :
    fsLookup (s.ok true utcTime).fs (getFilleFullPath FileSavePath s.myRequest.filePath) =
      some (.file data utcTime) ∧
    fsLookup (s.ok true utcTime).fs (getFilleFullPath FileSyncingPath s.myRequest.filePath) =
      none ∧
    fileAt (s.ok true utcTime).fs (getFilleFullPath FileSyncingInfoPath s.myRequest.filePath) =
      false := by
  obtain ⟨m1, m2⟩ := moveFile_commit s.myRequest.filePath s.fs data t hstaging hchain hnotdir
  generalize hfs1 : (moveFile s.myRequest.filePath s.fs
    (getFilleFullPath FileSyncingPath s.myRequest.filePath)
    (getFilleFullPath FileSavePath s.myRequest.filePath)).1 = fs1 at m1 m2
  have hok : (s.ok true utcTime).fs =
      (changeFileModifyTime ({ s with fs := fs1 } : State).removeTempFiles.fs
        (getFilleFullPath FileSavePath s.myRequest.filePath) utcTime).1 := by
    rw [← hfs1]; rfl
  rw [hok]
  have r1 : fsLookup ({ s with fs := fs1 } : State).removeTempFiles.fs
      (getFilleFullPath FileSavePath s.myRequest.filePath) = some (.file data t) :=
    (removeTempFiles_save ({ s with fs := fs1 } : State)).trans m1
  have r2 : fsLookup ({ s with fs := fs1 } : State).removeTempFiles.fs
      (getFilleFullPath FileSyncingPath s.myRequest.filePath) = none := by
    rcases removeTempFiles_cases ({ s with fs := fs1 } : State)
      (getFilleFullPath FileSyncingPath s.myRequest.filePath) with h | h
    · exact h.trans m2
    · exact h
  have r3 : fileAt ({ s with fs := fs1 } : State).removeTempFiles.fs
      (getFilleFullPath FileSyncingInfoPath s.myRequest.filePath) = false :=
    removeTempFiles_info ({ s with fs := fs1 } : State)
  unfold changeFileModifyTime
  refine ⟨os_Chtimes_file _ _ data t utcTime r1, ?_, ?_⟩
  · rw [os_Chtimes_ne _ _ _ _ (fun e => save_ne_sync _ e.symm)]
    exact r2
  · rw [fileAt_congr (os_Chtimes_ne _ _ _ _ (info_ne_save _))]
    exact r3

/-- Claim C6 (resume commit). Let the staging file hold `old` (its size being
the recorded staging size `S`) with recorded sidecar `{ContentLength L,
LastModified M}`, and let a 206 response carry a `Content-Range` whose start
is `S`, a `Content-Length` equal to the number `B` of body bytes, and
`S + B = L`. If the directories of the staging and final paths can be made
(no regular file sits on their directory chains) and the final path is not a
directory, `doDownload` commits: it returns false (no retry) after one
report, the final file holds `old` followed by the body, of size `L`, with
modify time `M`, and neither the staging file nor the sidecar file exists. -/
theorem resume_commits (L : Lib) (s : State) (r : Response) (now : Int)
    (tfi : TargetFileInfo) (sfi : FileInfo) (len M : Int) (cr : ContentRange)
    (old : List Nat) (t0 : Int)
    (ht : s.myRequest.targetFileInfo = some tfi)
    (hsfi : tfi.syncingFileInfo = some sfi)
    (hfsi : tfi.fileSyncingInfo = some ⟨len, M⟩)
    (hstaging : fsLookup s.fs (getFilleFullPath FileSyncingPath s.myRequest.filePath) =
      some (.file old t0))
    (hsize : sfi.size = old.length)
    (hst : r.StatusCode = 206)
    (hcr : perseContentRange r.ContentRange = some cr)
    (hstart : cr.start = sfi.size)
    (hcl : strconv_Atoi r.ContentLength = some (r.Body.length : Int))
    (hsum : sfi.size + r.Body.length = len)
    (hchainS : ∀ q ∈ dirChain (filepath_Dir (getFilleFullPath FileSyncingPath
      s.myRequest.filePath)), fileAt s.fs q = false)
    (hchainF : ∀ q ∈ dirChain (filepath_Dir (getFilleFullPath FileSavePath
      s.myRequest.filePath)), fileAt s.fs q = false)
    (hnotdir : fsLookup s.fs (getFilleFullPath FileSavePath s.myRequest.filePath) ≠
      some .dir) :
    ∃ s1, doDownload L (.response r now) s = some (s1, false) ∧
      fsLookup s1.fs (getFilleFullPath FileSavePath s.myRequest.filePath) =
        some (.file (old ++ r.Body) M) ∧
      ((old ++ r.Body).length : Int) = len ∧
      fsLookup s1.fs (getFilleFullPath FileSyncingPath s.myRequest.filePath) = none ∧
      fileAt s1.fs (getFilleFullPath FileSyncingInfoPath s.myRequest.filePath) = false ∧
      s1.doneMyRequests = s.doneMyRequests ++ [s.myRequest.filePath] := by
  obtain ⟨req, hb⟩ := buildRequest_some s.myRequest tfi (by rw [hsfi, hfsi]; simp)
  have h304 : ¬ r.StatusCode = 304 := by rw [hst]; decide
  rw [doDownload_response L s r now tfi req ht hb, if_neg h304, if_pos hst]
  have hw : (writeFileFromReader s.fs r.Body
        (getFilleFullPath FileSyncingPath s.myRequest.filePath) true now).2.1 =
        (r.Body.length : Int) ∧
      fsLookup (writeFileFromReader s.fs r.Body
        (getFilleFullPath FileSyncingPath s.myRequest.filePath) true now).1
        (getFilleFullPath FileSyncingPath s.myRequest.filePath) =
        some (.file (old ++ r.Body) now) :=
    writeFileFromReader_append s.fs r.Body FileSyncingPath
      s.myRequest.filePath now 8 lastSlash_sync (by decide) old t0 hstaging hchainS
  obtain ⟨w1, w2⟩ := hw
  have w3 : fsLookup (writeFileFromReader s.fs r.Body
        (getFilleFullPath FileSyncingPath s.myRequest.filePath) true now).1
        (getFilleFullPath FileSavePath s.myRequest.filePath) =
        fsLookup s.fs (getFilleFullPath FileSavePath s.myRequest.filePath) :=
    writeFileFromReader_frame s.fs r.Body FileSyncingPath s.myRequest.filePath
      (getFilleFullPath FileSavePath s.myRequest.filePath) true now 8 lastSlash_sync
      (by decide) (save_not_prefix_sync _)
  have w4 : ∀ q ∈ dirChain (filepath_Dir (getFilleFullPath FileSavePath
      s.myRequest.filePath)),
      fileAt (writeFileFromReader s.fs r.Body
        (getFilleFullPath FileSyncingPath s.myRequest.filePath) true now).1 q = false := by
    intro q hq
    rw [writeFileFromReader_fileAt _ _ _ _ _ _ (mem_dirChain_save_ne_sync _ q hq)]
    exact hchainF q hq
  have hlen : ((old ++ r.Body).length : Int) = len := by
    rw [← hsum, hsize]; simp
  simp only [doDownload206, hsfi, hfsi, hcr, hstart, hcl, ne_eq, not_true_eq_false,
    if_false]
  rw [w1]
  have hnew : (r.Body.length : Int) + sfi.size = len := by rw [← hsum]; ring
  rw [if_neg (lt_irrefl _), hnew, if_neg (lt_irrefl _), if_pos ⟨rfl, rfl⟩]
  refine ⟨_, rfl, ?_⟩
  obtain ⟨c1, c2, c3⟩ := ok_commit
    (({ s with
        dispatched := s.dispatched ++ [req]
        myRequest := { s.myRequest with fileSize := len, downloaded := sfi.size }
        fs := (writeFileFromReader s.fs r.Body
          (getFilleFullPath FileSyncingPath s.myRequest.filePath) true now).1 } :
      State).addDownloaded r.Body.length)
    (old ++ r.Body) now M w2 w4 (fun h => hnotdir (w3.symm.trans h))
  exact ⟨c1, hlen, c2, c3, rfl⟩

theorem resume_commits_witness :
    fsLookup resumeState.fs (getFilleFullPath FileSyncingPath resumeState.myRequest.filePath) =
      some (.file [1, 2, 3, 4] 5) ∧
    perseContentRange resumeResponse.ContentRange = some ⟨4, 9, 10⟩ ∧
    ∃ s1, doDownload sampleLib (.response resumeResponse 100) resumeState = some (s1, false) ∧
      fsLookup s1.fs (getFilleFullPath FileSavePath resumeState.myRequest.filePath) =
        some (.file ([1, 2, 3, 4] ++ resumeResponse.Body) 7) ∧
      (([1, 2, 3, 4] ++ resumeResponse.Body).length : Int) = 10 ∧
      fsLookup s1.fs (getFilleFullPath FileSyncingPath resumeState.myRequest.filePath) = none ∧
      fileAt s1.fs (getFilleFullPath FileSyncingInfoPath resumeState.myRequest.filePath) =
        false ∧
      s1.doneMyRequests = resumeState.doneMyRequests ++ [resumeState.myRequest.filePath] :=
  ⟨by decide, by decide,
   resume_commits sampleLib resumeState resumeResponse 100
     ⟨none, some ⟨getFilleFullPath FileSyncingPath samplePath, 4, 5⟩, some ⟨10, 7⟩⟩
     ⟨getFilleFullPath FileSyncingPath samplePath, 4, 5⟩ 10 7 ⟨4, 9, 10⟩ [1, 2, 3, 4] 5
     rfl rfl rfl (by decide) (by decide) rfl (by decide) (by decide) (by decide) (by decide)
     (by decide) (by decide) (by decide)⟩

theorem overlength_is_fatal_witness :
    perseContentRange overlongResponse.ContentRange = some ⟨4, 9, 10⟩ ∧
    strconv_Atoi overlongResponse.ContentLength = some 6 ∧
    (writeFileFromReader resumeState.fs overlongResponse.Body
      (getFilleFullPath FileSyncingPath resumeState.myRequest.filePath) true 100).2.1 > 6 ∧
    ∃ s1, doDownload sampleLib (.response overlongResponse 100) resumeState =
        some (s1, false) ∧
      fileAt s1.fs (getFilleFullPath FileSyncingPath resumeState.myRequest.filePath) = false ∧
      fileAt s1.fs (getFilleFullPath FileSyncingInfoPath resumeState.myRequest.filePath) =
        false ∧
      fsLookup s1.fs (getFilleFullPath FileSavePath resumeState.myRequest.filePath) =
        fsLookup resumeState.fs (getFilleFullPath FileSavePath resumeState.myRequest.filePath) ∧
      s1.doneMyRequests = resumeState.doneMyRequests ++ [resumeState.myRequest.filePath] :=
  ⟨by decide, by decide, by decide,
   (overlength_is_fatal sampleLib resumeState overlongResponse 100
     ⟨none, some ⟨getFilleFullPath FileSyncingPath samplePath, 4, 5⟩, some ⟨10, 7⟩⟩
     rfl (by decide)).1
     ⟨getFilleFullPath FileSyncingPath samplePath, 4, 5⟩ ⟨10, 7⟩ ⟨4, 9, 10⟩ 6
     rfl rfl rfl (by decide) rfl (by decide) (Or.inl (by decide))⟩

/-- Claim C8, as stated, fails: for four staged bytes and a 206 response whose
range starts at byte 5, `doDownload` returns false (no retry), and `run`
executes `doDownload` once although the retry budget is untouched. -/
theorem range_mismatch_not_retried :
    perseContentRange misalignedResponse.ContentRange = some ⟨5, 9, 10⟩ ∧
    (doDownload sampleLib (.response misalignedResponse 100) resumeState).map Prod.snd =
      some false ∧
    (run sampleLib (fun _ => .response misalignedResponse 100) resumeState).executions =
      some 1 := by
  decide

/-- Claim C8, amended. For every 206 response whose `Content-Range` start
differs from the recorded staging size, the attempt is aborted as a
non-fatal error that is terminal: `doDownload` sends its one report, leaves
the filesystem (staging file and sidecar included) untouched and returns
false; at whatever iteration of the loop of `run` the attempt is made, the
loop returns right after it without re-resolving the state, so `run` whose
first attempt it is returns after that single execution. -/
theorem range_mismatch_is_terminal (L : Lib) (world : Nat → NetOutcome) (s : State)
    (r : Response) (now : Int) (tfi : TargetFileInfo) (sfi : FileInfo)
    (fsi : FileSnycingInfo) (cr : ContentRange)
    (ht : s.myRequest.targetFileInfo = some tfi)
    (hsfi : tfi.syncingFileInfo = some sfi) (hfsi : tfi.fileSyncingInfo = some fsi)
    (hst : r.StatusCode = 206)
    (hcr : perseContentRange r.ContentRange = some cr)
    (hne : cr.start ≠ sfi.size) :
    ∃ s1, doDownload L (.response r now) s = some (s1, false) ∧ s1.fs = s.fs ∧
      s1.doneMyRequests = s.doneMyRequests ++ [s.myRequest.filePath] ∧
      (∀ fuel num_retries, world num_retries = .response r now →
        runLoop L world (fuel + 1) num_retries s = .returned s1 (num_retries + 1)) ∧
      (world 0 = .response r now → run L world s = .returned s1 1) := by
  obtain ⟨req, hb⟩ := buildRequest_some s.myRequest tfi (by rw [hsfi, hfsi]; simp)
  have h304 : ¬ r.StatusCode = 304 := by rw [hst]; decide
  have hd : doDownload L (.response r now) s =
      some ((({ s with
        dispatched := s.dispatched ++ [req]
        myRequest := { s.myRequest with
          fileSize := fsi.ContentLength, downloaded := sfi.size } } : State).error false),
        false) := by
    rw [doDownload_response L s r now tfi req ht hb, if_neg h304, if_pos hst]
    simp only [doDownload206, hsfi, hfsi, hcr, ne_eq, hne, not_false_eq_true, if_true]
  refine ⟨_, hd, rfl, rfl, ?_, ?_⟩
  · intro fuel k hworld
    simp [runLoop, hworld, hd]
  · intro hworld
    simp [run, runLoop, hworld, hd]

theorem range_mismatch_is_terminal_witness :
    perseContentRange misalignedResponse.ContentRange = some ⟨5, 9, 10⟩ ∧
    (5 : Int) ≠ 4 ∧
    ∃ s1, doDownload sampleLib (.response misalignedResponse 100) resumeState =
        some (s1, false) ∧ s1.fs = resumeState.fs ∧
      s1.doneMyRequests = resumeState.doneMyRequests ++ [resumeState.myRequest.filePath] ∧
      (∀ fuel num_retries,
        (fun _ => NetOutcome.response misalignedResponse 100) num_retries =
          .response misalignedResponse 100 →
        runLoop sampleLib (fun _ => .response misalignedResponse 100) (fuel + 1) num_retries
          resumeState = .returned s1 (num_retries + 1)) ∧
      ((fun _ => NetOutcome.response misalignedResponse 100) 0 =
          .response misalignedResponse 100 →
        run sampleLib (fun _ => .response misalignedResponse 100) resumeState =
          .returned s1 1) :=
  ⟨by decide, by decide,
   range_mismatch_is_terminal sampleLib (fun _ => .response misalignedResponse 100)
     resumeState misalignedResponse 100
     ⟨none, some ⟨getFilleFullPath FileSyncingPath samplePath, 4, 5⟩, some ⟨10, 7⟩⟩
     ⟨getFilleFullPath FileSyncingPath samplePath, 4, 5⟩ ⟨10, 7⟩ ⟨5, 9, 10⟩
     rfl rfl rfl rfl (by decide) (by decide)⟩

/-- Claim C9, as stated, fails for status 200: with four staged bytes and
their sidecar on disk, a 200 response whose `Content-Length` does not parse
leaves neither the staging file nor the sidecar. -/
theorem header_failure_purges_under_200 :
    garbledResponse.StatusCode = 200 ∧
    strconv_Atoi garbledResponse.ContentLength = none ∧
    fsLookup resumeState.fs (getFilleFullPath FileSyncingPath samplePath) =
      some (.file [1, 2, 3, 4] 5) ∧
    fsLookup resumeState.fs (getFilleFullPath FileSyncingInfoPath samplePath) =
      some (.file [10, 7] 5) ∧
    (doDownload sampleLib (.response garbledResponse 100) resumeState).map
      (fun x => (fsLookup x.1.fs (getFilleFullPath FileSyncingPath samplePath),
                 fsLookup x.1.fs (getFilleFullPath FileSyncingInfoPath samplePath), x.2)) =
      some (none, none, false) := by
  decide

/-- Claim C9, amended. Let the request hold a resolved state with staging and
sidecar records nil together. An attempt that ends in a header parse failure
under status 206 (`Content-Range` or `Content-Length` does not parse) leaves
the whole filesystem, staging file and sidecar included, exactly as it was.
Under status 200 or 416 (`Content-Length` or `Last-Modified` does not parse)
the staging file and the sidecar have been removed before the headers are
read: afterwards the filesystem is the one `removeTempFiles` produces,
holding neither file, with the final path as it was. In both cases the
attempt sends its one report and returns false. -/
theorem header_failure_effect (L : Lib) (s : State) (r : Response) (now : Int)
    (tfi : TargetFileInfo) (ht : s.myRequest.targetFileInfo = some tfi)
    (hpair : tfi.syncingFileInfo = none ↔ tfi.fileSyncingInfo = none) :
    (r.StatusCode = 206 →
      (perseContentRange r.ContentRange = none ∨ strconv_Atoi r.ContentLength = none) →
      ∃ s1, doDownload L (.response r now) s = some (s1, false) ∧ s1.fs = s.fs ∧
        s1.doneMyRequests = s.doneMyRequests ++ [s.myRequest.filePath]) ∧
    ((r.StatusCode = 200 ∨ r.StatusCode = 416) →
      (strconv_Atoi r.ContentLength = none ∨ L.timeParse r.LastModified = none) →
      ∃ s1, doDownload L (.response r now) s = some (s1, false) ∧
        s1.fs = s.removeTempFiles.fs ∧
        fileAt s1.fs (getFilleFullPath FileSyncingPath s.myRequest.filePath) = false ∧
        fileAt s1.fs (getFilleFullPath FileSyncingInfoPath s.myRequest.filePath) = false ∧
        fsLookup s1.fs (getFilleFullPath FileSavePath s.myRequest.filePath) =
          fsLookup s.fs (getFilleFullPath FileSavePath s.myRequest.filePath) ∧
        s1.doneMyRequests = s.doneMyRequests ++ [s.myRequest.filePath]) := by
  obtain ⟨req, hb⟩ := buildRequest_some s.myRequest tfi hpair
  have hd := doDownload_response L s r now tfi req ht hb
  constructor
  · intro hst hfail
    have h304 : ¬ r.StatusCode = 304 := by rw [hst]; decide
    rw [hd, if_neg h304, if_pos hst]
    unfold doDownload206
    cases hsfi : tfi.syncingFileInfo with
    | none => exact ⟨_, rfl, rfl, rfl⟩
    | some sfi =>
      cases hfsi : tfi.fileSyncingInfo with
      | none => exact ⟨_, rfl, rfl, rfl⟩
      | some fsi =>
        simp only
        cases hcr : perseContentRange r.ContentRange with
        | none => exact ⟨_, rfl, rfl, rfl⟩
        | some cr =>
          simp only
          by_cases hstart : cr.start ≠ sfi.size
          · rw [if_pos hstart]
            exact ⟨_, rfl, rfl, rfl⟩
          · rw [if_neg hstart]
            have hcl : strconv_Atoi r.ContentLength = none := by
              rcases hfail with h | h
              · rw [hcr] at h; simp at h
              · exact h
            rw [hcl]
            exact ⟨_, rfl, rfl, rfl⟩
  · intro hst hfail
    have h304 : ¬ r.StatusCode = 304 := by rcases hst with h | h <;> (rw [h]; decide)
    have h206 : ¬ r.StatusCode = 206 := by rcases hst with h | h <;> (rw [h]; decide)
    rw [hd, if_neg h304, if_neg h206, if_pos hst]
    have key : ∃ s1, doDownload200 L r now { s with dispatched := s.dispatched ++ [req] } =
        (s1, false) ∧ s1.fs = s.removeTempFiles.fs ∧
        s1.doneMyRequests = s.doneMyRequests ++ [s.myRequest.filePath] := by
      unfold doDownload200
      simp only
      cases hcl : strconv_Atoi r.ContentLength with
      | none => exact ⟨_, rfl, rfl, rfl⟩
      | some cl =>
        have hlm : L.timeParse r.LastModified = none := by
          rcases hfail with h | h
          · rw [hcl] at h; simp at h
          · exact h
        simp only [hlm]
        exact ⟨_, rfl, rfl, rfl⟩
    obtain ⟨s1, h1, h2, h3⟩ := key
    rw [h1]
    refine ⟨s1, rfl, h2, ?_, ?_, ?_, h3⟩
    · rw [h2]; exact removeTempFiles_staging s
    · rw [h2]; exact removeTempFiles_info s
    · rw [h2]; exact removeTempFiles_save s

theorem header_failure_effect_witness :
    garbledResponse.StatusCode = 200 ∧
    strconv_Atoi garbledResponse.ContentLength = none ∧
    ∃ s1, doDownload sampleLib (.response garbledResponse 100) resumeState =
        some (s1, false) ∧
      s1.fs = resumeState.removeTempFiles.fs ∧
      fileAt s1.fs (getFilleFullPath FileSyncingPath resumeState.myRequest.filePath) = false ∧
      fileAt s1.fs (getFilleFullPath FileSyncingInfoPath resumeState.myRequest.filePath) =
        false ∧
      fsLookup s1.fs (getFilleFullPath FileSavePath resumeState.myRequest.filePath) =
        fsLookup resumeState.fs (getFilleFullPath FileSavePath resumeState.myRequest.filePath) ∧
      s1.doneMyRequests = resumeState.doneMyRequests ++ [resumeState.myRequest.filePath] :=
  ⟨rfl, by decide,
   (header_failure_effect sampleLib resumeState garbledResponse 100
     ⟨none, some ⟨getFilleFullPath FileSyncingPath samplePath, 4, 5⟩, some ⟨10, 7⟩⟩
     rfl (by decide)).2 (Or.inl rfl) (Or.inl (by decide))⟩

/-! ### `strings.IndexByte` -/

theorem indexByte_cons (x : Char) (rest : List Char) (c : Char) :
    strings_IndexByte (x :: rest) c =
      if x = c then 0
      else if strings_IndexByte rest c < 0 then -1 else strings_IndexByte rest c + 1 := rfl

theorem indexByte_ge (s : List Char) (c : Char) : -1 ≤ strings_IndexByte s c := by
  induction s with
  | nil => simp [strings_IndexByte]
  | cons x rest ih =>
    simp only [strings_IndexByte]
    by_cases h1 : x = c
    · rw [if_pos h1]; omega
    · rw [if_neg h1]
      by_cases h2 : strings_IndexByte rest c < 0
      · rw [if_pos h2]
      · rw [if_neg h2]; omega

theorem indexByte_lt_length (s : List Char) (c : Char) (i : Nat)
    (h : strings_IndexByte s c = (i : Int)) : i < s.length := by
  induction s generalizing i with
  | nil => simp [strings_IndexByte] at h
  | cons x rest ih =>
    rw [indexByte_cons] at h
    simp only [List.length_cons]
    by_cases h1 : x = c
    · rw [if_pos h1] at h; omega
    · rw [if_neg h1] at h
      by_cases h2 : strings_IndexByte rest c < 0
      · rw [if_pos h2] at h; omega
      · rw [if_neg h2] at h
        have := ih (strings_IndexByte rest c).toNat (by omega)
        omega

theorem indexByte_append (xs ys : List Char) (c : Char) (h : c ∉ xs) :
    strings_IndexByte (xs ++ c :: ys) c = (xs.length : Int) := by
  induction xs with
  | nil => simp [strings_IndexByte]
  | cons x rest ih =>
    have hx : x ≠ c := fun e => h (e ▸ List.mem_cons_self _ _)
    have hr : c ∉ rest := fun e => h (List.mem_cons_of_mem _ e)
    have e := ih hr
    rw [List.cons_append, indexByte_cons, if_neg hx, e, if_neg (by omega)]
    simp

theorem indexByte_absent (s : List Char) (c : Char) (h : c ∉ s) :
    strings_IndexByte s c = -1 := by
  induction s with
  | nil => rfl
  | cons x rest ih =>
    have hx : x ≠ c := fun e => h (e ▸ List.mem_cons_self _ _)
    have hr : c ∉ rest := fun e => h (List.mem_cons_of_mem _ e)
    simp [strings_IndexByte, hx, ih hr]

/-! ### `removeFile` and directories -/

/-- For a request path with a directory level, `removeFile` removes the file
and then the first directory level of the path under the store root. -/
theorem removeFile_nested (root filePath : List Char) (fs : FS) (i : Nat)
    (h : strings_IndexByte (filePath.drop 1) '/' = (i : Int)) :
    removeFile filePath fs (root ++ filePath) =
      os_Remove (os_Remove fs (root ++ filePath)).1 (root ++ filePath.take (i + 1)) := by
  unfold removeFile
  simp only [h]
  rw [if_neg (by omega)]
  have e : ((↑(root ++ filePath).length : Int) - ↑filePath.length + (↑i + 1)).toNat =
      root.length + (i + 1) := by
    simp only [List.length_append, Nat.cast_add]
    omega
  rw [e, List.take_append]

theorem lastSlash_append_right (a b : List Char) (k : Nat) (h : lastSlash b = some k) :
    lastSlash (a ++ b) = some (a.length + k) := by
  induction a with
  | nil => simpa using h
  | cons c rest ih =>
    rw [List.cons_append]
    show (match lastSlash (rest ++ b) with
      | some i => some (i + 1)
      | none => if c = '/' then some 0 else none) = _
    rw [ih]
    simp only [List.length_cons, Option.some.injEq]
    omega

theorem os_Remove_dir (fs : FS) (d : List Char) (h : fsLookup fs d = some .dir) :
    (fsLookup (os_Remove fs d).1 d = none ↔ fsHasChild fs d = false) ∧
    ((os_Remove fs d).2 = none ↔ fsHasChild fs d = false) := by
  unfold os_Remove
  rw [h]
  simp only
  cases hc : fsHasChild fs d with
  | true => simp [h]
  | false => simp [fsLookup_erase_self]

/-- Claim C11, as stated, fails for a path with two directory levels: after
`removeFile` has removed `/a/b/c.bin`, the only file of its directory, the
immediate parent directory `/a/b` is empty and still there (the directory
`removeFile` tries to remove is `/a`), and an error is returned. -/
theorem removeFile_keeps_empty_parent :
    filepath_Dir (FileSyncingPath ++ deepPath) = FileSyncingPath ++ "/a/b".toList ∧
    fsLookup (removeFile deepPath deepFS (FileSyncingPath ++ deepPath)).1
      (FileSyncingPath ++ deepPath) = none ∧
    fsHasChild (removeFile deepPath deepFS (FileSyncingPath ++ deepPath)).1
      (FileSyncingPath ++ "/a/b".toList) = false ∧
    fsLookup (removeFile deepPath deepFS (FileSyncingPath ++ deepPath)).1
      (FileSyncingPath ++ "/a/b".toList) = some .dir ∧
    (removeFile deepPath deepFS (FileSyncingPath ++ deepPath)).2 = some .other := by
  decide

/-- Claim C11, amended. For every store root, request path and filesystem,
`removeFile` on the file of that path leaves no regular file there. For a
path without a directory level nothing else changes, and the value returned
is that of removing the file: a not-exist error, with the filesystem
untouched, when the file is already missing. For a path with a directory
level, besides the file only the first directory level of the path under the
root can change: when it is a directory, it is removed exactly when nothing is
left below it once the file is gone, and exactly then no error is returned;
when the path has just that one directory level, it is the file's immediate
parent directory. -/
theorem removeFile_purge (root filePath : List Char) (fs : FS) :
    fileAt (removeFile filePath fs (root ++ filePath)).1 (root ++ filePath) = false ∧
    (strings_IndexByte (filePath.drop 1) '/' < 0 →
      (∀ q, q ≠ root ++ filePath →
        fsLookup (removeFile filePath fs (root ++ filePath)).1 q = fsLookup fs q) ∧
      (fsLookup fs (root ++ filePath) = none →
        removeFile filePath fs (root ++ filePath) = (fs, some .notExist))) ∧
    (∀ i : Nat, strings_IndexByte (filePath.drop 1) '/' = (i : Int) →
      (∀ q, q ≠ root ++ filePath → q ≠ root ++ filePath.take (i + 1) →
        fsLookup (removeFile filePath fs (root ++ filePath)).1 q = fsLookup fs q) ∧
      (fsLookup fs (root ++ filePath.take (i + 1)) = some .dir →
        (fsLookup (removeFile filePath fs (root ++ filePath)).1
            (root ++ filePath.take (i + 1)) = none ↔
          fsHasChild (os_Remove fs (root ++ filePath)).1 (root ++ filePath.take (i + 1)) =
            false) ∧
        ((removeFile filePath fs (root ++ filePath)).2 = none ↔
          fsHasChild (os_Remove fs (root ++ filePath)).1 (root ++ filePath.take (i + 1)) =
            false)) ∧
      (lastSlash filePath = some (i + 1) →
        filepath_Dir (root ++ filePath) = root ++ filePath.take (i + 1))) := by
  refine ⟨removeFile_not_file _ _ _, ?_, ?_⟩
  · intro hflat
    have e : removeFile filePath fs (root ++ filePath) = os_Remove fs (root ++ filePath) := by
      unfold removeFile
      simp only [if_pos hflat]
    rw [e]
    refine ⟨fun q hq => os_Remove_ne fs _ q hq, ?_⟩
    intro hmiss
    unfold os_Remove
    rw [hmiss]
  · intro i hi
    have hlt := indexByte_lt_length _ _ i hi
    rw [List.length_drop] at hlt
    have hne : root ++ filePath.take (i + 1) ≠ root ++ filePath := by
      intro e
      have := congrArg List.length e
      simp only [List.length_append, List.length_take] at this
      omega
    rw [removeFile_nested root filePath fs i hi]
    refine ⟨?_, ?_, ?_⟩
    · intro q hq1 hq2
      rw [os_Remove_ne _ _ q hq2, os_Remove_ne _ _ q hq1]
    · intro hdir
      exact os_Remove_dir _ _ ((os_Remove_ne fs _ _ hne).trans hdir)
    · intro hlast
      unfold filepath_Dir
      rw [lastSlash_append_right root filePath (i + 1) hlast]
      cases hr : root.length + (i + 1) with
      | zero => omega
      | succ n => simp only; rw [← hr, List.take_append]

theorem removeFile_purge_witness :
    strings_IndexByte (nestedPath.drop 1) '/' = ((1 : Nat) : Int) ∧
    fsLookup nestedFS (FileSyncingPath ++ nestedPath.take (1 + 1)) = some .dir ∧
    lastSlash nestedPath = some (1 + 1) ∧
    fsHasChild (os_Remove nestedFS (FileSyncingPath ++ nestedPath)).1
      (FileSyncingPath ++ nestedPath.take (1 + 1)) = false ∧
    fsLookup (removeFile nestedPath nestedFS (FileSyncingPath ++ nestedPath)).1
      (FileSyncingPath ++ nestedPath.take (1 + 1)) = none ∧
    filepath_Dir (FileSyncingPath ++ nestedPath) = FileSyncingPath ++ nestedPath.take (1 + 1) :=
  ⟨by decide, by decide, by decide, by decide,
   ((((removeFile_purge FileSyncingPath nestedPath nestedFS).2.2 1 (by decide)).2.1
      (by decide)).1).mpr (by decide),
   ((removeFile_purge FileSyncingPath nestedPath nestedFS).2.2 1 (by decide)).2.2
     (by decide)⟩

/-! ### Fresh transfer -/

theorem mem_dirChain_ne (r1 r2 p q : List Char) (k : Nat) (hroot : lastSlash r1 = some k)
    (hk : 0 < k) (hlen : r1.length = r2.length)
    (hq : q ∈ dirChain (filepath_Dir (r1 ++ p))) : q ≠ r2 ++ p := by
  intro e
  have h1 := (prefix_of_mem_dirChain _ _ hq).length_le
  have h2 := (filepath_Dir_proper r1 p k hroot hk).2
  rw [e] at h1
  simp only [List.length_append] at h1 h2
  omega

theorem writeFileSyncingInfo_fileAt (L : Lib) (fs : FS) (full q : List Char)
    (info : FileSnycingInfo) (now : Int) (hq : q ≠ full) :
    fileAt (writeFileSyncingInfo L fs full info now).1 q = fileAt fs q := by
  have hf := makeSureParentFolderCreated_fileAt fs full q
  unfold writeFileSyncingInfo
  cases hm : makeSureParentFolderCreated fs full with
  | mk fs1 e =>
    rw [hm] at hf
    cases e with
    | some err => exact hf
    | none =>
      simp only
      rw [fileAt_congr (os_OpenWrite_ne _ _ _ _ _ _ hq)]
      exact hf

/-- Writing a body to a fresh or truncated file whose directory chain holds
no regular file. -/
theorem writeFileFromReader_truncate (fs : FS) (reader : List Nat) (root p : List Char)
    (now : Int) (k : Nat) (hroot : lastSlash root = some k) (hk : 0 < k)
    (hnotdir : fsLookup fs (root ++ p) ≠ some .dir)
    (hchain : ∀ q ∈ dirChain (filepath_Dir (root ++ p)), fileAt fs q = false) :
    (writeFileFromReader fs reader (root ++ p) false now).2.1 = reader.length ∧
    fsLookup (writeFileFromReader fs reader (root ++ p) false now).1 (root ++ p) =
      some (.file reader now) := by
  have hok := makeSureParentFolderCreated_ok fs (root ++ p) hchain
  have hself := makeSureParentFolderCreated_self fs root p k hroot hk
  unfold writeFileFromReader
  cases hm : makeSureParentFolderCreated fs (root ++ p) with
  | mk fs1 e =>
    rw [hm] at hok hself
    simp only at hok
    subst hok
    simp only
    cases hl : fsLookup fs (root ++ p) with
    | none =>
      rw [os_OpenWrite_absent fs1 (root ++ p) false reader now (hself.trans hl)]
      exact ⟨rfl, fsLookup_set_self _ _ _⟩
    | some n =>
      cases n with
      | dir => exact absurd hl hnotdir
      | file data t =>
        rw [os_OpenWrite_file fs1 (root ++ p) false reader data t now (hself.trans hl)]
        exact ⟨rfl, by simp [fsLookup_set_self]⟩

theorem removeTempFiles_staging_none (s : State)
    (h : fsLookup s.fs (getFilleFullPath FileSyncingPath s.myRequest.filePath) ≠ some .dir) :
    fsLookup s.removeTempFiles.fs (getFilleFullPath FileSyncingPath s.myRequest.filePath) =
      none := by
  unfold State.removeTempFiles
  simp only
  rw [removeFile_frame _ _ _ _ (sync_not_prefix_info _)]
  cases hl : fsLookup s.fs (getFilleFullPath FileSyncingPath s.myRequest.filePath) with
  | none =>
    rcases removeFile_cases s.myRequest.filePath s.fs
      (getFilleFullPath FileSyncingPath s.myRequest.filePath)
      (getFilleFullPath FileSyncingPath s.myRequest.filePath) with h1 | h1
    · rw [h1, hl]
    · exact h1
  | some n =>
    cases n with
    | dir => exact absurd hl h
    | file data t => exact removeFile_file _ _ _ data t hl

theorem removeTempFiles_fileAt_false (s : State) (q : List Char) (h : fileAt s.fs q = false) :
    fileAt s.removeTempFiles.fs q = false :=
  fileAt_false_of_cases (removeTempFiles_cases s q) h

/-- The filesystem right before the body copy of the 200/416 branch: the
temporary files removed and the new sidecar written. -/
theorem staged_fresh (L : Lib) (s : State) (info : FileSnycingInfo) (now : Int)
    (hstagingdir : fsLookup s.fs (getFilleFullPath FileSyncingPath s.myRequest.filePath) ≠
      some .dir)
    (hchainS : ∀ q ∈ dirChain (filepath_Dir (getFilleFullPath FileSyncingPath
      s.myRequest.filePath)), fileAt s.fs q = false)
    (hchainF : ∀ q ∈ dirChain (filepath_Dir (getFilleFullPath FileSavePath
      s.myRequest.filePath)), fileAt s.fs q = false) :
    fsLookup (writeFileSyncingInfo L s.removeTempFiles.fs
        (getFilleFullPath FileSyncingInfoPath s.myRequest.filePath) info now).1
      (getFilleFullPath FileSyncingPath s.myRequest.filePath) = none ∧
    fsLookup (writeFileSyncingInfo L s.removeTempFiles.fs
        (getFilleFullPath FileSyncingInfoPath s.myRequest.filePath) info now).1
      (getFilleFullPath FileSavePath s.myRequest.filePath) =
      fsLookup s.fs (getFilleFullPath FileSavePath s.myRequest.filePath) ∧
    (∀ q ∈ dirChain (filepath_Dir (getFilleFullPath FileSyncingPath s.myRequest.filePath)),
      fileAt (writeFileSyncingInfo L s.removeTempFiles.fs
        (getFilleFullPath FileSyncingInfoPath s.myRequest.filePath) info now).1 q = false) ∧
    (∀ q ∈ dirChain (filepath_Dir (getFilleFullPath FileSavePath s.myRequest.filePath)),
      fileAt (writeFileSyncingInfo L s.removeTempFiles.fs
        (getFilleFullPath FileSyncingInfoPath s.myRequest.filePath) info now).1 q = false) := by
  refine ⟨?_, ?_, ?_, ?_⟩
  · exact (writeFileSyncingInfo_frame L _ FileSyncingInfoPath s.myRequest.filePath _ info now 8
      lastSlash_info (by decide) (sync_not_prefix_info _)).trans
      (removeTempFiles_staging_none s hstagingdir)
  · exact (writeFileSyncingInfo_frame L _ FileSyncingInfoPath s.myRequest.filePath _ info now 8
      lastSlash_info (by decide) (save_not_prefix_info _)).trans (removeTempFiles_save s)
  · intro q hq
    have hne : q ≠ getFilleFullPath FileSyncingInfoPath s.myRequest.filePath :=
      mem_dirChain_ne FileSyncingPath FileSyncingInfoPath _ q 8 lastSlash_sync (by decide)
        (by decide) hq
    exact (writeFileSyncingInfo_fileAt L _ _ q info now hne).trans
      (removeTempFiles_fileAt_false s q (hchainS q hq))
  · intro q hq
    have hne : q ≠ getFilleFullPath FileSyncingInfoPath s.myRequest.filePath :=
      mem_dirChain_ne FileSavePath FileSyncingInfoPath _ q 8 lastSlash_save (by decide)
        (by decide) hq
    exact (writeFileSyncingInfo_fileAt L _ _ q info now hne).trans
      (removeTempFiles_fileAt_false s q (hchainF q hq))

/-- Claim C12 (fresh transfer commit). Let the request hold a resolved state
with staging and sidecar records nil together, whatever files the path has.
For a 200 or 416 response whose `Content-Length` is the number of body bytes
and whose `Last-Modified` parses to `M`: if the directories of the staging and
final paths can be made (no regular file sits on their directory chains) and
neither the staging path nor the final path is a directory, `doDownload`
returns false (no retry) after one report, the final file holds exactly the
body with modify time `M`, and neither the staging file nor the sidecar file
exists. -/
theorem fresh_commits (L : Lib) (s : State) (r : Response) (now : Int)
    (tfi : TargetFileInfo) (M : Int)
    (ht : s.myRequest.targetFileInfo = some tfi)
    (hpair : tfi.syncingFileInfo = none ↔ tfi.fileSyncingInfo = none)
    (hst : r.StatusCode = 200 ∨ r.StatusCode = 416)
    (hcl : strconv_Atoi r.ContentLength = some (r.Body.length : Int))
    (hlm : L.timeParse r.LastModified = some M)
    (hstagingdir : fsLookup s.fs (getFilleFullPath FileSyncingPath s.myRequest.filePath) ≠
      some .dir)
    (hchainS : ∀ q ∈ dirChain (filepath_Dir (getFilleFullPath FileSyncingPath
      s.myRequest.filePath)), fileAt s.fs q = false)
    (hchainF : ∀ q ∈ dirChain (filepath_Dir (getFilleFullPath FileSavePath
      s.myRequest.filePath)), fileAt s.fs q = false)
    (hnotdir : fsLookup s.fs (getFilleFullPath FileSavePath s.myRequest.filePath) ≠
      some .dir) :
    ∃ s1, doDownload L (.response r now) s = some (s1, false) ∧
      fsLookup s1.fs (getFilleFullPath FileSavePath s.myRequest.filePath) =
        some (.file r.Body M) ∧
      fsLookup s1.fs (getFilleFullPath FileSyncingPath s.myRequest.filePath) = none ∧
      fileAt s1.fs (getFilleFullPath FileSyncingInfoPath s.myRequest.filePath) = false ∧
      s1.doneMyRequests = s.doneMyRequests ++ [s.myRequest.filePath] := by
  obtain ⟨req, hb⟩ := buildRequest_some s.myRequest tfi hpair
  have h304 : ¬ r.StatusCode = 304 := by rcases hst with h | h <;> (rw [h]; decide)
  have h206 : ¬ r.StatusCode = 206 := by rcases hst with h | h <;> (rw [h]; decide)
  rw [doDownload_response L s r now tfi req ht hb, if_neg h304, if_neg h206, if_pos hst]
  obtain ⟨p1, p2, p3, p4⟩ := staged_fresh L s ⟨(r.Body.length : Int), M⟩ now hstagingdir
    hchainS hchainF
  generalize hfs2 : (writeFileSyncingInfo L s.removeTempFiles.fs
    (getFilleFullPath FileSyncingInfoPath s.myRequest.filePath)
    ⟨(r.Body.length : Int), M⟩ now).1 = fs2 at p1 p2 p3 p4
  have hw : (writeFileFromReader fs2 r.Body
        (getFilleFullPath FileSyncingPath s.myRequest.filePath) false now).2.1 =
        (r.Body.length : Int) ∧
      fsLookup (writeFileFromReader fs2 r.Body
        (getFilleFullPath FileSyncingPath s.myRequest.filePath) false now).1
        (getFilleFullPath FileSyncingPath s.myRequest.filePath) =
        some (.file r.Body now) :=
    writeFileFromReader_truncate fs2 r.Body FileSyncingPath s.myRequest.filePath now 8
      lastSlash_sync (by decide) (by rw [show fsLookup fs2 (FileSyncingPath ++
        s.myRequest.filePath) = none from p1]; simp) p3
  obtain ⟨w1, w2⟩ := hw
  have w3 : fsLookup (writeFileFromReader fs2 r.Body
        (getFilleFullPath FileSyncingPath s.myRequest.filePath) false now).1
        (getFilleFullPath FileSavePath s.myRequest.filePath) =
        fsLookup fs2 (getFilleFullPath FileSavePath s.myRequest.filePath) :=
    writeFileFromReader_frame fs2 r.Body FileSyncingPath s.myRequest.filePath
      (getFilleFullPath FileSavePath s.myRequest.filePath) false now 8 lastSlash_sync
      (by decide) (save_not_prefix_sync _)
  have w4 : ∀ q ∈ dirChain (filepath_Dir (getFilleFullPath FileSavePath
      s.myRequest.filePath)),
      fileAt (writeFileFromReader fs2 r.Body
        (getFilleFullPath FileSyncingPath s.myRequest.filePath) false now).1 q = false := by
    intro q hq
    rw [writeFileFromReader_fileAt _ _ _ _ _ _ (mem_dirChain_save_ne_sync _ q hq)]
    exact p4 q hq
  have hdd : doDownload200 L r now { s with dispatched := s.dispatched ++ [req] } =
      ((({ s with
          dispatched := s.dispatched ++ [req]
          myRequest := { s.myRequest with fileSize := r.Body.length, downloaded := 0 }
          fs := (writeFileFromReader fs2 r.Body
            (getFilleFullPath FileSyncingPath s.myRequest.filePath) false now).1 } :
        State).addDownloaded r.Body.length).ok true M, false) := by
    simp only [doDownload200, hcl, hlm]
    have e : ({ s with dispatched := s.dispatched ++ [req] } : State).removeTempFiles.fs =
        s.removeTempFiles.fs := rfl
    have e2 : ({ s with dispatched := s.dispatched ++ [req] } :
        State).removeTempFiles.myRequest = s.myRequest := rfl
    simp only [e, e2, hfs2, w1, lt_irrefl, if_false, if_true]
    rfl
  rw [hdd]
  refine ⟨_, rfl, ?_⟩
  obtain ⟨c1, c2, c3⟩ := ok_commit
    (({ s with
        dispatched := s.dispatched ++ [req]
        myRequest := { s.myRequest with fileSize := r.Body.length, downloaded := 0 }
        fs := (writeFileFromReader fs2 r.Body
          (getFilleFullPath FileSyncingPath s.myRequest.filePath) false now).1 } :
      State).addDownloaded r.Body.length)
    r.Body now M w2 w4 (fun h => hnotdir ((w3.trans p2).symm.trans h))
  exact ⟨c1, c2, c3, rfl⟩

set_option maxRecDepth 100000 in
theorem fresh_commits_witness :
    strconv_Atoi fullResponse.ContentLength = some (fullResponse.Body.length : Int) ∧
    sampleLib.timeParse fullResponse.LastModified = some 77 ∧
    ∃ s1, doDownload sampleLib (.response fullResponse 100) freshState = some (s1, false) ∧
      fsLookup s1.fs (getFilleFullPath FileSavePath freshState.myRequest.filePath) =
        some (.file fullResponse.Body 77) ∧
      fsLookup s1.fs (getFilleFullPath FileSyncingPath freshState.myRequest.filePath) = none ∧
      fileAt s1.fs (getFilleFullPath FileSyncingInfoPath freshState.myRequest.filePath) =
        false ∧
      s1.doneMyRequests = freshState.doneMyRequests ++ [freshState.myRequest.filePath] :=
  ⟨by decide, by decide,
   fresh_commits sampleLib freshState fullResponse 100 ⟨none, none, none⟩ 77 rfl (by decide)
     (Or.inl rfl) (by decide) (by decide) (by decide) (by decide) (by decide) (by decide)⟩

/-- Claim C14 (not-modified). Let the request hold a resolved state with
staging and sidecar records nil together. For every 304 response
`doDownload` returns false (no retry) after one report; its only effect on the
filesystem is that of `removeTempFiles` (nothing is moved): the final path is
as it was, in content and modify time, and no staging file and no sidecar
file is left; `newDownloaded` is unchanged. -/
theorem not_modified_effect (L : Lib) (s : State) (r : Response) (now : Int)
    (tfi : TargetFileInfo) (ht : s.myRequest.targetFileInfo = some tfi)
    (hpair : tfi.syncingFileInfo = none ↔ tfi.fileSyncingInfo = none)
    (hst : r.StatusCode = 304) :
    ∃ s1, doDownload L (.response r now) s = some (s1, false) ∧
      s1.fs = s.removeTempFiles.fs ∧
      fsLookup s1.fs (getFilleFullPath FileSavePath s.myRequest.filePath) =
        fsLookup s.fs (getFilleFullPath FileSavePath s.myRequest.filePath) ∧
      fileAt s1.fs (getFilleFullPath FileSyncingPath s.myRequest.filePath) = false ∧
      fileAt s1.fs (getFilleFullPath FileSyncingInfoPath s.myRequest.filePath) = false ∧
      s1.myRequest.newDownloaded = s.myRequest.newDownloaded ∧
      s1.doneMyRequests = s.doneMyRequests ++ [s.myRequest.filePath] := by
  obtain ⟨req, hb⟩ := buildRequest_some s.myRequest tfi hpair
  rw [doDownload_response L s r now tfi req ht hb, if_pos hst]
  have e : ((({ s with dispatched := s.dispatched ++ [req] } : State).removeTempFiles).ok
      false 0).fs = s.removeTempFiles.fs := rfl
  refine ⟨_, rfl, e, ?_, ?_, ?_, rfl, rfl⟩
  · rw [e]; exact removeTempFiles_save s
  · rw [e]; exact removeTempFiles_staging s
  · rw [e]; exact removeTempFiles_info s

theorem not_modified_effect_witness :
    notModifiedResponse.StatusCode = 304 ∧
    ∃ s1, doDownload sampleLib (.response notModifiedResponse 100) syncedState =
        some (s1, false) ∧
      s1.fs = syncedState.removeTempFiles.fs ∧
      fsLookup s1.fs (getFilleFullPath FileSavePath syncedState.myRequest.filePath) =
        fsLookup syncedState.fs (getFilleFullPath FileSavePath syncedState.myRequest.filePath) ∧
      fileAt s1.fs (getFilleFullPath FileSyncingPath syncedState.myRequest.filePath) = false ∧
      fileAt s1.fs (getFilleFullPath FileSyncingInfoPath syncedState.myRequest.filePath) =
        false ∧
      s1.myRequest.newDownloaded = syncedState.myRequest.newDownloaded ∧
      s1.doneMyRequests = syncedState.doneMyRequests ++ [syncedState.myRequest.filePath] :=
  ⟨rfl, not_modified_effect sampleLib syncedState notModifiedResponse 100
    ⟨some ⟨getFilleFullPath FileSavePath samplePath, 2, 9⟩, none, none⟩ rfl (by decide) rfl⟩

/-! ### Outbound request -/

@[simp] theorem close_dispatched (s : State) : s.close.dispatched = s.dispatched := rfl

@[simp] theorem removeTempFiles_dispatched (s : State) :
    s.removeTempFiles.dispatched = s.dispatched := rfl

@[simp] theorem error_dispatched (s : State) (fatal : Bool) :
    (s.error fatal).dispatched = s.dispatched := by
  cases fatal <;> rfl

@[simp] theorem ok_dispatched (s : State) (justFinished : Bool) (utcTime : Int) :
    (s.ok justFinished utcTime).dispatched = s.dispatched := by
  cases justFinished <;> rfl

@[simp] theorem addDownloaded_dispatched (s : State) (n : Int) :
    (s.addDownloaded n).dispatched = s.dispatched := rfl

theorem doDownload206_dispatched (t : TargetFileInfo) (r : Response) (now : Int) (s : State) :
    (doDownload206 t r now s).1.dispatched = s.dispatched := by
  unfold doDownload206
  repeat' split
  all_goals simp only []
  all_goals repeat' split
  all_goals simp

theorem doDownload200_dispatched (L : Lib) (r : Response) (now : Int) (s : State) :
    (doDownload200 L r now s).1.dispatched = s.dispatched := by
  unfold doDownload200
  simp only []
  repeat' split
  all_goals simp

/-- Claim C15 (outbound request headers). For every `TargetFileInfo` whose
staging and sidecar records are nil together, `doDownload` builds a request
and, unless `http.NewRequest` fails, dispatches exactly that request. It
carries `Range: bytes=<staging size>-` and `If-Range` = the sidecar's
`LastModified` exactly when a staging record is present; it carries
`If-Modified-Since` = the final file's `modifyTime` exactly when no staging
record is present and a final record is; otherwise it carries none of the
three. `Range` or `If-Range` is never sent together with
`If-Modified-Since`. -/
theorem request_headers (L : Lib) (s : State) (t : TargetFileInfo)
    (ht : s.myRequest.targetFileInfo = some t)
    (hpair : t.syncingFileInfo = none ↔ t.fileSyncingInfo = none) :
    ∃ req, buildRequest s.myRequest t = some req ∧
      (∀ r now, ∃ s1 retry, doDownload L (.response r now) s = some (s1, retry) ∧
        s1.dispatched = s.dispatched ++ [req]) ∧
      (∃ s1, doDownload L .doError s = some (s1, false) ∧
        s1.dispatched = s.dispatched ++ [req]) ∧
      (∀ sfi fsi, t.syncingFileInfo = some sfi → t.fileSyncingInfo = some fsi →
        req.Range = some sfi.size ∧ req.IfRange = some fsi.LastModified ∧
        req.IfModifiedSince = none) ∧
      (∀ sv, t.syncingFileInfo = none → t.saveFileInfo = some sv →
        req.Range = none ∧ req.IfRange = none ∧ req.IfModifiedSince = some sv.modifyTime) ∧
      (t.syncingFileInfo = none → t.saveFileInfo = none →
        req.Range = none ∧ req.IfRange = none ∧ req.IfModifiedSince = none) ∧
      (req.Range.isSome = t.syncingFileInfo.isSome) ∧
      (req.IfRange.isSome = t.syncingFileInfo.isSome) ∧
      (req.IfModifiedSince.isSome = (t.syncingFileInfo.isNone && t.saveFileInfo.isSome)) ∧
      ¬ (req.Range.isSome = true ∧ req.IfModifiedSince.isSome = true) ∧
      ¬ (req.IfRange.isSome = true ∧ req.IfModifiedSince.isSome = true) := by
  obtain ⟨req, hb⟩ := buildRequest_some s.myRequest t hpair
  refine ⟨req, hb, ?_, ?_, ?_⟩
  · intro r now
    have hd := doDownload_response L s r now t req ht hb
    refine ⟨_, _, by rw [hd], ?_⟩
    split_ifs
    · simp
    · simp [doDownload206_dispatched]
    · simp [doDownload200_dispatched]
    · simp
  · refine ⟨({ s with dispatched := s.dispatched ++ [req] } : State).error false, ?_, rfl⟩
    simp only [doDownload, ht, hb]
  · unfold buildRequest at hb
    cases h1 : t.syncingFileInfo with
    | none =>
      cases h2 : t.saveFileInfo with
      | none =>
        simp only [h1, h2, Option.some.injEq] at hb
        subst hb
        simp
      | some sv =>
        simp only [h1, h2, Option.some.injEq] at hb
        subst hb
        simp
    | some sfi =>
      cases h2 : t.fileSyncingInfo with
      | none => rw [h1, h2] at hpair; simp at hpair
      | some fsi =>
        simp only [h1, h2, Option.some.injEq] at hb
        subst hb
        simp

theorem request_headers_witness :
    resumeState.myRequest.targetFileInfo =
      some ⟨none, some ⟨getFilleFullPath FileSyncingPath samplePath, 4, 5⟩, some ⟨10, 7⟩⟩ ∧
    ∃ req, buildRequest resumeState.myRequest
        ⟨none, some ⟨getFilleFullPath FileSyncingPath samplePath, 4, 5⟩, some ⟨10, 7⟩⟩ =
        some req ∧
      req.Range = some 4 ∧ req.IfRange = some 7 ∧ req.IfModifiedSince = none :=
  ⟨rfl, by
    obtain ⟨req, hb, _, _, h, _⟩ := request_headers sampleLib resumeState
      ⟨none, some ⟨getFilleFullPath FileSyncingPath samplePath, 4, 5⟩, some ⟨10, 7⟩⟩ rfl
      (by decide)
    exact ⟨req, hb, h _ _ rfl rfl⟩⟩

/-- Claim C16 (Done in `Server.run`). For every registry and request,
processing a Done message sends no reply and leaves the registry with no
entry for the request's path and with every other path as before; when the
path has no entry the registry is unchanged; and processing Done a second
time, for any request of the same path, changes nothing more. -/
theorem done_removes_entry (server : Server) (r : MyRequestToRemote) :
    (server.runCase (.doneMyRequest r)).2 = none ∧
    (server.runCase (.doneMyRequest r)).1.activeMyRequests r.filePath = none ∧
    (∀ k, k ≠ r.filePath →
      (server.runCase (.doneMyRequest r)).1.activeMyRequests k = server.activeMyRequests k) ∧
    (server.activeMyRequests r.filePath = none →
      (server.runCase (.doneMyRequest r)).1.activeMyRequests = server.activeMyRequests) ∧
    (∀ r2 : MyRequestToRemote, r2.filePath = r.filePath →
      ((server.runCase (.doneMyRequest r)).1.runCase (.doneMyRequest r2)).1.activeMyRequests =
        (server.runCase (.doneMyRequest r)).1.activeMyRequests) := by
  refine ⟨rfl, ?_, ?_, ?_, ?_⟩
  · simp [Server.runCase, mapDelete]
  · intro k hk
    simp [Server.runCase, mapDelete, hk]
  · intro h
    funext k
    simp only [Server.runCase, mapDelete]
    by_cases hk : k = r.filePath
    · rw [if_pos hk, hk, h]
    · rw [if_neg hk]
  · intro r2 h2
    funext k
    simp only [Server.runCase, mapDelete, h2]
    by_cases hk : k = r.filePath
    · simp [hk]
    · simp [hk]

theorem done_removes_entry_witness :
    busyServer.activeMyRequests samplePath ≠ none ∧
    (busyServer.runCase (.doneMyRequest (newRequest "g:80".toList samplePath
      ⟨none, none, none⟩))).1.activeMyRequests samplePath = none ∧
    (emptyServer.activeMyRequests samplePath = none →
      (emptyServer.runCase (.doneMyRequest (newRequest "g:80".toList samplePath
        ⟨none, none, none⟩))).1.activeMyRequests = emptyServer.activeMyRequests) :=
  ⟨by decide,
   (done_removes_entry busyServer (newRequest "g:80".toList samplePath
     ⟨none, none, none⟩)).2.1,
   (done_removes_entry emptyServer (newRequest "g:80".toList samplePath
     ⟨none, none, none⟩)).2.2.2.1⟩

theorem getDownloadProgressString_ne_nil (r : MyRequestToRemote) :
    r.getDownloadProgressString ≠ [] := by
  unfold MyRequestToRemote.getDownloadProgressString
  split_ifs <;> decide

/-- Claim C17 (progress query in `Server.run`). For every registry and path,
a progress query leaves the registry unchanged; its reply is the empty string
if and only if the path has no entry; for an active path the reply is the
progress string of the registered request, which is `0% downloaded` when
`fileSize <= 0` and `downloading` otherwise, so never empty. -/
theorem progress_query (server : Server) (filePath : List Char) :
    (server.runCase (.downloadPercentageQuery filePath)).1 = server ∧
    ((server.runCase (.downloadPercentageQuery filePath)).2 = some (.result []) ↔
      server.activeMyRequests filePath = none) ∧
    (∀ r, server.activeMyRequests filePath = some r →
      (server.runCase (.downloadPercentageQuery filePath)).2 =
        some (.result r.getDownloadProgressString)) ∧
    (∀ r : MyRequestToRemote,
      r.getDownloadProgressString =
        (if r.fileSize ≤ 0 then "0% downloaded".toList else "downloading".toList) ∧
      r.getDownloadProgressString ≠ []) := by
  refine ⟨?_, ?_, ?_, fun r => ⟨rfl, getDownloadProgressString_ne_nil r⟩⟩
  · simp only [Server.runCase]
    cases server.activeMyRequests filePath <;> rfl
  · simp only [Server.runCase]
    cases h : server.activeMyRequests filePath with
    | none => simp
    | some r =>
      simp only [Option.some.injEq, Reply.result.injEq, reduceCtorEq, iff_false]
      exact getDownloadProgressString_ne_nil r
  · intro r h
    simp only [Server.runCase, h]

theorem progress_query_witness :
    busyServer.activeMyRequests samplePath =
      some (newRequest "h:80".toList samplePath ⟨none, none, none⟩) ∧
    (busyServer.runCase (.downloadPercentageQuery samplePath)).2 =
      some (.result (newRequest "h:80".toList samplePath
        ⟨none, none, none⟩).getDownloadProgressString) ∧
    (newRequest "h:80".toList samplePath ⟨none, none, none⟩).getDownloadProgressString =
      "0% downloaded".toList :=
  ⟨by decide,
   (progress_query busyServer samplePath).2.2.1 _ (by decide), by decide⟩

/-! ### Nil pointers -/

theorem getTargetFileInfo_no_panic (L : Lib) (rp : List Char) (fs : FS) (p : List Char) :
    (getTargetFileInfo L rp fs p).2 ≠ .nilDereference := by
  by_cases h1 : hardError (getFileInfo fs (getFilleFullPath FileSavePath p)) = none
  swap
  · rw [getTargetFileInfo_error L rp fs p (Or.inl h1)]; simp
  by_cases h2 : hardError (getFileInfo fs (getFilleFullPath FileSyncingPath p)) = none
  swap
  · rw [getTargetFileInfo_error L rp fs p (Or.inr h2)]; simp
  rw [getTargetFileInfo_eq L rp fs p h1 h2]
  repeat' split
  all_goals simp

theorem doDownload_no_panic (L : Lib) (net : NetOutcome) (s : State) (t : TargetFileInfo)
    (ht : s.myRequest.targetFileInfo = some t)
    (hpair : t.syncingFileInfo = none ↔ t.fileSyncingInfo = none) :
    doDownload L net s ≠ none := by
  obtain ⟨req, hb⟩ := buildRequest_some s.myRequest t hpair
  cases net with
  | newRequestError => simp [doDownload]
  | doError => simp [doDownload, ht, hb]
  | response r now => rw [doDownload_response L s r now t req ht hb]; simp

theorem runLoop_no_panic (L : Lib) (world : Nat → NetOutcome) :
    ∀ (fuel k : Nat) (s : State) (t : TargetFileInfo),
      s.myRequest.targetFileInfo = some t →
      (t.syncingFileInfo = none ↔ t.fileSyncingInfo = none) →
      ∀ n, runLoop L world fuel k s ≠ .nilDereference n := by
  intro fuel
  induction fuel with
  | zero => intro k s t _ _ n; simp [runLoop]
  | succ fuel ih =>
    intro k s t ht hpair n
    simp only [runLoop]
    cases hd : doDownload L (world k) s with
    | none => exact absurd hd (doDownload_no_panic L (world k) s t ht hpair)
    | some res =>
      obtain ⟨s1, retry⟩ := res
      simp only
      split_ifs with hr
      · cases hres : getTargetFileInfo L s1.myRequest.filePath s1.fs s1.myRequest.filePath with
        | mk fs1 res =>
          cases res with
          | nilDereference =>
            have := getTargetFileInfo_no_panic L s1.myRequest.filePath s1.fs
              s1.myRequest.filePath
            rw [hres] at this
            exact absurd rfl this
          | error e => simp
          | ok info =>
            simp only
            exact ih (k + 1) _ info rfl
              (getTargetFileInfo_post L _ _ _ _ info hres).2.2.2.1 n
      · simp

/-- Claim C19 (no nil dereference on the resolved state). `getTargetFileInfo`
never ends in a nil-pointer dereference: whenever its stale-purge branch is
taken the staging record is non-nil. For every `TargetFileInfo` it returns,
the header block of `doDownload` finds the sidecar record non-nil whenever
the staging record is, so an attempt on that state does not dereference nil,
and neither does a whole `run`, whose later attempts work on re-resolved
states. -/
theorem no_nil_dereference (L : Lib) (requestPath : List Char) (fs : FS)
    (filePath : List Char) :
    (getTargetFileInfo L requestPath fs filePath).2 ≠ .nilDereference ∧
    (∀ fs1 info, getTargetFileInfo L requestPath fs filePath = (fs1, .ok info) →
      (∀ sfi, info.syncingFileInfo = some sfi → info.fileSyncingInfo ≠ none) ∧
      (∀ m : MyRequestToRemote, buildRequest m info ≠ none) ∧
      (∀ (net : NetOutcome) (s : State), s.myRequest.targetFileInfo = some info →
        doDownload L net s ≠ none) ∧
      (∀ (world : Nat → NetOutcome) (s : State) (n : Nat),
        s.myRequest.targetFileInfo = some info → run L world s ≠ .nilDereference n)) := by
  refine ⟨getTargetFileInfo_no_panic L requestPath fs filePath, ?_⟩
  intro fs1 info h
  have hpair := (getTargetFileInfo_post L _ _ _ _ info h).2.2.2.1
  refine ⟨?_, ?_, ?_, ?_⟩
  · intro sfi hs hn
    rw [hpair.mpr hn] at hs
    simp at hs
  · intro m hn
    obtain ⟨req, hb⟩ := buildRequest_some m info hpair
    rw [hb] at hn
    simp at hn
  · intro net s ht
    exact doDownload_no_panic L net s info ht hpair
  · intro world s n ht
    exact runLoop_no_panic L world _ 0 s info ht hpair n

theorem no_nil_dereference_witness :
    getTargetFileInfo sampleLib samplePath resumeFS samplePath =
      (resumeFS, .ok ⟨none, some ⟨getFilleFullPath FileSyncingPath samplePath, 4, 5⟩,
        some ⟨10, 7⟩⟩) ∧
    resumeState.myRequest.targetFileInfo =
      some ⟨none, some ⟨getFilleFullPath FileSyncingPath samplePath, 4, 5⟩, some ⟨10, 7⟩⟩ ∧
    doDownload sampleLib (.response resumeResponse 100) resumeState ≠ none :=
  ⟨by decide, rfl,
   ((no_nil_dereference sampleLib samplePath resumeFS samplePath).2 resumeFS
     ⟨none, some ⟨getFilleFullPath FileSyncingPath samplePath, 4, 5⟩, some ⟨10, 7⟩⟩
     (by decide)).2.2.1 (.response resumeResponse 100) resumeState rfl⟩

/-! ### Decimal numerals -/

theorem digitVal_digitChar (d : Nat) (h : d < 10) : digitVal (digitChar d) = some d := by
  interval_cases d <;> decide

theorem digitChar_ne (d : Nat) (h : d < 10) (c : Char) (hc : digitVal c = none) :
    digitChar d ≠ c := by
  intro e
  rw [← e, digitVal_digitChar d h] at hc
  simp at hc

theorem parseDigits_cons (c : Char) (rest : List Char) (acc : Nat) :
    parseDigits (c :: rest) acc =
      match digitVal c with
      | none => none
      | some d => parseDigits rest (acc * 10 + d) := rfl

/-- With fuel above `n`, `decimalAux` puts a non-empty run in front of the
accumulator that `parseDigits` reads back as `n`, made of digit characters. -/
theorem decimalAux_spec : ∀ (fuel n : Nat) (acc : List Char), n < fuel →
    ∃ front : List Char, front ≠ [] ∧ decimalAux fuel n acc = front ++ acc ∧
      (∀ (a : Nat) (tl : List Char),
        parseDigits (front ++ tl) a = parseDigits tl (a * 10 ^ front.length + n)) ∧
      ∀ c ∈ front, ∃ d, c = digitChar d ∧ d < 10 := by
  intro fuel
  induction fuel with
  | zero => intro n acc h; omega
  | succ fuel ih =>
    intro n acc h
    by_cases h10 : n < 10
    · refine ⟨[digitChar n], by simp, ?_, ?_, ?_⟩
      · simp [decimalAux, h10]
      · intro a tl
        simp [parseDigits_cons, digitVal_digitChar n h10]
      · intro c hc
        simp only [List.mem_singleton] at hc
        exact ⟨n, hc, h10⟩
    · have hlt : n / 10 < fuel := by omega
      obtain ⟨front, hne, hfront, hparse, hdig⟩ :=
        ih (n / 10) (digitChar (n % 10) :: acc) hlt
      refine ⟨front ++ [digitChar (n % 10)], by simp, ?_, ?_, ?_⟩
      · simp [decimalAux, h10, hfront]
      · intro a tl
        rw [List.append_assoc, hparse, List.singleton_append, parseDigits_cons,
          digitVal_digitChar _ (Nat.mod_lt _ (by decide))]
        simp only [List.length_append, List.length_singleton]
        congr 1
        rw [pow_succ]
        have := Nat.div_add_mod n 10
        nlinarith [this]
      · intro c hc
        rw [List.mem_append, List.mem_singleton] at hc
        rcases hc with hc | hc
        · exact hdig c hc
        · exact ⟨n % 10, hc, Nat.mod_lt _ (by decide)⟩

theorem decimal_spec (n : Nat) :
    decimal n ≠ [] ∧ (∀ c ∈ decimal n, ∃ d, c = digitChar d ∧ d < 10) ∧
      parseDigits (decimal n) 0 = some n := by
  obtain ⟨front, hne, hfront, hparse, hdig⟩ :=
    decimalAux_spec (n + 1) n [] (Nat.lt_succ_self n)
  have e : decimal n = front := by
    unfold decimal
    rw [hfront, List.append_nil]
  rw [e]
  refine ⟨hne, hdig, ?_⟩
  have := hparse 0 []
  simpa [parseDigits] using this

theorem not_mem_decimal (n : Nat) (c : Char) (hc : digitVal c = none) : c ∉ decimal n := by
  intro hmem
  obtain ⟨d, e, hd⟩ := (decimal_spec n).2.1 c hmem
  exact digitChar_ne d hd c hc e.symm

theorem strconv_Atoi_decimal (n : Nat) (h : n < 2 ^ 63) :
    strconv_Atoi (decimal n) = some (n : Int) := by
  obtain ⟨hne, hdig, hparse⟩ := decimal_spec n
  cases hd : decimal n with
  | nil => exact absurd hd hne
  | cons c rest =>
    have hc : c ∈ decimal n := by rw [hd]; exact List.mem_cons_self _ _
    have hminus : c ≠ '-' := fun e => not_mem_decimal n '-' (by decide) (e ▸ hc)
    have hplus : c ≠ '+' := fun e => not_mem_decimal n '+' (by decide) (e ▸ hc)
    rw [hd] at hparse
    unfold strconv_Atoi
    split
    · rename_i heq; simp at heq
    · rename_i heq
      simp only [List.cons.injEq] at heq
      exact absurd heq.1 hminus
    · rename_i heq
      simp only [List.cons.injEq] at heq
      exact absurd heq.1 hplus
    · simp only [hparse, if_pos h]

theorem strings_TrimPrefix_append (pre x : List Char) :
    strings_TrimPrefix (pre ++ x) pre = x := by
  unfold strings_TrimPrefix
  have h : pre.isPrefixOf (pre ++ x) = true := by
    rw [List.isPrefixOf_iff_prefix]
    exact List.prefix_append _ _
  rw [if_pos h, List.drop_left]

theorem strings_TrimPrefix_absent (pre s : List Char) (h : ¬ pre <+: s) :
    strings_TrimPrefix s pre = s := by
  unfold strings_TrimPrefix
  have h1 : ¬ pre.isPrefixOf s = true := by
    rw [List.isPrefixOf_iff_prefix]
    exact h
  rw [if_neg h1]

theorem perseContentRange_absent (s : List Char) (h : ¬ "bytes ".toList <+: s) :
    perseContentRange s = none := by
  unfold perseContentRange
  simp only [strings_TrimPrefix_absent _ s h, ne_eq, not_true_eq_false, if_false]

/-- The parse of `bytes <digits>-<digits>/<tail>`. -/
theorem perseContentRange_shape (ds de tail : List Char) (s e : Int)
    (hs : strconv_Atoi ds = some s) (he : strconv_Atoi de = some e)
    (hds : ds ≠ []) (hs1 : '-' ∉ ds) (he1 : '/' ∉ de) :
    perseContentRange ("bytes ".toList ++ (ds ++ '-' :: (de ++ '/' :: tail))) =
      some ⟨s, e, (strconv_Atoi tail).getD 0⟩ := by
  have hne : ds ++ '-' :: (de ++ '/' :: tail) ≠
      "bytes ".toList ++ (ds ++ '-' :: (de ++ '/' :: tail)) := by
    intro e1
    have := congrArg List.length e1
    simp at this
    omega
  have hp1 : strings_IndexByte (ds ++ '-' :: (de ++ '/' :: tail)) '-' = (ds.length : Int) :=
    indexByte_append ds _ '-' hs1
  have hpos : (0 : Int) < ds.length := by
    have := List.length_pos.mpr hds
    omega
  have hdrop : (ds ++ '-' :: (de ++ '/' :: tail)).drop ds.length = '-' :: (de ++ '/' :: tail) :=
    List.drop_left _ _
  have hp2 : strings_IndexByte ('-' :: (de ++ '/' :: tail)) '/' = ((de.length + 1 : Nat) : Int) := by
    have h := indexByte_append ('-' :: de) tail '/' (by
      intro hm
      rcases List.mem_cons.mp hm with h | h
      · exact absurd h (by decide)
      · exact he1 h)
    simpa using h
  have t1 : (ds ++ '-' :: (de ++ '/' :: tail)).take ds.length = ds := List.take_left _ _
  have t2 : ((ds ++ '-' :: (de ++ '/' :: tail)).take (de.length + 1 + ds.length)).drop
      (ds.length + 1) = de := by
    have e1 : ds ++ '-' :: (de ++ '/' :: tail) = (ds ++ '-' :: de) ++ '/' :: tail := by simp
    have e2 : de.length + 1 + ds.length = (ds ++ '-' :: de).length := by simp; omega
    rw [e1, e2, List.take_left]
    have e3 : ds ++ '-' :: de = (ds ++ ['-']) ++ de := by simp
    have e4 : ds.length + 1 = (ds ++ ['-']).length := by simp
    rw [e3, e4, List.drop_left]
  have t3 : (ds ++ '-' :: (de ++ '/' :: tail)).drop (de.length + 1 + ds.length + 1) = tail := by
    have e1 : ds ++ '-' :: (de ++ '/' :: tail) = (ds ++ '-' :: de ++ ['/']) ++ tail := by simp
    have e2 : de.length + 1 + ds.length + 1 = (ds ++ '-' :: de ++ ['/']).length := by
      simp; omega
    rw [e1, e2, List.drop_left]
  unfold perseContentRange
  simp only [strings_TrimPrefix_append, ne_eq, hne, not_false_eq_true, if_true, hp1, hpos,
    Int.toNat_ofNat, hdrop, hp2]
  have hpos2 : (0 : Int) < ((de.length + 1 : Nat) : Int) := by omega
  have e5 : (((de.length + 1 : Nat) : Int) + (ds.length : Int)).toNat =
      de.length + 1 + ds.length := by omega
  simp only [hpos2, if_true, e5, t1, t2, t3, hs, he]
  cases strconv_Atoi tail <;> rfl

/-- Claim C18 (Content-Range parsing). For all natural numbers `s` and `e`
that fit in an `int`, `perseContentRange` applied to `bytes ` followed by the
decimal of `s`, `-`, the decimal of `e`, `/` and any tail returns start `s`,
length `e` and, as expected length, the number the tail parses to or 0 when
it does not parse: `t` for the decimal of a `t` that fits in an `int`, and 0
for `*`. It returns nil for every string that does not begin with
`bytes `. -/
theorem perseContentRange_decimal (s e : Nat) (hs : s < 2 ^ 63) (he : e < 2 ^ 63) :
    (∀ tail : List Char,
      perseContentRange ("bytes ".toList ++ decimal s ++ ['-'] ++ decimal e ++ ['/'] ++ tail) =
        some ⟨s, e, (strconv_Atoi tail).getD 0⟩) ∧
    (∀ t : Nat, t < 2 ^ 63 →
      perseContentRange
          ("bytes ".toList ++ decimal s ++ ['-'] ++ decimal e ++ ['/'] ++ decimal t) =
        some ⟨s, e, t⟩) ∧
    perseContentRange
        ("bytes ".toList ++ decimal s ++ ['-'] ++ decimal e ++ ['/'] ++ "*".toList) =
      some ⟨s, e, 0⟩ ∧
    (∀ str : List Char, ¬ "bytes ".toList <+: str → perseContentRange str = none) := by
  have key : ∀ tail : List Char,
      perseContentRange ("bytes ".toList ++ decimal s ++ ['-'] ++ decimal e ++ ['/'] ++ tail) =
        some ⟨s, e, (strconv_Atoi tail).getD 0⟩ := by
    intro tail
    have e1 : "bytes ".toList ++ decimal s ++ ['-'] ++ decimal e ++ ['/'] ++ tail =
        "bytes ".toList ++ (decimal s ++ '-' :: (decimal e ++ '/' :: tail)) := by simp
    rw [e1]
    exact perseContentRange_shape (decimal s) (decimal e) tail s e
      (strconv_Atoi_decimal s hs) (strconv_Atoi_decimal e he) (decimal_spec s).1
      (not_mem_decimal s '-' (by decide)) (not_mem_decimal e '/' (by decide))
  refine ⟨key, ?_, ?_, fun str h => perseContentRange_absent str h⟩
  · intro t ht
    rw [key, strconv_Atoi_decimal t ht]
    rfl
  · rw [key]
    rfl

theorem perseContentRange_decimal_witness :
    (4 : Nat) < 2 ^ 63 ∧ (9 : Nat) < 2 ^ 63 ∧
    "bytes ".toList ++ decimal 4 ++ ['-'] ++ decimal 9 ++ ['/'] ++ decimal 10 =
      "bytes 4-9/10".toList ∧
    perseContentRange
        ("bytes ".toList ++ decimal 4 ++ ['-'] ++ decimal 9 ++ ['/'] ++ decimal 10) =
      some ⟨(4 : Nat), (9 : Nat), (10 : Nat)⟩ :=
  ⟨by decide, by decide, by decide,
   (perseContentRange_decimal 4 9 (by decide) (by decide)).2.1 10 (by decide)⟩

/-! ### Intermediate filesystems end where the helpers end -/

theorem removeTempFilesStates_last (s : State) :
    s.removeTempFilesStates.getLast? = some s.removeTempFiles.fs := rfl

theorem writeFileSyncingInfoStates_last (L : Lib) (fs : FS) (full : List Char)
    (info : FileSnycingInfo) (now : Int) :
    (writeFileSyncingInfoStates L fs full info now).getLast? =
      some (writeFileSyncingInfo L fs full info now).1 := by
  unfold writeFileSyncingInfoStates writeFileSyncingInfo
  cases hm : makeSureParentFolderCreated fs full with
  | mk fs1 e => cases e <;> rfl

theorem writeFileFromReaderStates_last (fs : FS) (reader : List Nat) (full : List Char)
    (a : Bool) (now : Int) :
    (writeFileFromReaderStates fs reader full a now).getLast? =
      some (writeFileFromReader fs reader full a now).1 := by
  unfold writeFileFromReaderStates writeFileFromReader
  cases hm : makeSureParentFolderCreated fs full with
  | mk fs1 e =>
    cases e with
    | some err => rfl
    | none =>
      simp only
      rw [List.range_succ, List.map_append, List.map_singleton, ← List.cons_append,
        List.getLast?_concat, List.take_length]

theorem moveFileStates_last (p : List Char) (fs : FS) (a b : List Char) :
    (moveFileStates p fs a b).getLast? = some (moveFile p fs a b).1 := by
  have hsep : ¬ filepath_Separator = '\\' := by decide
  unfold moveFileStates moveFile
  simp only [if_neg hsep]
  cases hm : makeSureParentFolderCreated fs b with
  | mk fs1 e =>
    cases e with
    | some err => rfl
    | none =>
      simp only
      cases hr : os_Rename fs1 a b with
      | mk fs2 e2 => cases e2 <;> rfl

theorem okStates_last (s : State) (utcTime : Int) :
    (s.okStates utcTime).getLast? = some (s.ok true utcTime).fs := by
  unfold State.okStates
  simp only
  rw [List.getLast?_concat]
  rfl

theorem doDownload200States_last (L : Lib) (r : Response) (now : Int) (s : State) :
    (doDownload200States L r now s).getLast? = some (doDownload200 L r now s).1.fs := by
  unfold doDownload200States doDownload200
  simp only
  cases strconv_Atoi r.ContentLength with
  | none => simp [removeTempFilesStates_last]
  | some cl =>
    simp only
    cases L.timeParse r.LastModified with
    | none => simp [removeTempFilesStates_last]
    | some lm =>
      simp only
      split_ifs with h1 h2
      · rw [List.getLast?_append, List.getLast?_append, removeTempFilesStates_last]
        rfl
      · rw [List.getLast?_append, List.getLast?_append, okStates_last]
        rfl
      · rw [List.getLast?_append, List.append_nil, List.getLast?_append,
          writeFileFromReaderStates_last]
        rfl

/-! ### Sidecar before body -/

theorem reads_of_not_file (L : Lib) (p : List Char) (body : List Nat)
    (side : Option FileSnycingInfo) (fs : FS)
    (h : fileAt fs (getFilleFullPath FileSyncingPath p) = false) :
    sidecarReads L p body side fs := by
  intro h1
  rw [h] at h1
  exact absurd h1 (by decide)

theorem reads_congr (L : Lib) (p : List Char) (body : List Nat)
    (side : Option FileSnycingInfo) (fs fs1 : FS)
    (h1 : fsLookup fs1 (getFilleFullPath FileSyncingPath p) =
      fsLookup fs (getFilleFullPath FileSyncingPath p))
    (h2 : fsLookup fs1 (getFilleFullPath FileSyncingInfoPath p) =
      fsLookup fs (getFilleFullPath FileSyncingInfoPath p))
    (h : sidecarReads L p body side fs) : sidecarReads L p body side fs1 := by
  intro hf
  rw [fileAt_congr h1] at hf
  obtain ⟨r1, k, t, r2⟩ := h hf
  exact ⟨(readFileSyncingInfo_congr L fs fs1 _ h2).trans r1, k, t, h1.trans r2⟩

theorem removeTempFilesStates_not_file (s : State) (fs1 : FS)
    (h : fs1 ∈ s.removeTempFilesStates) :
    fileAt fs1 (getFilleFullPath FileSyncingPath s.myRequest.filePath) = false := by
  unfold State.removeTempFilesStates at h
  simp only [List.mem_cons, List.mem_singleton, List.not_mem_nil, or_false] at h
  rcases h with h | h
  · rw [h]; exact removeFile_not_file _ _ _
  · rw [h]; exact removeFile_absent _ _ _ _ (removeFile_not_file _ _ _)

theorem readFileSyncingInfo_none_of_not_file (L : Lib) (fs : FS) (q : List Char)
    (h : fileAt fs q = false) : readFileSyncingInfo L fs q = none := by
  unfold fileAt at h
  unfold readFileSyncingInfo ioutil_ReadFile
  cases hl : fsLookup fs q with
  | none => rfl
  | some n =>
    cases n with
    | dir => rfl
    | file d t => simp [hl] at h

/-- A truncating open-and-copy either succeeds and leaves exactly the bytes
copied, or fails and leaves the filesystem as it was. -/
theorem os_OpenWrite_trunc (fs : FS) (name : List Char) (body : List Nat) (now : Int) :
    ((os_OpenWrite fs name false body now).2.2 = none ∧
      fsLookup (os_OpenWrite fs name false body now).1 name = some (.file body now)) ∨
    ((os_OpenWrite fs name false body now).2.2 ≠ none ∧
      (os_OpenWrite fs name false body now).1 = fs) := by
  unfold os_OpenWrite
  cases fsLookup fs name with
  | none => left; exact ⟨rfl, fsLookup_set_self _ _ _⟩
  | some n =>
    cases n with
    | dir => right; exact ⟨by simp, rfl⟩
    | file d t => left; exact ⟨rfl, by simp [fsLookup_set_self]⟩

/-- The sidecar write of the 200/416 branch leaves the staging path alone in
every filesystem it passes through; when it succeeds the sidecar holds the
encoded record, and when it fails the sidecar path is as it was. -/
theorem sidecar_write_states (L : Lib) (fs : FS) (p : List Char) (info : FileSnycingInfo)
    (now : Int) :
    (∀ fs1 ∈ writeFileSyncingInfoStates L fs (getFilleFullPath FileSyncingInfoPath p) info now,
      fsLookup fs1 (getFilleFullPath FileSyncingPath p) =
        fsLookup fs (getFilleFullPath FileSyncingPath p)) ∧
    fsLookup (writeFileSyncingInfo L fs (getFilleFullPath FileSyncingInfoPath p) info now).1
      (getFilleFullPath FileSyncingPath p) =
        fsLookup fs (getFilleFullPath FileSyncingPath p) ∧
    ((writeFileSyncingInfo L fs (getFilleFullPath FileSyncingInfoPath p) info now).2 = none →
      fsLookup (writeFileSyncingInfo L fs (getFilleFullPath FileSyncingInfoPath p) info now).1
        (getFilleFullPath FileSyncingInfoPath p) = some (.file (L.jsonMarshal info) now)) ∧
    ((writeFileSyncingInfo L fs (getFilleFullPath FileSyncingInfoPath p) info now).2 ≠ none →
      fsLookup (writeFileSyncingInfo L fs (getFilleFullPath FileSyncingInfoPath p) info now).1
        (getFilleFullPath FileSyncingInfoPath p) =
        fsLookup fs (getFilleFullPath FileSyncingInfoPath p)) := by
  have hself : fsLookup (makeSureParentFolderCreated fs
      (getFilleFullPath FileSyncingInfoPath p)).1 (getFilleFullPath FileSyncingInfoPath p) =
      fsLookup fs (getFilleFullPath FileSyncingInfoPath p) :=
    makeSureParentFolderCreated_self fs FileSyncingInfoPath p 8 lastSlash_info (by decide)
  have hsy : fsLookup (makeSureParentFolderCreated fs
      (getFilleFullPath FileSyncingInfoPath p)).1 (getFilleFullPath FileSyncingPath p) =
      fsLookup fs (getFilleFullPath FileSyncingPath p) :=
    makeSureParentFolderCreated_frame fs FileSyncingInfoPath p _ 8 lastSlash_info (by decide)
      (sync_not_prefix_info p)
  have hne : getFilleFullPath FileSyncingPath p ≠ getFilleFullPath FileSyncingInfoPath p :=
    fun e => sync_not_prefix_info p (e ▸ List.prefix_refl _)
  unfold writeFileSyncingInfoStates writeFileSyncingInfo
  cases hm : makeSureParentFolderCreated fs (getFilleFullPath FileSyncingInfoPath p) with
  | mk fs1 e =>
    rw [hm] at hself hsy
    simp only at hself hsy
    cases e with
    | some err =>
      simp only
      refine ⟨?_, hsy, fun h => absurd h (by simp), fun _ => hself⟩
      intro fs2 hmem
      simp only [List.mem_singleton] at hmem
      rw [hmem]; exact hsy
    | none =>
      simp only
      refine ⟨?_, ?_, ?_, ?_⟩
      · intro fs2 hmem
        simp only [List.mem_cons, List.mem_singleton, List.not_mem_nil, or_false] at hmem
        rcases hmem with h | h | h
        · rw [h]; exact hsy
        · rw [h, os_OpenWrite_ne _ _ _ _ _ _ hne]; exact hsy
        · rw [h, os_OpenWrite_ne _ _ _ _ _ _ hne]; exact hsy
      · rw [os_OpenWrite_ne _ _ _ _ _ _ hne]; exact hsy
      · intro hw
        rcases os_OpenWrite_trunc fs1 (getFilleFullPath FileSyncingInfoPath p)
          (L.jsonMarshal info) now with ⟨_, h2⟩ | ⟨h1, _⟩
        · exact h2
        · exact absurd hw h1
      · intro hw
        rcases os_OpenWrite_trunc fs1 (getFilleFullPath FileSyncingInfoPath p)
          (L.jsonMarshal info) now with ⟨h1, _⟩ | ⟨_, h2⟩
        · exact absurd h1 hw
        · rw [h2]; exact hself

/-- The body copy of the 200/416 branch, started without a staging file: in
every filesystem it passes through, the sidecar reads as before the copy and
a staging file, if there is one, holds the first bytes of the body. -/
theorem body_copy_states (L : Lib) (fs : FS) (p : List Char) (body : List Nat)
    (side : Option FileSnycingInfo) (now : Int)
    (hstaging : fileAt fs (getFilleFullPath FileSyncingPath p) = false)
    (hread : readFileSyncingInfo L fs (getFilleFullPath FileSyncingInfoPath p) = side) :
    ∀ fs1 ∈ writeFileFromReaderStates fs body (getFilleFullPath FileSyncingPath p) false now,
      sidecarReads L p body side fs1 := by
  have hself : fsLookup (makeSureParentFolderCreated fs
      (getFilleFullPath FileSyncingPath p)).1 (getFilleFullPath FileSyncingPath p) =
      fsLookup fs (getFilleFullPath FileSyncingPath p) :=
    makeSureParentFolderCreated_self fs FileSyncingPath p 8 lastSlash_sync (by decide)
  have hin : fsLookup (makeSureParentFolderCreated fs
      (getFilleFullPath FileSyncingPath p)).1 (getFilleFullPath FileSyncingInfoPath p) =
      fsLookup fs (getFilleFullPath FileSyncingInfoPath p) :=
    makeSureParentFolderCreated_frame fs FileSyncingPath p _ 8 lastSlash_sync (by decide)
      (info_not_prefix_sync p)
  have hne : getFilleFullPath FileSyncingInfoPath p ≠ getFilleFullPath FileSyncingPath p :=
    fun e => info_not_prefix_sync p (e ▸ List.prefix_refl _)
  unfold writeFileFromReaderStates
  cases hm : makeSureParentFolderCreated fs (getFilleFullPath FileSyncingPath p) with
  | mk fs1 e =>
    rw [hm] at hself hin
    simp only at hself hin
    have h0 : sidecarReads L p body side fs1 :=
      reads_of_not_file L p body side fs1 ((fileAt_congr hself).trans hstaging)
    have hstep : ∀ k : Nat, sidecarReads L p body side
        (os_OpenWrite fs1 (getFilleFullPath FileSyncingPath p) false (body.take k) now).1 := by
      intro k
      rcases os_OpenWrite_trunc fs1 (getFilleFullPath FileSyncingPath p) (body.take k) now
        with ⟨_, h2⟩ | ⟨_, h2⟩
      · intro _
        refine ⟨?_, k, now, h2⟩
        rw [readFileSyncingInfo_congr L fs _ _
          ((os_OpenWrite_ne fs1 _ _ false (body.take k) now hne).trans hin)]
        exact hread
      · rw [h2]; exact h0
    cases e with
    | some err =>
      intro fs2 hmem
      simp only [List.mem_singleton] at hmem
      rw [hmem]; exact h0
    | none =>
      intro fs2 hmem
      simp only at hmem
      rw [List.mem_cons, List.mem_map] at hmem
      rcases hmem with h | ⟨k, _, h⟩
      · rw [h]; exact h0
      · rw [← h]; exact hstep k

theorem renameEntry_fst_ne (oldpath newpath : List Char) (e : List Char × Node)
    (h : ¬ newpath <+: oldpath) : (renameEntry oldpath newpath e).1 ≠ oldpath := by
  unfold renameEntry
  split
  · intro heq
    apply h
    simp only at heq
    rw [← heq]
    exact List.prefix_append _ _
  · rename_i hc
    intro heq
    exact hc (Or.inl heq)

/-- After a directory is renamed away, nothing is left at its old path. -/
theorem lookup_renamed_old (fs : FS) (oldpath newpath : List Char)
    (h : ¬ newpath <+: oldpath) :
    fsLookup (fs.map (renameEntry oldpath newpath)) oldpath = none := by
  induction fs with
  | nil => rfl
  | cons e rest ih =>
    have hne := renameEntry_fst_ne oldpath newpath e h
    rw [List.map_cons]
    cases hr : renameEntry oldpath newpath e with
    | mk k1 n1 =>
      rw [hr] at hne
      simp only [fsLookup, if_neg hne]
      exact ih

/-- Renaming a directory leaves every path outside the old and the new
location as it was. -/
theorem lookup_renamed_outside (fs : FS) (oldpath newpath q : List Char)
    (h1 : ¬ oldpath <+: q) (h2 : ¬ newpath <+: q) :
    fsLookup (fs.map (renameEntry oldpath newpath)) q = fsLookup fs q := by
  induction fs with
  | nil => rfl
  | cons e rest ih =>
    obtain ⟨k, n⟩ := e
    rw [List.map_cons]
    by_cases hc : k = oldpath ∨ (oldpath ++ ['/']).isPrefixOf k = true
    · have e1 : renameEntry oldpath newpath (k, n) = (newpath ++ k.drop oldpath.length, n) := by
        unfold renameEntry
        simp only [if_pos hc]
      have hk : k ≠ q := by
        intro heq
        apply h1
        rw [← heq]
        rcases hc with hc | hc
        · rw [hc]
        · rw [List.isPrefixOf_iff_prefix] at hc
          exact (List.prefix_append _ _).trans hc
      have hn : newpath ++ k.drop oldpath.length ≠ q := by
        intro heq
        apply h2
        rw [← heq]
        exact List.prefix_append _ _
      rw [e1]
      simp only [fsLookup, if_neg hk, if_neg hn]
      exact ih
    · have e1 : renameEntry oldpath newpath (k, n) = (k, n) := by
        unfold renameEntry
        simp only [if_neg hc]
      rw [e1]
      simp only [fsLookup, ih]

/-- `os.Rename` leaves every path outside the old and the new location as it
was. -/
theorem os_Rename_outside (fs : FS) (oldpath newpath q : List Char)
    (h1 : ¬ oldpath <+: q) (h2 : ¬ newpath <+: q) :
    fsLookup (os_Rename fs oldpath newpath).1 q = fsLookup fs q := by
  have hqo : q ≠ oldpath := fun e => h1 (e ▸ List.prefix_refl _)
  have hqn : q ≠ newpath := fun e => h2 (e ▸ List.prefix_refl _)
  unfold os_Rename
  cases fsLookup fs oldpath with
  | none => rfl
  | some n =>
    cases n with
    | file data t =>
      simp only
      cases fsLookup fs newpath with
      | none =>
        simp only
        by_cases he : oldpath = newpath
        · rw [if_pos he]
        · rw [if_neg he, fsLookup_set_ne _ _ _ _ hqn, fsLookup_erase_ne _ _ _ hqo]
      | some m =>
        cases m with
        | dir => rfl
        | file d2 t2 =>
          simp only
          by_cases he : oldpath = newpath
          · rw [if_pos he]
          · rw [if_neg he, fsLookup_set_ne _ _ _ _ hqn, fsLookup_erase_ne _ _ _ hqo]
    | dir =>
      simp only
      by_cases he : oldpath = newpath
      · rw [if_pos he]
      · rw [if_neg he]
        by_cases hp : (oldpath ++ ['/']).isPrefixOf newpath = true
        · rw [if_pos hp]
        · rw [if_neg hp]
          cases fsLookup fs newpath with
          | none => exact lookup_renamed_outside fs oldpath newpath q h1 h2
          | some m =>
            cases m with
            | file d2 t2 => rfl
            | dir =>
              simp only
              by_cases hc : fsHasChild fs newpath = true
              · rw [if_pos hc]
              · rw [if_neg hc, lookup_renamed_outside _ oldpath newpath q h1 h2,
                  fsLookup_erase_ne _ _ _ hqn]

/-- After `os.Rename` the old path is as it was or holds nothing. -/
theorem os_Rename_old (fs : FS) (oldpath newpath : List Char) (h : ¬ newpath <+: oldpath) :
    fsLookup (os_Rename fs oldpath newpath).1 oldpath = fsLookup fs oldpath ∨
      fsLookup (os_Rename fs oldpath newpath).1 oldpath = none := by
  have he : oldpath ≠ newpath := fun e => h (e ▸ List.prefix_refl _)
  unfold os_Rename
  cases hl : fsLookup fs oldpath with
  | none => exact Or.inl hl
  | some n =>
    cases n with
    | file data t =>
      simp only
      cases fsLookup fs newpath with
      | none =>
        simp only
        rw [if_neg he]
        right
        rw [fsLookup_set_ne _ _ _ _ he, fsLookup_erase_self]
      | some m =>
        cases m with
        | dir => exact Or.inl hl
        | file d2 t2 =>
          simp only
          rw [if_neg he]
          right
          rw [fsLookup_set_ne _ _ _ _ he, fsLookup_erase_self]
    | dir =>
      simp only
      rw [if_neg he]
      by_cases hp : (oldpath ++ ['/']).isPrefixOf newpath = true
      · rw [if_pos hp]; exact Or.inl hl
      · rw [if_neg hp]
        cases fsLookup fs newpath with
        | none => right; exact lookup_renamed_old fs oldpath newpath h
        | some m =>
          cases m with
          | file d2 t2 => exact Or.inl hl
          | dir =>
            simp only
            by_cases hc : fsHasChild fs newpath = true
            · rw [if_pos hc]; exact Or.inl hl
            · rw [if_neg hc]; right; exact lookup_renamed_old _ oldpath newpath h

/-- Through `moveFile` from the staging path to the final path, the sidecar
path stays as it is and the staging path stays as it is or is emptied. -/
theorem moveFileStates_frame (p : List Char) (fs : FS) :
    ∀ fs1 ∈ moveFileStates p fs (getFilleFullPath FileSyncingPath p)
        (getFilleFullPath FileSavePath p),
      fsLookup fs1 (getFilleFullPath FileSyncingInfoPath p) =
        fsLookup fs (getFilleFullPath FileSyncingInfoPath p) ∧
      (fsLookup fs1 (getFilleFullPath FileSyncingPath p) =
          fsLookup fs (getFilleFullPath FileSyncingPath p) ∨
        fsLookup fs1 (getFilleFullPath FileSyncingPath p) = none) := by
  have hin : fsLookup (makeSureParentFolderCreated fs (getFilleFullPath FileSavePath p)).1
      (getFilleFullPath FileSyncingInfoPath p) =
      fsLookup fs (getFilleFullPath FileSyncingInfoPath p) :=
    makeSureParentFolderCreated_frame fs FileSavePath p _ 8 lastSlash_save (by decide)
      (info_not_prefix_save p)
  have hsy : fsLookup (makeSureParentFolderCreated fs (getFilleFullPath FileSavePath p)).1
      (getFilleFullPath FileSyncingPath p) =
      fsLookup fs (getFilleFullPath FileSyncingPath p) :=
    makeSureParentFolderCreated_frame fs FileSavePath p _ 8 lastSlash_save (by decide)
      (sync_not_prefix_save p)
  unfold moveFileStates
  cases hm : makeSureParentFolderCreated fs (getFilleFullPath FileSavePath p) with
  | mk fs1 e =>
    rw [hm] at hin hsy
    simp only at hin hsy
    have r1 := os_Rename_outside fs1 (getFilleFullPath FileSyncingPath p)
      (getFilleFullPath FileSavePath p) (getFilleFullPath FileSyncingInfoPath p)
      (sync_not_prefix_info p) (save_not_prefix_info p)
    have r2 := os_Rename_old fs1 (getFilleFullPath FileSyncingPath p)
      (getFilleFullPath FileSavePath p) (save_not_prefix_sync p)
    have q1 : fsLookup fs1 (getFilleFullPath FileSyncingInfoPath p) =
          fsLookup fs (getFilleFullPath FileSyncingInfoPath p) ∧
        (fsLookup fs1 (getFilleFullPath FileSyncingPath p) =
            fsLookup fs (getFilleFullPath FileSyncingPath p) ∨
          fsLookup fs1 (getFilleFullPath FileSyncingPath p) = none) :=
      ⟨hin, Or.inl hsy⟩
    have q2 : fsLookup (os_Rename fs1 (getFilleFullPath FileSyncingPath p)
          (getFilleFullPath FileSavePath p)).1 (getFilleFullPath FileSyncingInfoPath p) =
          fsLookup fs (getFilleFullPath FileSyncingInfoPath p) ∧
        (fsLookup (os_Rename fs1 (getFilleFullPath FileSyncingPath p)
            (getFilleFullPath FileSavePath p)).1 (getFilleFullPath FileSyncingPath p) =
            fsLookup fs (getFilleFullPath FileSyncingPath p) ∨
          fsLookup (os_Rename fs1 (getFilleFullPath FileSyncingPath p)
            (getFilleFullPath FileSavePath p)).1 (getFilleFullPath FileSyncingPath p) =
            none) := by
      refine ⟨r1.trans hin, ?_⟩
      rcases r2 with h | h
      · left; exact h.trans hsy
      · right; exact h
    cases e with
    | some err =>
      intro fs2 hmem
      simp only [List.mem_singleton] at hmem
      rw [hmem]; exact q1
    | none =>
      simp only
      cases hr : os_Rename fs1 (getFilleFullPath FileSyncingPath p)
          (getFilleFullPath FileSavePath p) with
      | mk fs2 e2 =>
        rw [hr] at q2
        simp only at q2
        have q3 : fsLookup (removeFile p fs2 (getFilleFullPath FileSyncingPath p)).1
              (getFilleFullPath FileSyncingInfoPath p) =
              fsLookup fs (getFilleFullPath FileSyncingInfoPath p) ∧
            (fsLookup (removeFile p fs2 (getFilleFullPath FileSyncingPath p)).1
                (getFilleFullPath FileSyncingPath p) =
                fsLookup fs (getFilleFullPath FileSyncingPath p) ∨
              fsLookup (removeFile p fs2 (getFilleFullPath FileSyncingPath p)).1
                (getFilleFullPath FileSyncingPath p) = none) := by
          refine ⟨(removeFile_frame p fs2 _ _ (info_not_prefix_sync p)).trans q2.1, ?_⟩
          rcases removeFile_cases p fs2 (getFilleFullPath FileSyncingPath p)
            (getFilleFullPath FileSyncingPath p) with h | h
          · rcases q2.2 with h2 | h2
            · left; exact h.trans h2
            · right; exact h.trans h2
          · right; exact h
        cases e2 with
        | some err =>
          intro fs3 hmem
          simp only [List.mem_cons, List.mem_singleton, List.not_mem_nil, or_false] at hmem
          rcases hmem with h | h
          · rw [h]; exact q1
          · rw [h]; exact q2
        | none =>
          intro fs3 hmem
          simp only [List.mem_cons, List.mem_singleton, List.not_mem_nil, or_false] at hmem
          rcases hmem with h | h | h
          · rw [h]; exact q1
          · rw [h]; exact q2
          · rw [h]; exact q3

theorem removeTempFilesStates_reads (L : Lib) (s2 : State) (body : List Nat)
    (side : Option FileSnycingInfo) :
    ∀ fs1 ∈ s2.removeTempFilesStates,
      sidecarReads L s2.myRequest.filePath body side fs1 :=
  fun fs1 h => reads_of_not_file _ _ _ _ _ (removeTempFilesStates_not_file s2 fs1 h)

/-- Through `ok(true, utcTime)`, what holds of the staging file and the
sidecar at its start holds in every filesystem it passes through. -/
theorem okStates_reads (L : Lib) (s2 : State) (body : List Nat)
    (side : Option FileSnycingInfo) (utcTime : Int)
    (h0 : sidecarReads L s2.myRequest.filePath body side s2.fs) :
    ∀ fs1 ∈ s2.okStates utcTime, sidecarReads L s2.myRequest.filePath body side fs1 := by
  intro fs1 hD
  unfold State.okStates at hD
  simp only [List.mem_append, List.mem_singleton] at hD
  rcases hD with (hm | hr) | hc
  · obtain ⟨m1, m2⟩ := moveFileStates_frame s2.myRequest.filePath s2.fs fs1 hm
    rcases m2 with h | h
    · exact reads_congr L _ body side s2.fs fs1 h m1 h0
    · exact reads_of_not_file _ _ _ _ _ (by simp [fileAt, h])
  · exact reads_of_not_file _ _ _ _ _
      (removeTempFilesStates_not_file
        ({ s2 with fs := (moveFile s2.myRequest.filePath s2.fs
          (getFilleFullPath FileSyncingPath s2.myRequest.filePath)
          (getFilleFullPath FileSavePath s2.myRequest.filePath)).1 } : State) fs1 hr)
  · refine reads_of_not_file _ _ _ _ _ ?_
    rw [hc]
    unfold changeFileModifyTime
    rw [fileAt_congr (os_Chtimes_ne _ _ _ _ (fun e => save_ne_sync _ e.symm))]
    exact removeTempFiles_staging
      ({ s2 with fs := (moveFile s2.myRequest.filePath s2.fs
        (getFilleFullPath FileSyncingPath s2.myRequest.filePath)
        (getFilleFullPath FileSavePath s2.myRequest.filePath)).1 } : State)

set_option maxRecDepth 100000 in
/-- Claim C13, as stated, fails: the resolver accepts `/a/b/c.bin` on a
filesystem where a leftover regular file stands in the way of the sidecar's
directory; the sidecar write of the 200/416 branch then fails, its error is
dropped, and the branch passes through a filesystem whose staging file holds
three bytes of the response while no sidecar can be read. -/
theorem staged_bytes_without_sidecar :
    getTargetFileInfo sampleLib deepPath blockedFS deepPath =
      (blockedFS, .ok ⟨none, none, none⟩) ∧
    strconv_Atoi fullResponse.ContentLength = some 10 ∧
    sampleLib.timeParse fullResponse.LastModified = some 77 ∧
    ∃ fs1 ∈ doDownload200States sampleLib fullResponse 100 blockedState,
      fsLookup fs1 (getFilleFullPath FileSyncingPath deepPath) =
        some (.file [1, 2, 3] 100) ∧
      readFileSyncingInfo sampleLib fs1 (getFilleFullPath FileSyncingInfoPath deepPath) =
        none := by
  decide

/-- Claim C13, amended (sidecar before body). In the 200/416 branch of
`doDownload`, for a response whose `Content-Length` parses to `n` and
`Last-Modified` to `M`, take the filesystems the branch passes through, call
by call and byte by byte of the body copy, ending with the filesystem
`doDownload200` returns. The sidecar `{ContentLength = n, LastModified = M}`
is written before the body copy and the error of that write is dropped. If
the codec reads back the record it writes, then in every one of these
filesystems in which a staging file exists, the staging file holds the first
bytes of this response's body, and the sidecar on disk decodes to `{n, M}`
when the sidecar write succeeded and cannot be read at all when it failed:
never the record of another version. -/
theorem sidecar_before_body (L : Lib) (s : State) (r : Response) (now : Int)
    (content_length last_modified : Int)
    (hcl : strconv_Atoi r.ContentLength = some content_length)
    (hlm : L.timeParse r.LastModified = some last_modified)
    (hround : L.jsonUnmarshal (L.jsonMarshal ⟨content_length, last_modified⟩) =
      some ⟨content_length, last_modified⟩) :
    (doDownload200States L r now s).getLast? = some (doDownload200 L r now s).1.fs ∧
    ∀ fs1 ∈ doDownload200States L r now s,
      fileAt fs1 (getFilleFullPath FileSyncingPath s.myRequest.filePath) = true →
        (∃ k t, fsLookup fs1 (getFilleFullPath FileSyncingPath s.myRequest.filePath) =
          some (.file (r.Body.take k) t)) ∧
        ((writeFileSyncingInfo L s.removeTempFiles.fs
            (getFilleFullPath FileSyncingInfoPath s.myRequest.filePath)
            ⟨content_length, last_modified⟩ now).2 = none →
          readFileSyncingInfo L fs1
              (getFilleFullPath FileSyncingInfoPath s.myRequest.filePath) =
            some ⟨content_length, last_modified⟩) ∧
        ((writeFileSyncingInfo L s.removeTempFiles.fs
            (getFilleFullPath FileSyncingInfoPath s.myRequest.filePath)
            ⟨content_length, last_modified⟩ now).2 ≠ none →
          readFileSyncingInfo L fs1
              (getFilleFullPath FileSyncingInfoPath s.myRequest.filePath) = none) := by
  refine ⟨doDownload200States_last L r now s, ?_⟩
  intro fs1 hmem
  obtain ⟨w1, w2, w3, w4⟩ := sidecar_write_states L s.removeTempFiles.fs s.myRequest.filePath
    ⟨content_length, last_modified⟩ now
  generalize hside : (if (writeFileSyncingInfo L s.removeTempFiles.fs
      (getFilleFullPath FileSyncingInfoPath s.myRequest.filePath)
      ⟨content_length, last_modified⟩ now).2 = none
    then some (⟨content_length, last_modified⟩ : FileSnycingInfo) else none) = side
  have hstaging2 : fileAt (writeFileSyncingInfo L s.removeTempFiles.fs
      (getFilleFullPath FileSyncingInfoPath s.myRequest.filePath)
      ⟨content_length, last_modified⟩ now).1
      (getFilleFullPath FileSyncingPath s.myRequest.filePath) = false :=
    (fileAt_congr w2).trans (removeTempFiles_staging s)
  have hread2 : readFileSyncingInfo L (writeFileSyncingInfo L s.removeTempFiles.fs
      (getFilleFullPath FileSyncingInfoPath s.myRequest.filePath)
      ⟨content_length, last_modified⟩ now).1
      (getFilleFullPath FileSyncingInfoPath s.myRequest.filePath) = side := by
    rw [← hside]
    by_cases hw : (writeFileSyncingInfo L s.removeTempFiles.fs
      (getFilleFullPath FileSyncingInfoPath s.myRequest.filePath)
      ⟨content_length, last_modified⟩ now).2 = none
    · rw [if_pos hw]
      simp [readFileSyncingInfo, ioutil_ReadFile, w3 hw, hround]
    · rw [if_neg hw]
      exact readFileSyncingInfo_none_of_not_file L _ _
        ((fileAt_congr (w4 hw)).trans (removeTempFiles_info s))
  have hbody := body_copy_states L
    (writeFileSyncingInfo L s.removeTempFiles.fs
      (getFilleFullPath FileSyncingInfoPath s.myRequest.filePath)
      ⟨content_length, last_modified⟩ now).1
    s.myRequest.filePath r.Body side now hstaging2 hread2
  have key : sidecarReads L s.myRequest.filePath r.Body side fs1 := by
    unfold doDownload200States at hmem
    simp only [hcl, hlm, List.mem_append] at hmem
    rcases hmem with hA | (hB | hC) | hD
    · exact reads_of_not_file _ _ _ _ _ (removeTempFilesStates_not_file s fs1 hA)
    · exact reads_of_not_file _ _ _ _ _
        ((fileAt_congr (w1 fs1 hB)).trans (removeTempFiles_staging s))
    · exact hbody fs1 hC
    · split_ifs at hD with h1 h2
      · exact removeTempFilesStates_reads L
          ({ s.removeTempFiles with fs := (writeFileFromReader
            (writeFileSyncingInfo L s.removeTempFiles.fs
              (getFilleFullPath FileSyncingInfoPath s.myRequest.filePath)
              ⟨content_length, last_modified⟩ now).1 r.Body
            (getFilleFullPath FileSyncingPath s.myRequest.filePath) false now).1 } : State)
          r.Body side fs1 hD
      · exact okStates_reads L
          ({ s.removeTempFiles with fs := (writeFileFromReader
            (writeFileSyncingInfo L s.removeTempFiles.fs
              (getFilleFullPath FileSyncingInfoPath s.myRequest.filePath)
              ⟨content_length, last_modified⟩ now).1 r.Body
            (getFilleFullPath FileSyncingPath s.myRequest.filePath) false now).1 } : State)
          r.Body side last_modified
          (hbody _ (List.mem_of_getLast?_eq_some (writeFileFromReaderStates_last _ _ _ _ _)))
          fs1 hD
      · exact absurd hD (List.not_mem_nil _)
  intro hf
  obtain ⟨k1, k2⟩ := key hf
  refine ⟨k2, fun hw => ?_, fun hw => ?_⟩
  · rw [k1, ← hside, if_pos hw]
  · rw [k1, ← hside, if_neg hw]

set_option maxRecDepth 100000 in
theorem sidecar_before_body_witness :
    strconv_Atoi fullResponse.ContentLength = some 10 ∧
    sampleLib.timeParse fullResponse.LastModified = some 77 ∧
    sampleLib.jsonUnmarshal (sampleLib.jsonMarshal ⟨10, 77⟩) = some ⟨10, 77⟩ ∧
    (writeFileSyncingInfo sampleLib freshState.removeTempFiles.fs
      (getFilleFullPath FileSyncingInfoPath freshState.myRequest.filePath) ⟨10, 77⟩ 100).2 =
      none ∧
    (writeFileFromReader
      (writeFileSyncingInfo sampleLib freshState.removeTempFiles.fs
        (getFilleFullPath FileSyncingInfoPath samplePath) ⟨10, 77⟩ 100).1
      [1, 2, 3] (getFilleFullPath FileSyncingPath samplePath) false 100).1 ∈
      doDownload200States sampleLib fullResponse 100 freshState ∧
    ((doDownload200States sampleLib fullResponse 100 freshState).getLast? =
        some (doDownload200 sampleLib fullResponse 100 freshState).1.fs ∧
      ∀ fs1 ∈ doDownload200States sampleLib fullResponse 100 freshState,
        fileAt fs1 (getFilleFullPath FileSyncingPath freshState.myRequest.filePath) = true →
          (∃ k t, fsLookup fs1 (getFilleFullPath FileSyncingPath
              freshState.myRequest.filePath) =
            some (.file (fullResponse.Body.take k) t)) ∧
          ((writeFileSyncingInfo sampleLib freshState.removeTempFiles.fs
              (getFilleFullPath FileSyncingInfoPath freshState.myRequest.filePath)
              ⟨10, 77⟩ 100).2 = none →
            readFileSyncingInfo sampleLib fs1
                (getFilleFullPath FileSyncingInfoPath freshState.myRequest.filePath) =
              some ⟨10, 77⟩) ∧
          ((writeFileSyncingInfo sampleLib freshState.removeTempFiles.fs
              (getFilleFullPath FileSyncingInfoPath freshState.myRequest.filePath)
              ⟨10, 77⟩ 100).2 ≠ none →
            readFileSyncingInfo sampleLib fs1
                (getFilleFullPath FileSyncingInfoPath freshState.myRequest.filePath) =
              none)) :=
  ⟨by decide, by decide, by decide, by decide, by decide,
   sidecar_before_body sampleLib freshState fullResponse 100 10 77 (by decide) (by decide)
     (by decide)⟩

end FileSync
